import Mathlib

/-!
# Grid-based body adjacency (dwl)

A shallow embedding of `src/src/environment/GridBasedBodyAdjacency.cpp`:
neighbor search over a sparse terrain cost map, footprint (body) cost
evaluation, batch adjacency construction and on-demand successors.

Conventions of the embedding

* `double` values are exact rationals (`ℚ`). The one division of the file whose
  divisor can be zero, by the number of stance areas, has a result of type
  `Double`: a number, or `notNumber` for the NaN or infinity of a division by
  zero. Edge weights are of that type.
* `Vertex` identifiers are natural numbers; grid keys are `unsigned short`,
  so key arithmetic is reduced modulo `2 ^ 16`.
* The Spatial Model, the terrain cost provider, the closest-vertex helper of
  the base class, the comparator `pair_first_less` and `cos`/`sin` are not
  part of the translated file; they are fields of the structures below.
* A loop over `double` that may fail to terminate is run with fuel and
  returns `none` when the fuel is exhausted.
* The methods dereference the result of `terrain_costmap.find(v)` without
  comparing it with `end()`. For a vertex missing from the map they read the
  pair found behind `end()`, which is the field `costMapEnd` of the
  environment: the language leaves its content open.
* `double body_cost;` of `computeBodyCost` has no initializer. Its content at
  the start of a call is an argument of `computeBodyCost`; the methods that
  call it take the contents met by their successive calls as `slots`.
-/

namespace dwl

/-! ## Data model -/

abbrev Vertex := Nat

abbrev Weight := ℚ

/-- Grid key of a terrain cell: one `unsigned short` index per axis. -/
structure Key where
  x : Nat
  y : Nat
deriving DecidableEq, Repr

/-- A `double` as written by `computeBodyCost` and stored in an edge: a number,
or the result of dividing by a stance-area count of zero (NaN or an
infinity). -/
inductive Double where
  | number (value : ℚ)
  | notNumber
deriving DecidableEq, Repr

/-- The C++ `Edge(target, weight)`. -/
abbrev Edge := Vertex × Double

/-- The C++ `std::map<Vertex, Weight>`; iteration follows the list order. A
`std::map` holds one entry per key, in ascending key order; the statements
that depend on it say so. -/
abbrev CostMap := List (Vertex × Weight)

/-- The C++ `std::map<Vertex, std::list<Edge>>`; a vertex without entry has the
empty edge list. -/
abbrev AdjacencyMap := Vertex → List Edge

/-- The C++ `Eigen::Vector3d` holding `(x, y, yaw)`. -/
structure State where
  x : ℚ
  y : ℚ
  yaw : ℚ
deriving DecidableEq, Repr

/-- The C++ `SearchArea`: a body-relative rectangle and its sampling step. -/
structure SearchArea where
  min_x : ℚ
  max_x : ℚ
  min_y : ℚ
  max_y : ℚ
  grid_resolution : ℚ
deriving DecidableEq, Repr

/-- Conversions offered by `environment_->getTerrainSpaceModel()`. The boolean
argument of `stateToKey` and `keyToState` is the position/orientation flag of
the source; `keyToVertex` and `vertexToKey` are only ever called with `true`
and `stateVertexToEnvironmentVertex` only with `XY_Y`. -/
structure SpaceModel where
  vertexToState : Vertex → State
  stateToVertex : State → Vertex
  stateToKey : ℚ → Bool → Nat
  keyToState : Nat → Bool → ℚ
  keyToVertex : Key → Vertex
  vertexToKey : Vertex → Key
  coordToVertex : ℚ × ℚ → Vertex
  vertexToCoord : Vertex → ℚ × ℚ
  stateVertexToEnvironmentVertex : Vertex → Vertex

/-- What `environment_` provides: the space model, the availability flag, the
terrain cost map and the average terrain cost. `costMapEnd` is the pair read
through the iterator `terrain_costmap.end()`, which `find` returns for a vertex
that is not in the map; the source never compares with `end()` before it reads
`->first` or `->second`. With the GNU library the key read there is the number
of entries of the map. -/
structure Environment where
  space : SpaceModel
  isTerrainInformation : Bool
  terrainCostMap : CostMap
  averageCostOfTerrain : ℚ
  costMapEnd : Vertex × Weight

/-- The members of `GridBasedBodyAdjacency` together with the collaborators its
methods call. `closest source target` is the pair `(closest_source,
closest_target)` written by `getTheClosestStartAndGoalVertex`. -/
structure GridBasedBodyAdjacency where
  environment : Environment
  stance_areas : List SearchArea
  is_stance_adjacency : Bool
  neighboring_definition : Nat
  number_top_reward : Nat
  uncertainty_factor : ℚ
  pair_first_less : Weight × Vertex → Weight × Vertex → Bool
  closest : Vertex → Vertex → Vertex × Vertex
  cos : ℚ → ℚ
  sin : ℚ → ℚ

/-- The pair `*terrain_costmap.find(v)`: the entry stored under `v`, and for a
vertex without entry the pair read through `end()`. -/
def CostMap.findEntry (m : CostMap) (end_entry : Vertex × Weight) (v : Vertex) :
    Vertex × Weight :=
  match List.lookup v m with
  | some c => (v, c)
  | none => end_entry

/-- The presence test `terrain_costmap.find(v)->first == v`. -/
def CostMap.tested (m : CostMap) (end_entry : Vertex × Weight) (v : Vertex) : Bool :=
  (CostMap.findEntry m end_entry v).1 == v

/-! ## Neighbor search -/

/-- Conversion of an `int` to `unsigned short`. -/
def toUShort (z : Int) : Nat := (z % 65536).toNat

/-- The eight probes of one radius, in the order of the source. -/
inductive Direction where
  | positive_x
  | negative_x
  | positive_y
  | negative_y
  | positive_xy
  | negative_xy
  | positive_yx
  | negative_yx
deriving DecidableEq, Repr

/-- The fixed enumeration of the directions. -/
def Direction.all : List Direction :=
  [.positive_x, .negative_x, .positive_y, .negative_y,
   .positive_xy, .negative_xy, .positive_yx, .negative_yx]

/-- The `searching_key` of a probe: `terrain_key` offset by `r` along the
direction, stored back into `unsigned short` fields. -/
def searchingKey (d : Direction) (terrain_key : Key) (r : Nat) : Key :=
  match d with
  | .positive_x => ⟨toUShort (terrain_key.x + r), terrain_key.y⟩
  | .negative_x => ⟨toUShort (terrain_key.x - r), terrain_key.y⟩
  | .positive_y => ⟨terrain_key.x, toUShort (terrain_key.y + r)⟩
  | .negative_y => ⟨terrain_key.x, toUShort (terrain_key.y - r)⟩
  | .positive_xy => ⟨toUShort (terrain_key.x + r), toUShort (terrain_key.y + r)⟩
  | .negative_xy => ⟨toUShort (terrain_key.x - r), toUShort (terrain_key.y - r)⟩
  | .positive_yx => ⟨toUShort (terrain_key.x - r), toUShort (terrain_key.y + r)⟩
  | .negative_yx => ⟨toUShort (terrain_key.x + r), toUShort (terrain_key.y - r)⟩

/-- The eight `is_found_neighbor_*` flags. -/
structure Found where
  positive_x : Bool
  negative_x : Bool
  positive_y : Bool
  negative_y : Bool
  positive_xy : Bool
  negative_xy : Bool
  positive_yx : Bool
  negative_yx : Bool
deriving DecidableEq, Repr

/-- All flags `false`, as at the declaration. -/
def Found.init : Found :=
  ⟨false, false, false, false, false, false, false, false⟩

/-- Reads the flag of a direction. -/
def Found.get (f : Found) : Direction → Bool
  | .positive_x => f.positive_x
  | .negative_x => f.negative_x
  | .positive_y => f.positive_y
  | .negative_y => f.negative_y
  | .positive_xy => f.positive_xy
  | .negative_xy => f.negative_xy
  | .positive_yx => f.positive_yx
  | .negative_yx => f.negative_yx

/-- Sets the flag of a direction to `true`. -/
def Found.mark (f : Found) : Direction → Found
  | .positive_x => { f with positive_x := true }
  | .negative_x => { f with negative_x := true }
  | .positive_y => { f with positive_y := true }
  | .negative_y => { f with negative_y := true }
  | .positive_xy => { f with positive_xy := true }
  | .negative_xy => { f with negative_xy := true }
  | .positive_yx => { f with positive_yx := true }
  | .negative_yx => { f with negative_yx := true }

/-- The state vertex pushed for a matching probe: the key is converted back to
`(x, y)`, joined with the heading of `key_yaw` and converted to a vertex. -/
def neighborStateVertex (sm : SpaceModel) (key_yaw : Nat) (searching_key : Key) : Vertex :=
  sm.stateToVertex
    ⟨sm.keyToState searching_key.x true, sm.keyToState searching_key.y true,
     sm.keyToState key_yaw false⟩

/-- One of the eight `if` blocks of the loop body. -/
def probe (g : GridBasedBodyAdjacency) (key_yaw : Nat) (terrain_key : Key) (r : Nat)
    (d : Direction) (st : Found × List Vertex) : Found × List Vertex :=
  let searching_key := searchingKey d terrain_key r
  let neighbor_vertex := g.environment.space.keyToVertex searching_key
  if CostMap.tested g.environment.terrainCostMap g.environment.costMapEnd neighbor_vertex
      && !(st.1.get d) then
    (st.1.mark d, st.2 ++ [neighborStateVertex g.environment.space key_yaw searching_key])
  else st

/-- The body of `for (int r = 1; r <= neighboring_definition_; r++)`. -/
def searchRadius (g : GridBasedBodyAdjacency) (key_yaw : Nat) (terrain_key : Key) (r : Nat)
    (st : Found × List Vertex) : Found × List Vertex :=
  let st := probe g key_yaw terrain_key r .positive_x st
  let st := probe g key_yaw terrain_key r .negative_x st
  let st := probe g key_yaw terrain_key r .positive_y st
  let st := probe g key_yaw terrain_key r .negative_y st
  let st := probe g key_yaw terrain_key r .positive_xy st
  let st := probe g key_yaw terrain_key r .negative_xy st
  let st := probe g key_yaw terrain_key r .positive_yx st
  probe g key_yaw terrain_key r .negative_yx st

/-- The `key_yaw` computed at the top of `searchNeighbors`. -/
def yawKey (g : GridBasedBodyAdjacency) (state_vertex : Vertex) : Nat :=
  g.environment.space.stateToKey (g.environment.space.vertexToState state_vertex).yaw false

/-- The `terrain_key` computed at the top of `searchNeighbors`. -/
def terrainKey (g : GridBasedBodyAdjacency) (state_vertex : Vertex) : Key :=
  g.environment.space.vertexToKey
    (g.environment.space.stateVertexToEnvironmentVertex state_vertex)

/-- The vertices `searchNeighbors` appends to `neighbor_states`. -/
def searchNeighbors (g : GridBasedBodyAdjacency) (state_vertex : Vertex) : List Vertex :=
  let key_yaw := yawKey g state_vertex
  let terrain_key := terrainKey g state_vertex
  if g.environment.isTerrainInformation then
    ((List.range' 1 g.neighboring_definition).foldl
      (fun st r => searchRadius g key_yaw terrain_key r st) (Found.init, [])).2
  else []

/-! ## Footprint cost evaluation -/

/-- The loop `for (double x = lo; x < hi; x += step)` around `body`. With fuel
`n` at most `n` rounds are run; `none` means the loop is still running. -/
def forLoop {σ : Type} (body : ℚ → σ → Option σ) : Nat → ℚ → ℚ → ℚ → σ → Option σ
  | 0, x, hi, _, s => if x < hi then none else some s
  | fuel + 1, x, hi, step, s =>
    if x < hi then
      (body x s).bind (fun s' => forLoop body fuel (x + step) hi step s')
    else some s

/-- The ordered set `stance_cost_queue`, smallest element first. -/
abbrev CostQueue := List (Weight × Vertex)

/-- The C++ `std::set::insert` under the comparator `less`: the element is placed
before the first larger one and dropped when an equivalent one (neither
smaller nor larger) is already stored. -/
def setInsert (less : Weight × Vertex → Weight × Vertex → Bool) (p : Weight × Vertex) :
    CostQueue → CostQueue
  | [] => [p]
  | q :: rest =>
    if less p q then p :: q :: rest
    else if less q p then q :: setInsert less p rest
    else q :: rest

/-- The sample `(x, y)` rotated by the heading about the body position. -/
def rotatedPoint (g : GridBasedBodyAdjacency) (state : State) (x y : ℚ) : ℚ × ℚ :=
  ((x - state.x) * g.cos state.yaw - (y - state.y) * g.sin state.yaw + state.x,
   (x - state.x) * g.sin state.yaw + (y - state.y) * g.cos state.yaw + state.y)

/-- The body of the two sampling loops: the rotated sample is projected to a
terrain vertex and, when that vertex passes the presence test, the pair of
`find(current_2d_vertex)->second` and the vertex is inserted in the queue. -/
def sampleBody (g : GridBasedBodyAdjacency) (state : State) (x y : ℚ)
    (queue : CostQueue) : CostQueue :=
  let current_2d_vertex := g.environment.space.coordToVertex (rotatedPoint g state x y)
  if CostMap.tested g.environment.terrainCostMap g.environment.costMapEnd current_2d_vertex then
    setInsert g.pair_first_less
      ((CostMap.findEntry g.environment.terrainCostMap g.environment.costMapEnd
        current_2d_vertex).2, current_2d_vertex) queue
  else queue

/-- The nested sampling loops of one stance area, from an empty queue. -/
def stanceQueue (fuel : Nat) (g : GridBasedBodyAdjacency) (state : State)
    (a : SearchArea) : Option CostQueue :=
  forLoop
    (fun y queue =>
      forLoop (fun x queue => some (sampleBody g state x y queue)) fuel
        (a.min_x + state.x) (a.max_x + state.x) a.grid_resolution queue)
    fuel (a.min_y + state.y) (a.max_y + state.y) a.grid_resolution []

/-- The loop `for (i < number_top_reward)` adding the first cost of the queue and
erasing it. -/
def popLowest : Nat → CostQueue → ℚ → ℚ
  | 0, _, stance_cost => stance_cost
  | _ + 1, [], stance_cost => stance_cost
  | n + 1, p :: rest, stance_cost => popLowest n rest (stance_cost + p.1)

/-- The local `number_top_reward`: the configured count, lowered to the queue
size. -/
def topCount (g : GridBasedBodyAdjacency) (queue : CostQueue) : Nat :=
  if queue.length < g.number_top_reward then queue.length else g.number_top_reward

/-- The `stance_cost` of one area once its queue is filled. -/
def stanceCost (g : GridBasedBodyAdjacency) (queue : CostQueue) : ℚ :=
  if topCount g queue = 0 then
    0 + g.uncertainty_factor * g.environment.averageCostOfTerrain
  else
    popLowest (topCount g queue) queue 0 / (topCount g queue : ℚ)

/-- The loop over `stance_areas_`, adding each `stance_cost` to `body_cost`. -/
def bodyCostLoop (fuel : Nat) (g : GridBasedBodyAdjacency) (state : State) :
    List SearchArea → ℚ → Option ℚ
  | [], body_cost => some body_cost
  | a :: rest, body_cost =>
    (stanceQueue fuel g state a).bind
      (fun queue => bodyCostLoop fuel g state rest (body_cost + stanceCost g queue))

/-- The statement `body_cost /= stance_areas_.size()`: not a number when the
count is zero. -/
def divideByCount (body_cost : ℚ) (count : Nat) : Double :=
  if count = 0 then Double.notNumber else Double.number (body_cost / (count : ℚ))

/-- The value `computeBodyCost` writes to `cost`. The argument `body_cost` is the
content of the local `double body_cost;` at the start of the call: the local
has no initializer and the loop accumulates onto it. -/
def computeBodyCost (fuel : Nat) (g : GridBasedBodyAdjacency) (body_cost : ℚ)
    (state_vertex : Vertex) : Option Double :=
  let state := g.environment.space.vertexToState state_vertex
  (bodyCostLoop fuel g state g.stance_areas body_cost).map
    (fun body_cost => divideByCount body_cost g.stance_areas.length)

/-! ## Adjacency construction -/

/-- The statement `adjacency_map[v].push_back(e)`. -/
def AdjacencyMap.push (m : AdjacencyMap) (v : Vertex) (e : Edge) : AdjacencyMap :=
  fun u => if u = v then m u ++ [e] else m u

/-- The loop `adjacency_map[neighbor_actions[i]].push_back(Edge(state_vertex, w))`. -/
def pushNeighbors (m : AdjacencyMap) (neighbor_actions : List Vertex) (state_vertex : Vertex)
    (w : Double) : AdjacencyMap :=
  neighbor_actions.foldl (fun m n => AdjacencyMap.push m n (state_vertex, w)) m

/-- The heading shared by all vertices of the batch: the heading of `source`
passed through `stateToKey` and `keyToState`. -/
def sourceYaw (g : GridBasedBodyAdjacency) (source : Vertex) : ℚ :=
  g.environment.space.keyToState
    (g.environment.space.stateToKey (g.environment.space.vertexToState source).yaw false) false

/-- The `state_vertex` rebuilt for a terrain vertex of the cost map. -/
def stateVertexOf (g : GridBasedBodyAdjacency) (yaw : ℚ) (vertex : Vertex) : Vertex :=
  let current_coord := g.environment.space.vertexToCoord vertex
  g.environment.space.stateToVertex ⟨current_coord.1, current_coord.2, yaw⟩

/-- The two bridging `push_back` of `computeAdjacencyMap`. -/
def bridge (g : GridBasedBodyAdjacency) (adjacency_map : AdjacencyMap)
    (source target : Vertex) : AdjacencyMap :=
  let closest_source := (g.closest source target).1
  let closest_target := (g.closest source target).2
  let adjacency_map :=
    if closest_source ≠ source then
      AdjacencyMap.push adjacency_map source (closest_source, Double.number 0)
    else adjacency_map
  if closest_target ≠ target then
    AdjacencyMap.push adjacency_map closest_target (target, Double.number 0)
  else adjacency_map

/-- The loop over the entries of the terrain cost map. `slots 0` is the content
of the uninitialized `body_cost` met by the call of `computeBodyCost` for the
first entry, `slots 1` for the second, and so on. -/
def terrainLoop (fuel : Nat) (g : GridBasedBodyAdjacency) (yaw : ℚ) :
    (Nat → ℚ) → List (Vertex × Weight) → AdjacencyMap → Option AdjacencyMap
  | _, [], adjacency_map => some adjacency_map
  | slots, (vertex, terrain_cost) :: rest, adjacency_map =>
    let state_vertex := stateVertexOf g yaw vertex
    if !g.is_stance_adjacency then
      terrainLoop fuel g yaw (fun i => slots (i + 1)) rest
        (pushNeighbors adjacency_map (searchNeighbors g state_vertex) state_vertex
          (Double.number terrain_cost))
    else
      (computeBodyCost fuel g (slots 0) state_vertex).bind (fun body_cost =>
        terrainLoop fuel g yaw (fun i => slots (i + 1)) rest
          (pushNeighbors adjacency_map (searchNeighbors g state_vertex) state_vertex body_cost))

/-- The adjacency map left by `computeAdjacencyMap`; `slots` are the contents of
the uninitialized `body_cost` met by its calls of `computeBodyCost`, in the
order of the cost map. -/
def computeAdjacencyMap (fuel : Nat) (g : GridBasedBodyAdjacency) (slots : Nat → ℚ)
    (adjacency_map : AdjacencyMap) (source target : Vertex) : Option AdjacencyMap :=
  let yaw := sourceYaw g source
  if g.environment.isTerrainInformation then
    terrainLoop fuel g yaw slots g.environment.terrainCostMap
      (bridge g adjacency_map source target)
  else some adjacency_map

/-- The loop of `getSuccessors` over `neighbor_actions`. In raw-cost mode the
weight is `find(terrain_vertex)->second`, read without a comparison with
`end()`. `slots 0` is the content of the uninitialized `body_cost` met by the
call of `computeBodyCost` for the first neighbor, and so on. -/
def successorLoop (fuel : Nat) (g : GridBasedBodyAdjacency) :
    (Nat → ℚ) → List Vertex → List Edge → Option (List Edge)
  | _, [], successors => some successors
  | slots, n :: rest, successors =>
    let terrain_vertex := g.environment.space.stateVertexToEnvironmentVertex n
    if !g.is_stance_adjacency then
      let terrain_cost :=
        (CostMap.findEntry g.environment.terrainCostMap g.environment.costMapEnd
          terrain_vertex).2
      successorLoop fuel g (fun i => slots (i + 1)) rest
        (successors ++ [(n, Double.number terrain_cost)])
    else
      (computeBodyCost fuel g (slots 0) n).bind (fun body_cost =>
        successorLoop fuel g (fun i => slots (i + 1)) rest (successors ++ [(n, body_cost)]))

/-- The list `successors` after `getSuccessors`; `slots` are the contents of the
uninitialized `body_cost` met by its calls of `computeBodyCost`, in the order
of the neighbors. -/
def getSuccessors (fuel : Nat) (g : GridBasedBodyAdjacency) (slots : Nat → ℚ)
    (successors : List Edge) (state_vertex : Vertex) : Option (List Edge) :=
  let neighbor_actions := searchNeighbors g state_vertex
  if g.environment.isTerrainInformation then
    successorLoop fuel g slots neighbor_actions successors
  else some successors

/-! ## Construction -/

/-- Value stored in the cost map under the key `v`, if there is one. -/
def CostMap.find (m : CostMap) (v : Vertex) : Option Weight :=
  List.lookup v m

/-- Whether `v` is a key of the cost map. This is what the statements mean by
a vertex present in the cost map; the test the source performs is
`CostMap.tested`. -/
def CostMap.hasKey (m : CostMap) (v : Vertex) : Bool :=
  (CostMap.find m v).isSome

/-- Whether the probe of direction `d` at radius `r` passes the presence test of
the source, `find(neighbor_vertex)->first == neighbor_vertex`. -/
def keyPresent (g : GridBasedBodyAdjacency) (terrain_key : Key) (d : Direction)
    (r : Nat) : Bool :=
  CostMap.tested g.environment.terrainCostMap g.environment.costMapEnd
    (g.environment.space.keyToVertex (searchingKey d terrain_key r))

/-- Whether the key probed by direction `d` at radius `r` is a key of the cost
map. -/
def keyInMap (g : GridBasedBodyAdjacency) (terrain_key : Key) (d : Direction)
    (r : Nat) : Bool :=
  CostMap.hasKey g.environment.terrainCostMap
    (g.environment.space.keyToVertex (searchingKey d terrain_key r))

/-- The vertex pushed by direction `d` at radius `r`. -/
def neighborAt (g : GridBasedBodyAdjacency) (state_vertex : Vertex) (d : Direction)
    (r : Nat) : Vertex :=
  neighborStateVertex g.environment.space (yawKey g state_vertex)
    (searchingKey d (terrainKey g state_vertex) r)

/-- Whether the probe of direction `d` passes the presence test at radius `r`
and at no smaller radius. -/
def firstAt (g : GridBasedBodyAdjacency) (terrain_key : Key) (d : Direction) (r : Nat) : Bool :=
  keyPresent g terrain_key d r && !((List.range' 1 (r - 1)).any (keyPresent g terrain_key d))

/-- The vertices pushed during the round of radius `r`. -/
def emitted (g : GridBasedBodyAdjacency) (key_yaw : Nat) (terrain_key : Key) (r : Nat) :
    List Vertex :=
  (Direction.all.filter (fun d => firstAt g terrain_key d r)).map
    (fun d => neighborStateVertex g.environment.space key_yaw (searchingKey d terrain_key r))

/-- Position of a direction in the fixed enumeration. -/
def Direction.index : Direction → Nat
  | .positive_x => 0
  | .negative_x => 1
  | .positive_y => 2
  | .negative_y => 3
  | .positive_xy => 4
  | .negative_xy => 5
  | .positive_yx => 6
  | .negative_yx => 7

/-- The smallest radius in `1..neighboring_definition` at which the probe of
direction `d` passes the presence test, if there is one. -/
def firstMatch (g : GridBasedBodyAdjacency) (state_vertex : Vertex) (d : Direction) :
    Option Nat :=
  (List.range' 1 g.neighboring_definition).find? (keyPresent g (terrainKey g state_vertex) d)

/-- Neighbor search told round by round: in the round of radius `r` exactly the
directions whose first match lies at `r` yield their neighbor, in the order
of the direction enumeration. -/
def searchNeighborsRounds (g : GridBasedBodyAdjacency) (state_vertex : Vertex) : List Vertex :=
  (List.range' 1 g.neighboring_definition).flatMap (fun r =>
    (Direction.all.filter (fun d => decide (firstMatch g state_vertex d = some r))).map
      (fun d => neighborAt g state_vertex d r))

/-- Number of rounds of `for (double x = lo; x < hi; x += step)` for a positive
step. -/
def loopCount (lo hi step : ℚ) : Nat := ⌈(hi - lo) / step⌉₊

/-- The values taken by the loop variable of `for (double x = lo; x < hi; x +=
step)` for a positive step: `lo`, `lo + step`, ... below `hi`. -/
def axisSamples (lo hi step : ℚ) : List ℚ :=
  (List.range (loopCount lo hi step)).map (fun (i : Nat) => lo + (i : ℚ) * step)

/-- The sample points `(x, y)` of one stance area in the order the nested loops
visit them, for a positive resolution. -/
def samplePoints (a : SearchArea) (state : State) : List (ℚ × ℚ) :=
  (axisSamples (a.min_y + state.y) (a.max_y + state.y) a.grid_resolution).flatMap (fun y =>
    (axisSamples (a.min_x + state.x) (a.max_x + state.x) a.grid_resolution).map
      (fun x => (x, y)))

/-- The `(cost, vertex)` pairs the sampling hands to the queue: one per sample
whose terrain vertex passes the presence test, in sampling order. -/
def sampledHits (g : GridBasedBodyAdjacency) (state : State) (a : SearchArea) :
    List (Weight × Vertex) :=
  (samplePoints a state).filterMap (fun p =>
    if CostMap.tested g.environment.terrainCostMap g.environment.costMapEnd
        (g.environment.space.coordToVertex (rotatedPoint g state p.1 p.2)) then
      some ((CostMap.findEntry g.environment.terrainCostMap g.environment.costMapEnd
          (g.environment.space.coordToVertex (rotatedPoint g state p.1 p.2))).2,
        g.environment.space.coordToVertex (rotatedPoint g state p.1 p.2))
    else none)

/-- The `(cost, vertex)` pairs of the samples whose terrain vertex is a key of
the cost map, one per such sample, in sampling order. -/
def knownHits (g : GridBasedBodyAdjacency) (state : State) (a : SearchArea) :
    List (Weight × Vertex) :=
  (samplePoints a state).filterMap (fun p =>
    (CostMap.find g.environment.terrainCostMap
        (g.environment.space.coordToVertex (rotatedPoint g state p.1 p.2))).map
      (fun c => (c, g.environment.space.coordToVertex (rotatedPoint g state p.1 p.2))))

/-- No sample of the area is projected to a vertex that passes the presence
test without being a key of the cost map. -/
def SamplesInMap (g : GridBasedBodyAdjacency) (state : State) (a : SearchArea) : Prop :=
  ∀ p ∈ samplePoints a state,
    CostMap.tested g.environment.terrainCostMap g.environment.costMapEnd
        (g.environment.space.coordToVertex (rotatedPoint g state p.1 p.2)) = true →
      CostMap.hasKey g.environment.terrainCostMap
        (g.environment.space.coordToVertex (rotatedPoint g state p.1 p.2)) = true

/-- Fuel that lets both sampling loops of an area of positive resolution run to
their end. -/
def areaFuel (a : SearchArea) : Nat :=
  max (loopCount a.min_x a.max_x a.grid_resolution) (loopCount a.min_y a.max_y a.grid_resolution)

/-- Fuel that suffices for every stance area. -/
def bodyFuel (areas : List SearchArea) : Nat :=
  (areas.map areaFuel).foldr max 0

/-- The cost of one stance area: `stance_cost` after its queue is filled. -/
def areaCost (fuel : Nat) (g : GridBasedBodyAdjacency) (state : State) (a : SearchArea) :
    Option ℚ :=
  (stanceQueue fuel g state a).map (stanceCost g)

/-- Mean of the `k` lowest values of a list of costs. -/
def meanOfLowest (k : Nat) (costs : List ℚ) : ℚ :=
  ((costs.insertionSort (· ≤ ·)).take k).sum / (k : ℚ)

/-- Two entries neither of which is ordered before the other. -/
def equivalentUnder (less : Weight × Vertex → Weight × Vertex → Bool)
    (p q : Weight × Vertex) : Bool :=
  !(less p q) && !(less q p)

/-- The entries an ordered set keeps of a sequence of insertions: the first of
every class of equivalent entries, here in insertion order. -/
def retained (less : Weight × Vertex → Weight × Vertex → Bool) (hits : List (Weight × Vertex)) :
    List (Weight × Vertex) :=
  hits.foldl (fun acc p => if acc.any (equivalentUnder less p) then acc else acc ++ [p]) []

/-- What the evaluation needs of the comparator of the queue: a strict order that
never places a higher cost first. -/
structure CostOrder (less : Weight × Vertex → Weight × Vertex → Bool) : Prop where
  irrefl : ∀ p, less p p = false
  trans : ∀ p q r, less p q = true → less q r = true → less p r = true
  cost_le : ∀ p q, less p q = true → p.1 ≤ q.1

/-- The queue after the insertion of the given entries, one after the other. -/
def queueOf (less : Weight × Vertex → Weight × Vertex → Bool) (hits : List (Weight × Vertex)) :
    CostQueue :=
  hits.foldl (fun queue p => setInsert less p queue) []

/-- The value `computeBodyCost` writes when its sampling loops end: the initial
content of `body_cost` plus the area costs, divided by the number of areas. -/
def bodyCostValue (g : GridBasedBodyAdjacency) (body_cost : ℚ) (state_vertex : Vertex) :
    Double :=
  divideByCount
    (body_cost + (g.stance_areas.map (fun a =>
      stanceCost g (queueOf g.pair_first_less
        (sampledHits g (g.environment.space.vertexToState state_vertex) a)))).sum)
    g.stance_areas.length

/-- Weight of the edges into `state_vertex` by the mode switch: the body cost in
stance mode, the raw terrain cost otherwise. -/
def edgeWeight (g : GridBasedBodyAdjacency) (body_cost : ℚ) (state_vertex : Vertex)
    (terrain_cost : Weight) : Double :=
  if g.is_stance_adjacency then bodyCostValue g body_cost state_vertex
  else Double.number terrain_cost

/-- The terrain-derived edges stored under `n`: for every entry of the cost map,
in iteration order, one edge into its state vertex per occurrence of `n`
among the neighbors of that state vertex. The call of `computeBodyCost` for
the entry at position `i` starts from `slots i`. -/
def terrainEdges (g : GridBasedBodyAdjacency) (yaw : ℚ) :
    (Nat → ℚ) → List (Vertex × Weight) → Vertex → List Edge
  | _, [], _ => []
  | slots, tc :: rest, n =>
    List.replicate ((searchNeighbors g (stateVertexOf g yaw tc.1)).count n)
        (stateVertexOf g yaw tc.1, edgeWeight g (slots 0) (stateVertexOf g yaw tc.1) tc.2)
      ++ terrainEdges g yaw (fun i => slots (i + 1)) rest n

/-- The bridging edges stored under `n`: `source -> closest_source` when the two
differ and `closest_target -> target` when the two differ. -/
def bridgingEdges (g : GridBasedBodyAdjacency) (source target n : Vertex) : List Edge :=
  (if (g.closest source target).1 ≠ source ∧ n = source then
      [((g.closest source target).1, Double.number 0)] else []) ++
    (if (g.closest source target).2 ≠ target ∧ n = (g.closest source target).2 then
      [(target, Double.number 0)] else [])

/-- Fuel and resolutions under which every call of `computeBodyCost` made in
stance mode ends; nothing is asked in raw-cost mode. -/
def Terminates (g : GridBasedBodyAdjacency) (fuel : Nat) : Prop :=
  g.is_stance_adjacency = true →
    (∀ a ∈ g.stance_areas, 0 < a.grid_resolution) ∧ bodyFuel g.stance_areas ≤ fuel

/-- A key whose offsets by up to `R` steps stay inside the `unsigned short`
range. -/
def Key.inRange (R : Nat) (k : Key) : Prop :=
  R ≤ k.x ∧ k.x + R < 65536 ∧ R ≤ k.y ∧ k.y + R < 65536

/-- The direction pointing back. -/
def Direction.opposite : Direction → Direction
  | .positive_x => .negative_x
  | .negative_x => .positive_x
  | .positive_y => .negative_y
  | .negative_y => .positive_y
  | .positive_xy => .negative_xy
  | .negative_xy => .positive_xy
  | .positive_yx => .negative_yx
  | .negative_yx => .positive_yx

/-- A Spatial Model whose conversions agree with each other on the cells of the
cost map at the heading key `key_yaw`, a cost map with one entry per vertex,
and keys far enough from the border for the offsets of the search not to
wrap. -/
structure Consistent (g : GridBasedBodyAdjacency) (key_yaw : Nat) : Prop where
  key_vertex : ∀ k : Key, k.x < 65536 → k.y < 65536 →
    g.environment.space.vertexToKey (g.environment.space.keyToVertex k) = k
  vertex_key : ∀ tc ∈ g.environment.terrainCostMap,
    g.environment.space.keyToVertex (g.environment.space.vertexToKey tc.1) = tc.1
  coord : ∀ tc ∈ g.environment.terrainCostMap,
    g.environment.space.vertexToCoord tc.1
      = (g.environment.space.keyToState (g.environment.space.vertexToKey tc.1).x true,
         g.environment.space.keyToState (g.environment.space.vertexToKey tc.1).y true)
  project : ∀ k : Key, k.x < 65536 → k.y < 65536 →
    g.environment.space.stateVertexToEnvironmentVertex
      (neighborStateVertex g.environment.space key_yaw k) = g.environment.space.keyToVertex k
  heading : ∀ k : Key, k.x < 65536 → k.y < 65536 →
    g.environment.space.stateToKey
      (g.environment.space.vertexToState
        (neighborStateVertex g.environment.space key_yaw k)).yaw false = key_yaw
  in_range : ∀ tc ∈ g.environment.terrainCostMap,
    Key.inRange g.neighboring_definition (g.environment.space.vertexToKey tc.1)
  nodup_keys : (g.environment.terrainCostMap.map Prod.fst).Nodup

/-- The weight `getSuccessors` gives to the edge into the neighbor `n` when the
call of `computeBodyCost` made for it starts from `body_cost`. -/
def successorWeight (g : GridBasedBodyAdjacency) (body_cost : ℚ) (n : Vertex) : Double :=
  edgeWeight g body_cost n
    (CostMap.findEntry g.environment.terrainCostMap g.environment.costMapEnd
      (g.environment.space.stateVertexToEnvironmentVertex n)).2

/-- The edges `getSuccessors` appends for the neighbors `ns`, the call for the
neighbor at position `i` starting from `slots i`. -/
def successorEdges (g : GridBasedBodyAdjacency) : (Nat → ℚ) → List Vertex → List Edge
  | _, [] => []
  | slots, n :: rest =>
    (n, successorWeight g (slots 0) n) :: successorEdges g (fun i => slots (i + 1)) rest

/-- No probe made from a cell of the cost map within the radius passes the
presence test without meeting a key of the cost map. -/
def ProbesInMap (g : GridBasedBodyAdjacency) : Prop :=
  ∀ tc ∈ g.environment.terrainCostMap, ∀ d r, 1 ≤ r → r ≤ g.neighboring_definition →
    keyPresent g (g.environment.space.vertexToKey tc.1) d r = true →
      keyInMap g (g.environment.space.vertexToKey tc.1) d r = true

/-- The key offset by `r` along a direction without reduction modulo `2 ^ 16`. -/
def offsetKey (d : Direction) (k : Key) (r : Nat) : Key :=
  match d with
  | .positive_x => ⟨k.x + r, k.y⟩
  | .negative_x => ⟨k.x - r, k.y⟩
  | .positive_y => ⟨k.x, k.y + r⟩
  | .negative_y => ⟨k.x, k.y - r⟩
  | .positive_xy => ⟨k.x + r, k.y + r⟩
  | .negative_xy => ⟨k.x - r, k.y - r⟩
  | .positive_yx => ⟨k.x - r, k.y + r⟩
  | .negative_yx => ⟨k.x + r, k.y - r⟩

/-- The component with the neighboring radius set to `R`. -/
def withRadius (g : GridBasedBodyAdjacency) (R : Nat) : GridBasedBodyAdjacency :=
  { g with neighboring_definition := R }

/-- The two nested sampling loops of `computeBodyCost` around an arbitrary body:
the loop over `y` outside, the loop over `x` inside, both stepping by the
resolution of the area from its lower to its upper bound, shifted by the body
position. -/
def sampleLoops {σ : Type} (body : ℚ → ℚ → σ → σ) (fuel : Nat) (state : State)
    (a : SearchArea) (init : σ) : Option σ :=
  forLoop
    (fun y s =>
      forLoop (fun x s => some (body x y s)) fuel
        (a.min_x + state.x) (a.max_x + state.x) a.grid_resolution s)
    fuel (a.min_y + state.y) (a.max_y + state.y) a.grid_resolution init

/-- A Spatial Model whose conversions agree with each other on the cells of the
cost map at the heading key `key_yaw`; the keys of the cost map are
`unsigned short` values. -/
structure Roundtrip (g : GridBasedBodyAdjacency) (key_yaw : Nat) : Prop where
  key_vertex : ∀ k : Key, k.x < 65536 → k.y < 65536 →
    g.environment.space.vertexToKey (g.environment.space.keyToVertex k) = k
  vertex_key : ∀ tc ∈ g.environment.terrainCostMap,
    g.environment.space.keyToVertex (g.environment.space.vertexToKey tc.1) = tc.1
  coord : ∀ tc ∈ g.environment.terrainCostMap,
    g.environment.space.vertexToCoord tc.1
      = (g.environment.space.keyToState (g.environment.space.vertexToKey tc.1).x true,
         g.environment.space.keyToState (g.environment.space.vertexToKey tc.1).y true)
  project : ∀ k : Key, k.x < 65536 → k.y < 65536 →
    g.environment.space.stateVertexToEnvironmentVertex
      (neighborStateVertex g.environment.space key_yaw k) = g.environment.space.keyToVertex k
  heading : ∀ k : Key, k.x < 65536 → k.y < 65536 →
    g.environment.space.stateToKey
      (g.environment.space.vertexToState
        (neighborStateVertex g.environment.space key_yaw k)).yaw false = key_yaw
  bounded : ∀ tc ∈ g.environment.terrainCostMap,
    (g.environment.space.vertexToKey tc.1).x < 65536 ∧
      (g.environment.space.vertexToKey tc.1).y < 65536

/-! ## Sample components

A unit grid and small cost maps on which the statements are instantiated. -/

/-- Key of a coordinate on the unit grid. -/
def gridKey (x : ℚ) : Nat := toUShort ⌊x⌋

/-- Modelled from the spec: the Spatial Model, which is not among the translated
sources, as a grid of unit cells. A terrain vertex is `x + 65536 * y` for the
key `(x, y)`; a state vertex adds `65536 ^ 2` times the heading key. -/
def gridSpace : SpaceModel where
  vertexToState v :=
    ⟨((v % 65536 : Nat) : ℚ), (((v / 65536) % 65536 : Nat) : ℚ), ((v / 4294967296 : Nat) : ℚ)⟩
  stateToVertex s := gridKey s.x + 65536 * gridKey s.y + 4294967296 * gridKey s.yaw
  stateToKey x _ := gridKey x
  keyToState k _ := (k : ℚ)
  keyToVertex k := k.x + 65536 * k.y
  vertexToKey v := ⟨v % 65536, (v / 65536) % 65536⟩
  coordToVertex c := gridKey c.1 + 65536 * gridKey c.2
  vertexToCoord v := (((v % 65536 : Nat) : ℚ), (((v / 65536) % 65536 : Nat) : ℚ))
  stateVertexToEnvironmentVertex v := v % 4294967296

/-- Terrain of the cells `(5, 5)`, `(6, 5)` and `(8, 5)` with costs 1, 2 and 3. -/
def lineMap : CostMap := [(327685, 1), (327686, 2), (327688, 3)]

/-- Comparator on the cost alone, as the name `pair_first_less` suggests. -/
def lessByCost (p q : Weight × Vertex) : Bool := decide (p.1 < q.1)

/-- Modelled from the spec: the comparator `pair_first_less`, declared outside
the translated file, as the spec words it: ascending cost, ties broken by the
vertex. -/
def lessByCostThenVertex (p q : Weight × Vertex) : Bool :=
  decide (p.1 < q.1 ∨ (p.1 = q.1 ∧ p.2 < q.2))

/-- Terrain of three cells `(5, 5)`, `(6, 5)`, `(7, 5)` with costs 1, 2 and 9. -/
def patchMap : CostMap := [(327685, 1), (327686, 2), (327687, 9)]

/-- Terrain of the seven cells `(5, 5)` to `(11, 5)` with costs 1, 2, 3, 4, 5, 9
and 9. -/
def rowMap : CostMap :=
  [(327685, 1), (327686, 2), (327687, 3), (327688, 4), (327689, 5), (327690, 9), (327691, 9)]

/-- A component on the unit grid with the configuration of the constructor
(radius 3, top count 5, uncertainty factor 1.15), an average terrain cost of
4 and the given cost map, stance areas, mode and comparator. The pair read
through `end()` has the number of entries as key, as with the GNU library,
and cost 0. The closest-vertex helper returns its arguments; the
trigonometric functions are cut to `1 - t^2/2` and `t`, exact at heading 0. -/
def sampleGrid (costmap : CostMap) (areas : List SearchArea) (stance : Bool)
    (less : Weight × Vertex → Weight × Vertex → Bool) :
    GridBasedBodyAdjacency where
  environment := ⟨gridSpace, true, costmap, 4, (costmap.length, 0)⟩
  stance_areas := areas
  is_stance_adjacency := stance
  neighboring_definition := 3
  number_top_reward := 5
  uncertainty_factor := 23 / 20
  pair_first_less := less
  closest := fun s t => (s, t)
  cos := fun t => 1 - t ^ 2 / 2
  sin := fun t => t

/-- The stance area `[0, 3) x [0, 1)` sampled at step 1/2. -/
def fineArea : SearchArea := ⟨0, 3, 0, 1, 1 / 2⟩

/-- The stance area `[0, 7) x [0, 1)` sampled at step 1. -/
def rowArea : SearchArea := ⟨0, 7, 0, 1, 1⟩

/-- Raw-cost component over `lineMap`. -/
def lineGrid : GridBasedBodyAdjacency :=
  sampleGrid lineMap [rowArea] false lessByCost

/-- Stance component over `patchMap` with one finely sampled area. -/
def patchGrid (less : Weight × Vertex → Weight × Vertex → Bool) :
    GridBasedBodyAdjacency :=
  sampleGrid patchMap [fineArea] true less

/-- Stance component over `rowMap` with one area covering the seven cells. -/
def rowGrid (less : Weight × Vertex → Weight × Vertex → Bool) :
    GridBasedBodyAdjacency :=
  sampleGrid rowMap [rowArea] true less

/-- The component `lineGrid` without terrain information. -/
def blindGrid : GridBasedBodyAdjacency :=
  { lineGrid with environment := ⟨gridSpace, false, lineMap, 4, (3, 0)⟩ }

/-- The component `lineGrid` with a closest-vertex helper that answers the cells
`(5, 5)` and `(8, 5)`. -/
def bridgeGrid : GridBasedBodyAdjacency :=
  { lineGrid with closest := fun _ _ => (327685, 327688) }

/-- Raw-cost component over `patchMap`. -/
def rawPatchGrid : GridBasedBodyAdjacency :=
  sampleGrid patchMap [rowArea] false lessByCost

/-- The stance area `[0, 6) x [0, 1)` sampled at step 1. -/
def originArea : SearchArea := ⟨0, 6, 0, 1, 1⟩

/-- The component `rowGrid lessByCost` with exact rational rotations: the heading
is given by the tangent `t` of its half, so that the cosine is `(1 - t^2) /
(1 + t^2)` and the sine `2 t / (1 + t^2)`; `t = 0` is heading 0 and `t = 1`
the quarter turn. -/
def turnGrid : GridBasedBodyAdjacency :=
  { rowGrid lessByCost with
    cos := fun t => (1 - t ^ 2) / (1 + t ^ 2)
    sin := fun t => 2 * t / (1 + t ^ 2) }

/-- A stance area `[0, 1) x [0, 1)` with resolution 0. -/
def stuckArea : SearchArea := ⟨0, 1, 0, 1, 0⟩

/-- Terrain of the five cells `(0, 0)` to `(4, 0)` with costs 1, 2, 4, 5 and 6.
The cell `(5, 0)` is the vertex 5, the number of entries. -/
def originMap : CostMap := [(0, 1), (1, 2), (2, 4), (3, 5), (4, 6)]

/-- Stance component over `originMap` with one area covering the cells `(0, 0)`
to `(5, 0)`; `end_cost` is the cost read through `end()`. -/
def originGrid (less : Weight × Vertex → Weight × Vertex → Bool) (end_cost : Weight) :
    GridBasedBodyAdjacency :=
  { sampleGrid originMap [originArea] true less with
    environment := ⟨gridSpace, true, originMap, 4, (5, end_cost)⟩ }

/-- Terrain of the cells `(2, 0)`, `(5, 5)` and `(6, 5)` with costs 7, 1 and 2.
The cell `(3, 0)` is the vertex 3, the number of entries. -/
def strayMap : CostMap := [(2, 7), (327685, 1), (327686, 2)]

/-- Raw-cost component over `strayMap`. -/
def strayGrid : GridBasedBodyAdjacency :=
  sampleGrid strayMap [rowArea] false lessByCost

/-! ## Neighbor search: characterisation -/

theorem Found.get_mark (f : Found) (d e : Direction) :
    (f.mark d).get e = if e = d then true else f.get e := by
  cases d <;> cases e <;> simp [Found.mark, Found.get]

theorem Found.get_init (d : Direction) : Found.init.get d = false := by
  cases d <;> rfl

theorem Direction.all_nodup : Direction.all.Nodup := by decide

theorem Direction.mem_all (d : Direction) : d ∈ Direction.all := by
  cases d <;> decide

theorem searchRadius_eq_foldl (g : GridBasedBodyAdjacency) (key_yaw : Nat) (terrain_key : Key)
    (r : Nat) (st : Found × List Vertex) :
    searchRadius g key_yaw terrain_key r st
      = Direction.all.foldl (fun st d => probe g key_yaw terrain_key r d st) st := rfl

theorem probe_fst_get (g : GridBasedBodyAdjacency) (key_yaw : Nat) (terrain_key : Key) (r : Nat)
    (d : Direction) (st : Found × List Vertex) (e : Direction) :
    (probe g key_yaw terrain_key r d st).1.get e
      = (st.1.get e || (decide (e = d) && keyPresent g terrain_key e r)) := by
  unfold probe
  simp only []
  rw [show CostMap.tested g.environment.terrainCostMap g.environment.costMapEnd
        (g.environment.space.keyToVertex (searchingKey d terrain_key r))
      = keyPresent g terrain_key d r from rfl]
  by_cases hed : e = d
  · subst hed
    cases hp : keyPresent g terrain_key e r <;> cases hf : st.1.get e <;>
      simp [hf, Found.get_mark]
  · cases hp : keyPresent g terrain_key d r <;> cases hf : st.1.get d <;>
      simp [hed, Found.get_mark]

theorem probe_snd (g : GridBasedBodyAdjacency) (key_yaw : Nat) (terrain_key : Key) (r : Nat)
    (d : Direction) (st : Found × List Vertex) :
    (probe g key_yaw terrain_key r d st).2
      = st.2 ++ ([d].filter (fun d => keyPresent g terrain_key d r && !(st.1.get d))).map
          (fun d => neighborStateVertex g.environment.space key_yaw
            (searchingKey d terrain_key r)) := by
  unfold probe
  simp only []
  rw [show CostMap.tested g.environment.terrainCostMap g.environment.costMapEnd
        (g.environment.space.keyToVertex (searchingKey d terrain_key r))
      = keyPresent g terrain_key d r from rfl]
  cases hp : keyPresent g terrain_key d r <;> cases hf : st.1.get d <;>
    simp [hf, hp, List.filter]

theorem probe_foldl (g : GridBasedBodyAdjacency) (key_yaw : Nat) (terrain_key : Key) (r : Nat)
    (ds : List Direction) (hnd : ds.Nodup) (st : Found × List Vertex) :
    (∀ e, (ds.foldl (fun st d => probe g key_yaw terrain_key r d st) st).1.get e
        = (st.1.get e || (decide (e ∈ ds) && keyPresent g terrain_key e r))) ∧
    (ds.foldl (fun st d => probe g key_yaw terrain_key r d st) st).2
      = st.2 ++ (ds.filter (fun d => keyPresent g terrain_key d r && !(st.1.get d))).map
          (fun d => neighborStateVertex g.environment.space key_yaw
            (searchingKey d terrain_key r)) := by
  induction ds generalizing st with
  | nil => simp
  | cons d ds ih =>
    have hd : d ∉ ds := (List.nodup_cons.mp hnd).1
    have hds : ds.Nodup := (List.nodup_cons.mp hnd).2
    obtain ⟨ih1, ih2⟩ := ih hds (probe g key_yaw terrain_key r d st)
    constructor
    · intro e
      rw [List.foldl_cons, ih1 e, probe_fst_get]
      by_cases hed : e = d
      · subst hed; simp [hd]
      · simp [hed]
    · have h3 : ds.filter (fun e =>
            keyPresent g terrain_key e r && !((probe g key_yaw terrain_key r d st).1.get e))
          = ds.filter (fun e => keyPresent g terrain_key e r && !(st.1.get e)) := by
        apply List.filter_congr
        intro e he
        have hed : e ≠ d := fun h => hd (h ▸ he)
        rw [probe_fst_get]
        simp [hed]
      rw [List.foldl_cons, ih2, h3, probe_snd, List.append_assoc, ← List.map_append,
        ← List.filter_append]
      rfl

theorem search_foldl (g : GridBasedBodyAdjacency) (key_yaw : Nat) (terrain_key : Key) (n : Nat) :
    (∀ e, ((List.range' 1 n).foldl (fun st r => searchRadius g key_yaw terrain_key r st)
        (Found.init, [])).1.get e = (List.range' 1 n).any (keyPresent g terrain_key e)) ∧
    ((List.range' 1 n).foldl (fun st r => searchRadius g key_yaw terrain_key r st)
        (Found.init, [])).2 = (List.range' 1 n).flatMap (emitted g key_yaw terrain_key) := by
  induction n with
  | zero => simp [Found.get_init]
  | succ n ih =>
    obtain ⟨ih1, ih2⟩ := ih
    have hr : List.range' 1 (n + 1) = List.range' 1 n ++ [1 + n] := by
      rw [List.range'_concat]; simp
    rw [hr, List.foldl_append]
    simp only [List.foldl_cons, List.foldl_nil, searchRadius_eq_foldl]
    obtain ⟨h1, h2⟩ := probe_foldl g key_yaw terrain_key (1 + n) Direction.all
      Direction.all_nodup
      ((List.range' 1 n).foldl (fun st r => searchRadius g key_yaw terrain_key r st)
        (Found.init, []))
    simp only [searchRadius_eq_foldl] at h1 h2 ih1 ih2
    constructor
    · intro e
      rw [h1 e, ih1 e]
      simp [Direction.mem_all]
    · rw [h2, ih2]
      simp only [List.flatMap_append, List.flatMap_cons, List.flatMap_nil, List.append_nil]
      congr 1
      unfold emitted
      congr 1
      apply List.filter_congr
      intro e _
      rw [ih1 e]
      simp [firstAt]

theorem searchNeighbors_eq (g : GridBasedBodyAdjacency) (state_vertex : Vertex)
    (h : g.environment.isTerrainInformation = true) :
    searchNeighbors g state_vertex
      = (List.range' 1 g.neighboring_definition).flatMap
          (emitted g (yawKey g state_vertex) (terrainKey g state_vertex)) := by
  unfold searchNeighbors
  simp only [h, if_true]
  exact (search_foldl g _ _ _).2

theorem find_range_eq_some (p : Nat → Bool) (n r : Nat) :
    (List.range' 1 n).find? p = some r ↔
      (1 ≤ r ∧ r ≤ n ∧ p r = true ∧ ∀ r', 1 ≤ r' → r' < r → p r' = false) := by
  induction n generalizing r with
  | zero =>
    simp only [List.range'_zero, List.find?_nil]
    constructor
    · intro h; cases h
    · rintro ⟨h1, h2, _⟩; omega
  | succ n ih =>
    have hr : List.range' 1 (n + 1) = List.range' 1 n ++ [1 + n] := by
      rw [List.range'_concat]; simp
    rw [hr, List.find?_append]
    cases hf : (List.range' 1 n).find? p with
    | some a =>
      have ha := (ih a).mp hf
      simp only [Option.or, Option.some.injEq]
      constructor
      · intro h; subst h; exact ⟨ha.1, by omega, ha.2.2.1, ha.2.2.2⟩
      · rintro ⟨h1, h2, h3, h4⟩
        rcases Nat.lt_trichotomy a r with hlt | heq | hgt
        · have := h4 a ha.1 hlt; rw [ha.2.2.1] at this; cases this
        · exact heq
        · have := ha.2.2.2 r h1 hgt; rw [h3] at this; cases this
    | none =>
      have hnone : ∀ r', 1 ≤ r' → r' ≤ n → p r' = false := by
        intro r' h1 h2
        have := List.find?_eq_none.mp hf r' (by rw [List.mem_range'_1]; omega)
        simpa using this
      simp only [Option.or, List.find?_cons, List.find?_nil]
      cases hp : p (1 + n) with
      | true =>
        simp only [Option.some.injEq]
        constructor
        · intro h; subst h
          exact ⟨by omega, by omega, hp, fun r' h1 h2 => hnone r' h1 (by omega)⟩
        · rintro ⟨h1, h2, h3, h4⟩
          by_contra hne
          have := hnone r h1 (by omega)
          rw [h3] at this; cases this
      | false =>
        constructor
        · intro h; cases h
        · rintro ⟨h1, h2, h3, h4⟩
          by_cases hrn : r = 1 + n
          · subst hrn; rw [hp] at h3; cases h3
          · have := hnone r h1 (by omega)
            rw [h3] at this; cases this

theorem firstAt_iff (g : GridBasedBodyAdjacency) (state_vertex : Vertex) (d : Direction)
    (r : Nat) (h1 : 1 ≤ r) (h2 : r ≤ g.neighboring_definition) :
    firstAt g (terrainKey g state_vertex) d r = true ↔ firstMatch g state_vertex d = some r := by
  unfold firstMatch
  rw [find_range_eq_some]
  unfold firstAt
  simp only [Bool.and_eq_true, Bool.not_eq_true', List.any_eq_false, List.mem_range'_1]
  constructor
  · rintro ⟨hp, hq⟩
    refine ⟨h1, h2, hp, fun r' h3 h4 => ?_⟩
    have := hq r' ⟨h3, by omega⟩
    simpa using this
  · rintro ⟨_, _, hp, hq⟩
    refine ⟨hp, fun r' h3 => ?_⟩
    rw [hq r' h3.1 (by omega)]
    simp

theorem searchNeighbors_eq_rounds (g : GridBasedBodyAdjacency) (state_vertex : Vertex)
    (h : g.environment.isTerrainInformation = true) :
    searchNeighbors g state_vertex = searchNeighborsRounds g state_vertex := by
  rw [searchNeighbors_eq g state_vertex h]
  unfold searchNeighborsRounds
  apply List.flatMap_congr
  intro r hr
  rw [List.mem_range'_1] at hr
  unfold emitted
  have hf : Direction.all.filter (fun d => firstAt g (terrainKey g state_vertex) d r)
      = Direction.all.filter (fun d => decide (firstMatch g state_vertex d = some r)) := by
    apply List.filter_congr
    intro d _
    have := firstAt_iff g state_vertex d r hr.1 (by omega)
    by_cases hc : firstMatch g state_vertex d = some r
    · simp [hc, this.mpr hc]
    · have h2 : firstAt g (terrainKey g state_vertex) d r = false := by
        cases hfa : firstAt g (terrainKey g state_vertex) d r
        · rfl
        · exact absurd (this.mp hfa) hc
      simp [hc, h2]
  rw [hf]
  rfl

theorem mem_searchNeighborsRounds (g : GridBasedBodyAdjacency) (state_vertex : Vertex)
    (x : Vertex) :
    x ∈ searchNeighborsRounds g state_vertex ↔
      ∃ d r, firstMatch g state_vertex d = some r ∧ x = neighborAt g state_vertex d r := by
  unfold searchNeighborsRounds
  simp only [List.mem_flatMap, List.mem_map, List.mem_filter, decide_eq_true_eq]
  constructor
  · rintro ⟨r, _, d, ⟨_, hd⟩, rfl⟩
    exact ⟨d, r, hd, rfl⟩
  · rintro ⟨d, r, hd, rfl⟩
    have := (find_range_eq_some _ _ _).mp hd
    exact ⟨r, by rw [List.mem_range'_1]; omega, d, ⟨Direction.mem_all d, hd⟩, rfl⟩

theorem length_filter_or {α : Type} (l : List α) (a b : α → Bool) :
    (l.filter (fun x => a x || b x)).length
      = (l.filter a).length + (l.filter (fun x => b x && !(a x))).length := by
  induction l with
  | nil => rfl
  | cons x l ih =>
    simp only [List.filter_cons]
    cases ha : a x <;> cases hb : b x <;> simp [ih] <;> omega

theorem length_rounds (g : GridBasedBodyAdjacency) (key_yaw : Nat) (terrain_key : Key)
    (n : Nat) :
    ((List.range' 1 n).flatMap (emitted g key_yaw terrain_key)).length
      = (Direction.all.filter
          (fun d => (List.range' 1 n).any (keyPresent g terrain_key d))).length := by
  induction n with
  | zero => simp
  | succ n ih =>
    have hr : List.range' 1 (n + 1) = List.range' 1 n ++ [1 + n] := by
      rw [List.range'_concat]; simp
    rw [hr, List.flatMap_append, List.length_append, ih]
    simp only [List.flatMap_cons, List.flatMap_nil, List.append_nil, List.any_append,
      List.any_cons, List.any_nil, Bool.or_false]
    rw [length_filter_or]
    congr 1
    unfold emitted firstAt
    rw [List.length_map]
    simp

theorem pair_sublist_range (n r1 r2 : Nat) (h1 : 1 ≤ r1) (h12 : r1 < r2) (h2 : r2 ≤ n) :
    List.Sublist [r1, r2] (List.range' 1 n) := by
  induction n with
  | zero => omega
  | succ n ih =>
    have hr : List.range' 1 (n + 1) = List.range' 1 n ++ [1 + n] := by
      rw [List.range'_concat]; simp
    rw [hr]
    by_cases hc : r2 ≤ n
    · exact (ih hc).trans (List.sublist_append_left _ _)
    · have h3 : r2 = 1 + n := by omega
      subst h3
      have hm : List.Sublist [r1] (List.range' 1 n) :=
        List.singleton_sublist.mpr (by rw [List.mem_range'_1]; omega)
      exact List.Sublist.append hm (List.Sublist.refl _)

theorem flatMap_sublist {α β : Type} (f : α → List β) {l1 l2 : List α} (h : List.Sublist l1 l2) :
    List.Sublist (l1.flatMap f) (l2.flatMap f) := by
  induction h with
  | slnil => simp
  | cons a _ ih =>
    rw [List.flatMap_cons]
    exact ih.trans (List.sublist_append_right _ _)
  | cons₂ a _ ih =>
    rw [List.flatMap_cons, List.flatMap_cons]
    exact List.Sublist.append (List.Sublist.refl _) ih

theorem Direction.pair_sublist_all (d e : Direction) (h : d.index < e.index) :
    List.Sublist [d, e] Direction.all := by
  cases d <;> cases e <;> first | (exact absurd h (by decide)) | decide

/-- The output in terms of the presence test of the source. With terrain
information available: a direction whose probe passes the test at some radius
`r` in `1..R`, and at no smaller radius, has `r` as its first match and the
state vertex built from that key and the heading of `v` is returned; a
direction whose probes all fail the test has no first match; and the returned
sequence consists, round by round, of exactly the neighbors of the directions
whose first match lies at that round. -/
theorem searchNeighbors_first_match (g : GridBasedBodyAdjacency) (v : Vertex)
    (h : g.environment.isTerrainInformation = true) :
    (∀ d r, 1 ≤ r → r ≤ g.neighboring_definition →
      keyPresent g (terrainKey g v) d r = true →
      (∀ r', 1 ≤ r' → r' < r → keyPresent g (terrainKey g v) d r' = false) →
      firstMatch g v d = some r ∧ neighborAt g v d r ∈ searchNeighbors g v) ∧
    (∀ d, (∀ r, 1 ≤ r → r ≤ g.neighboring_definition →
      keyPresent g (terrainKey g v) d r = false) → firstMatch g v d = none) ∧
    searchNeighbors g v
      = (List.range' 1 g.neighboring_definition).flatMap (fun r =>
          (Direction.all.filter (fun d => decide (firstMatch g v d = some r))).map
            (fun d => neighborAt g v d r)) := by
  refine ⟨?_, ?_, searchNeighbors_eq_rounds g v h⟩
  · intro d r h1 h2 hp hq
    have hfm : firstMatch g v d = some r :=
      (find_range_eq_some _ _ _).mpr ⟨h1, h2, hp, hq⟩
    refine ⟨hfm, ?_⟩
    rw [searchNeighbors_eq_rounds g v h, mem_searchNeighborsRounds]
    exact ⟨d, r, hfm, rfl⟩
  · intro d hnone
    unfold firstMatch
    rw [List.find?_eq_none]
    intro r hr
    rw [List.mem_range'_1] at hr
    rw [hnone r hr.1 (by omega)]
    simp

/-- With terrain information available, the number of vertices returned is the
number of directions with a probe that passes the presence test of the source
within the radius, hence at most eight. -/
theorem searchNeighbors_length (g : GridBasedBodyAdjacency) (v : Vertex)
    (h : g.environment.isTerrainInformation = true) :
    (searchNeighbors g v).length
        = (Direction.all.filter (fun d =>
            (List.range' 1 g.neighboring_definition).any
              (keyPresent g (terrainKey g v) d))).length ∧
      (searchNeighbors g v).length ≤ 8 := by
  have hlen : (searchNeighbors g v).length
      = (Direction.all.filter (fun d =>
          (List.range' 1 g.neighboring_definition).any
            (keyPresent g (terrainKey g v) d))).length := by
    rw [searchNeighbors_eq g v h]
    exact length_rounds g _ _ _
  refine ⟨hlen, ?_⟩
  rw [hlen]
  exact (List.length_filter_le _ _).trans (by decide)

/-- C6 (amended). With terrain information available the output is ordered by
radius first and by the direction enumeration within one radius: when
direction `d` has its first match at `rd` and direction `e` at `re`, and
either `rd < re`, or `rd = re` and `d` precedes `e` in the enumeration, the
neighbor of `d` appears before the neighbor of `e`. -/
theorem searchNeighbors_round_order (g : GridBasedBodyAdjacency) (v : Vertex)
    (h : g.environment.isTerrainInformation = true) (d e : Direction) (rd re : Nat)
    (hd : firstMatch g v d = some rd) (he : firstMatch g v e = some re)
    (hlt : rd < re ∨ (rd = re ∧ d.index < e.index)) :
    List.Sublist [neighborAt g v d rd, neighborAt g v e re] (searchNeighbors g v) := by
  rw [searchNeighbors_eq_rounds g v h]
  unfold searchNeighborsRounds
  have hrd := (find_range_eq_some _ _ _).mp hd
  have hre := (find_range_eq_some _ _ _).mp he
  rcases hlt with hlt | ⟨heq, hidx⟩
  · have hsub := pair_sublist_range g.neighboring_definition rd re hrd.1 hlt hre.2.1
    refine List.Sublist.trans ?_ (flatMap_sublist _ hsub)
    simp only [List.flatMap_cons, List.flatMap_nil, List.append_nil]
    have h1 : List.Sublist [neighborAt g v d rd]
        ((Direction.all.filter (fun d => decide (firstMatch g v d = some rd))).map
          (fun d => neighborAt g v d rd)) := by
      rw [List.singleton_sublist, List.mem_map]
      exact ⟨d, by simp [List.mem_filter, Direction.mem_all, hd], rfl⟩
    have h2 : List.Sublist [neighborAt g v e re]
        ((Direction.all.filter (fun d => decide (firstMatch g v d = some re))).map
          (fun d => neighborAt g v d re)) := by
      rw [List.singleton_sublist, List.mem_map]
      exact ⟨e, by simp [List.mem_filter, Direction.mem_all, he], rfl⟩
    exact List.Sublist.append h1 h2
  · subst heq
    have hsub : List.Sublist [rd] (List.range' 1 g.neighboring_definition) :=
      List.singleton_sublist.mpr (by rw [List.mem_range'_1]; omega)
    refine List.Sublist.trans ?_ (flatMap_sublist _ hsub)
    simp only [List.flatMap_cons, List.flatMap_nil, List.append_nil]
    have hf := (Direction.pair_sublist_all d e hidx).filter
      (fun d => decide (firstMatch g v d = some rd))
    have hm := hf.map (fun d => neighborAt g v d rd)
    simpa [List.filter_cons, hd, he] using hm

/-! ## Sampling loops -/

theorem forLoop_of_not_lt {σ : Type} (body : ℚ → σ → Option σ) (fuel : Nat) (x hi step : ℚ)
    (s : σ) (h : ¬ x < hi) : forLoop body fuel x hi step s = some s := by
  cases fuel <;> simp [forLoop, h]

theorem loopCount_of_not_lt (lo hi step : ℚ) (hstep : 0 < step) (h : ¬ lo < hi) :
    loopCount lo hi step = 0 := by
  unfold loopCount
  rw [Nat.ceil_eq_zero]
  apply div_nonpos_of_nonpos_of_nonneg _ hstep.le
  linarith [not_lt.mp h]

theorem loopCount_of_lt (lo hi step : ℚ) (hstep : 0 < step) (h : lo < hi) :
    loopCount lo hi step = loopCount (lo + step) hi step + 1 := by
  unfold loopCount
  have h1 : (hi - (lo + step)) / step = (hi - lo) / step - 1 := by
    field_simp
    ring
  have hpos : 0 < (hi - lo) / step := div_pos (by linarith) hstep
  rw [h1]
  by_cases ha : 0 ≤ (hi - lo) / step - 1
  · rw [← Nat.ceil_add_one ha]
    congr 1
    ring
  · have h0 : ⌈(hi - lo) / step - 1⌉₊ = 0 := Nat.ceil_eq_zero.mpr (by linarith)
    rw [h0, Nat.ceil_eq_iff (by decide)]
    constructor
    · simpa using hpos
    · simp only [Nat.cast_one, zero_add]
      linarith

theorem axisSamples_of_not_lt (lo hi step : ℚ) (hstep : 0 < step) (h : ¬ lo < hi) :
    axisSamples lo hi step = [] := by
  unfold axisSamples
  rw [loopCount_of_not_lt lo hi step hstep h]
  rfl

theorem axisSamples_of_lt (lo hi step : ℚ) (hstep : 0 < step) (h : lo < hi) :
    axisSamples lo hi step = lo :: axisSamples (lo + step) hi step := by
  unfold axisSamples
  rw [loopCount_of_lt lo hi step hstep h, List.range_succ_eq_map, List.map_cons, List.map_map]
  congr 1
  · simp
  · apply List.map_congr_left
    intro i _
    simp only [Function.comp, Nat.cast_succ]
    ring

/-- A sampling loop with a positive step and fuel for all its rounds runs the
body over `axisSamples`. -/
theorem forLoop_eq_foldlM {σ : Type} (body : ℚ → σ → Option σ) (hi step : ℚ)
    (hstep : 0 < step) (fuel : Nat) (x : ℚ) (s : σ) (hfuel : loopCount x hi step ≤ fuel) :
    forLoop body fuel x hi step s = (axisSamples x hi step).foldlM (fun s x => body x s) s := by
  induction fuel generalizing x s with
  | zero =>
    have hx : ¬ x < hi := by
      intro hlt
      rw [loopCount_of_lt x hi step hstep hlt] at hfuel
      omega
    rw [forLoop_of_not_lt body 0 x hi step s hx, axisSamples_of_not_lt x hi step hstep hx]
    rfl
  | succ fuel ih =>
    by_cases hx : x < hi
    · rw [loopCount_of_lt x hi step hstep hx] at hfuel
      rw [axisSamples_of_lt x hi step hstep hx, List.foldlM_cons]
      simp only [forLoop, hx, if_true]
      cases hb : body x s with
      | none => rfl
      | some s' =>
        simp only [Option.bind]
        exact ih (x + step) s' (by omega)
    · rw [forLoop_of_not_lt body _ x hi step s hx, axisSamples_of_not_lt x hi step hstep hx]
      rfl

theorem foldlM_some {α σ : Type} (f : σ → α → σ) (l : List α) (s : σ) :
    l.foldlM (fun s a => some (f s a)) s = some (l.foldl f s) := by
  induction l generalizing s with
  | nil => rfl
  | cons a l ih => rw [List.foldlM_cons, List.foldl_cons]; exact ih (f s a)

theorem loopCount_shift (lo hi s step : ℚ) :
    loopCount (lo + s) (hi + s) step = loopCount lo hi step := by
  unfold loopCount
  congr 2
  ring

theorem foldl_sampleBody_eq (g : GridBasedBodyAdjacency) (state : State)
    (pts : List (ℚ × ℚ)) (queue : CostQueue) :
    pts.foldl (fun queue p => sampleBody g state p.1 p.2 queue) queue
      = (pts.filterMap (fun p =>
          if CostMap.tested g.environment.terrainCostMap g.environment.costMapEnd
              (g.environment.space.coordToVertex (rotatedPoint g state p.1 p.2)) then
            some ((CostMap.findEntry g.environment.terrainCostMap g.environment.costMapEnd
                (g.environment.space.coordToVertex (rotatedPoint g state p.1 p.2))).2,
              g.environment.space.coordToVertex (rotatedPoint g state p.1 p.2))
          else none)).foldl
          (fun queue p => setInsert g.pair_first_less p queue) queue := by
  induction pts generalizing queue with
  | nil => rfl
  | cons p pts ih =>
    rw [List.foldl_cons, List.filterMap_cons, ih]
    unfold sampleBody
    cases hf : CostMap.tested g.environment.terrainCostMap g.environment.costMapEnd
        (g.environment.space.coordToVertex (rotatedPoint g state p.1 p.2)) with
    | false => simp [hf]
    | true => simp [hf]

theorem foldl_grid {σ : Type} (F : σ → ℚ × ℚ → σ) (xs ys : List ℚ) (s : σ) :
    (ys.flatMap (fun y => xs.map (fun x => (x, y)))).foldl F s
      = ys.foldl (fun s y => xs.foldl (fun s x => F s (x, y)) s) s := by
  induction ys generalizing s with
  | nil => rfl
  | cons y ys ih =>
    rw [List.flatMap_cons, List.foldl_append, List.foldl_cons, ih, List.foldl_map]

/-- With a positive resolution and enough fuel the sampling loops of an area end
and leave the queue of the hits of its sample points. -/
theorem stanceQueue_eq (g : GridBasedBodyAdjacency) (state : State) (a : SearchArea)
    (hres : 0 < a.grid_resolution) (fuel : Nat) (hfuel : areaFuel a ≤ fuel) :
    stanceQueue fuel g state a = some (queueOf g.pair_first_less (sampledHits g state a)) := by
  have hx : loopCount (a.min_x + state.x) (a.max_x + state.x) a.grid_resolution ≤ fuel := by
    rw [loopCount_shift]
    exact (le_max_left _ _).trans hfuel
  have hy : loopCount (a.min_y + state.y) (a.max_y + state.y) a.grid_resolution ≤ fuel := by
    rw [loopCount_shift]
    exact (le_max_right _ _).trans hfuel
  unfold stanceQueue
  have hinner : (fun (y : ℚ) (queue : CostQueue) =>
      forLoop (fun x queue => some (sampleBody g state x y queue)) fuel
        (a.min_x + state.x) (a.max_x + state.x) a.grid_resolution queue)
      = fun y queue => some
          ((axisSamples (a.min_x + state.x) (a.max_x + state.x) a.grid_resolution).foldl
            (fun queue x => sampleBody g state x y queue) queue) := by
    funext y queue
    rw [forLoop_eq_foldlM _ _ _ hres fuel _ _ hx]
    exact foldlM_some _ _ _
  rw [hinner, forLoop_eq_foldlM _ _ _ hres fuel _ _ hy]
  rw [foldlM_some (fun queue y =>
    (axisSamples (a.min_x + state.x) (a.max_x + state.x) a.grid_resolution).foldl
      (fun queue x => sampleBody g state x y queue) queue)]
  congr 1
  unfold queueOf sampledHits samplePoints
  rw [← foldl_sampleBody_eq, foldl_grid]

/-! ## The ordered queue -/

theorem not_equivalent_of_less (less : Weight × Vertex → Weight × Vertex → Bool)
    (p q : Weight × Vertex) (h : less p q = true) : equivalentUnder less p q = false := by
  simp [equivalentUnder, h]

theorem any_equivalent_false_of_less (less : Weight × Vertex → Weight × Vertex → Bool)
    (hless : CostOrder less) (p e : Weight × Vertex) (rest : CostQueue)
    (hsorted : List.Pairwise (fun a b => less a b = true) (e :: rest))
    (hpe : less p e = true) : (e :: rest).any (equivalentUnder less p) = false := by
  rw [List.any_eq_false]
  intro x hx
  have hpx : less p x = true := by
    rcases List.mem_cons.mp hx with rfl | hxr
    · exact hpe
    · exact hless.trans p e x hpe ((List.pairwise_cons.mp hsorted).1 x hxr)
  simp [not_equivalent_of_less less p x hpx]

/-- Inserting an entry equivalent to a stored one leaves the queue as it is. -/
theorem setInsert_of_any (less : Weight × Vertex → Weight × Vertex → Bool)
    (hless : CostOrder less) (p : Weight × Vertex) (queue : CostQueue)
    (hsorted : List.Pairwise (fun a b => less a b = true) queue)
    (hany : queue.any (equivalentUnder less p) = true) : setInsert less p queue = queue := by
  induction queue with
  | nil => simp at hany
  | cons e rest ih =>
    unfold setInsert
    cases hpe : less p e with
    | true =>
      rw [any_equivalent_false_of_less less hless p e rest hsorted hpe] at hany
      cases hany
    | false =>
      cases hep : less e p with
      | true =>
        simp only [Bool.false_eq_true, if_false, if_true]
        have hrest : rest.any (equivalentUnder less p) = true := by
          simpa [List.any_cons, equivalentUnder, hpe, hep] using hany
        rw [ih (List.pairwise_cons.mp hsorted).2 hrest]
      | false => simp

/-- Inserting an entry equivalent to no stored one adds it and keeps the queue
ordered. -/
theorem setInsert_of_not_any (less : Weight × Vertex → Weight × Vertex → Bool)
    (hless : CostOrder less) (p : Weight × Vertex) (queue : CostQueue)
    (hsorted : List.Pairwise (fun a b => less a b = true) queue)
    (hany : queue.any (equivalentUnder less p) = false) :
    List.Perm (setInsert less p queue) (p :: queue) ∧
      List.Pairwise (fun a b => less a b = true) (setInsert less p queue) := by
  induction queue with
  | nil => exact ⟨List.Perm.refl _, List.pairwise_singleton _ _⟩
  | cons e rest ih =>
    unfold setInsert
    cases hpe : less p e with
    | true =>
      simp only [if_true]
      refine ⟨List.Perm.refl _, List.pairwise_cons.mpr ⟨?_, hsorted⟩⟩
      intro x hx
      rcases List.mem_cons.mp hx with rfl | hxr
      · exact hpe
      · exact hless.trans p e x hpe ((List.pairwise_cons.mp hsorted).1 x hxr)
    | false =>
      cases hep : less e p with
      | true =>
        simp only [Bool.false_eq_true, if_false, if_true]
        have hrest : rest.any (equivalentUnder less p) = false := by
          simpa [List.any_cons, equivalentUnder, hpe, hep] using hany
        obtain ⟨hperm, hpw⟩ := ih (List.pairwise_cons.mp hsorted).2 hrest
        refine ⟨(hperm.cons e).trans (List.Perm.swap p e rest), List.pairwise_cons.mpr ⟨?_, hpw⟩⟩
        intro x hx
        rcases List.mem_cons.mp (hperm.mem_iff.mp hx) with rfl | hxr
        · exact hep
        · exact (List.pairwise_cons.mp hsorted).1 x hxr
      | false =>
        simp [List.any_cons, equivalentUnder, hpe, hep] at hany

theorem any_congr_perm {α : Type} (p : α → Bool) {l1 l2 : List α} (h : List.Perm l1 l2) :
    l1.any p = l2.any p := by
  cases h1 : l1.any p <;> cases h2 : l2.any p <;> try rfl
  · rw [List.any_eq_true] at h2
    obtain ⟨x, hx, hp⟩ := h2
    have := List.any_eq_false.mp h1 x (h.mem_iff.mpr hx)
    exact absurd hp this
  · rw [List.any_eq_true] at h1
    obtain ⟨x, hx, hp⟩ := h1
    have := List.any_eq_false.mp h2 x (h.mem_iff.mp hx)
    exact absurd hp this

theorem queue_fold_invariant (less : Weight × Vertex → Weight × Vertex → Bool)
    (hless : CostOrder less) (hits : List (Weight × Vertex)) (queue acc : CostQueue)
    (hperm : List.Perm queue acc)
    (hsorted : List.Pairwise (fun a b => less a b = true) queue) :
    List.Perm (hits.foldl (fun queue p => setInsert less p queue) queue)
        (hits.foldl (fun acc p =>
          if acc.any (equivalentUnder less p) then acc else acc ++ [p]) acc) ∧
      List.Pairwise (fun a b => less a b = true)
        (hits.foldl (fun queue p => setInsert less p queue) queue) := by
  induction hits generalizing queue acc with
  | nil => exact ⟨hperm, hsorted⟩
  | cons p hits ih =>
    rw [List.foldl_cons, List.foldl_cons]
    have hany := any_congr_perm (equivalentUnder less p) hperm
    cases hq : queue.any (equivalentUnder less p) with
    | true =>
      rw [setInsert_of_any less hless p queue hsorted hq, ← hany, hq]
      exact ih queue acc hperm hsorted
    | false =>
      obtain ⟨hp1, hp2⟩ := setInsert_of_not_any less hless p queue hsorted hq
      rw [← hany, hq]
      refine ih _ _ (hp1.trans ?_) hp2
      exact (List.Perm.cons p hperm).trans (List.perm_append_singleton p acc).symm

/-- The queue holds the retained entries, ordered by the comparator. -/
theorem queueOf_perm_retained (less : Weight × Vertex → Weight × Vertex → Bool)
    (hless : CostOrder less) (hits : List (Weight × Vertex)) :
    List.Perm (queueOf less hits) (retained less hits) ∧
      List.Pairwise (fun a b => less a b = true) (queueOf less hits) :=
  queue_fold_invariant less hless hits [] [] (List.Perm.refl _) List.Pairwise.nil

theorem popLowest_eq (k : Nat) (queue : CostQueue) (acc : ℚ) :
    popLowest k queue acc = acc + ((queue.take k).map Prod.fst).sum := by
  induction k generalizing queue acc with
  | zero => simp [popLowest]
  | succ k ih =>
    cases queue with
    | nil => simp [popLowest]
    | cons p rest =>
      simp only [popLowest, List.take_succ_cons, List.map_cons, List.sum_cons]
      rw [ih]
      ring

/-- The costs of the queue are the costs of the retained entries in ascending
order. -/
theorem queueOf_costs (less : Weight × Vertex → Weight × Vertex → Bool)
    (hless : CostOrder less) (hits : List (Weight × Vertex)) :
    (queueOf less hits).map Prod.fst
      = ((retained less hits).map Prod.fst).insertionSort (· ≤ ·) := by
  obtain ⟨hperm, hpw⟩ := queueOf_perm_retained less hless hits
  have hs1 : List.Sorted (· ≤ ·) ((queueOf less hits).map Prod.fst) := by
    unfold List.Sorted
    rw [List.pairwise_map]
    exact hpw.imp (fun {a b} hab => hless.cost_le a b hab)
  have hs2 := List.sorted_insertionSort (· ≤ ·) ((retained less hits).map Prod.fst)
  have hp : List.Perm ((queueOf less hits).map Prod.fst)
      (((retained less hits).map Prod.fst).insertionSort (· ≤ ·)) :=
    (hperm.map Prod.fst).trans (List.perm_insertionSort _ _).symm
  exact List.eq_of_perm_of_sorted hp hs1 hs2

/-! ## Area cost and body cost -/

theorem areaCost_eq (g : GridBasedBodyAdjacency) (state : State) (a : SearchArea)
    (hres : 0 < a.grid_resolution) (fuel : Nat) (hfuel : areaFuel a ≤ fuel) :
    areaCost fuel g state a
      = some (stanceCost g (queueOf g.pair_first_less (sampledHits g state a))) := by
  unfold areaCost
  rw [stanceQueue_eq g state a hres fuel hfuel]
  rfl

/-- An area none of whose samples passes the presence test costs the uncertainty
factor times the average terrain cost. -/
theorem areaCost_of_no_hits (g : GridBasedBodyAdjacency) (state : State) (a : SearchArea)
    (hres : 0 < a.grid_resolution) (fuel : Nat) (hfuel : areaFuel a ≤ fuel)
    (hnone : sampledHits g state a = []) :
    areaCost fuel g state a
      = some (g.uncertainty_factor * g.environment.averageCostOfTerrain) := by
  rw [areaCost_eq g state a hres fuel hfuel, hnone]
  simp [queueOf, stanceCost, topCount]

theorem areaFuel_le_bodyFuel (areas : List SearchArea) (a : SearchArea) (ha : a ∈ areas) :
    areaFuel a ≤ bodyFuel areas := by
  induction areas with
  | nil => cases ha
  | cons b rest ih =>
    unfold bodyFuel
    simp only [List.map_cons, List.foldr_cons]
    rcases List.mem_cons.mp ha with rfl | hr
    · exact le_max_left _ _
    · exact (ih hr).trans (le_max_right _ _)

theorem bodyCostLoop_eq (g : GridBasedBodyAdjacency) (state : State) (fuel : Nat)
    (areas : List SearchArea) (hres : ∀ a ∈ areas, 0 < a.grid_resolution)
    (hfuel : bodyFuel areas ≤ fuel) (body_cost : ℚ) :
    bodyCostLoop fuel g state areas body_cost
      = some (body_cost + (areas.map (fun a =>
          stanceCost g (queueOf g.pair_first_less (sampledHits g state a)))).sum) := by
  induction areas generalizing body_cost with
  | nil => simp [bodyCostLoop]
  | cons a rest ih =>
    have ha : areaFuel a ≤ fuel :=
      (areaFuel_le_bodyFuel (a :: rest) a (List.mem_cons_self _ _)).trans hfuel
    have hrest : bodyFuel rest ≤ fuel := by
      refine le_trans ?_ hfuel
      unfold bodyFuel
      simp only [List.map_cons, List.foldr_cons]
      exact le_max_right _ _
    unfold bodyCostLoop
    rw [stanceQueue_eq g state a (hres a (List.mem_cons_self _ _)) fuel ha]
    simp only [Option.bind]
    rw [ih (fun b hb => hres b (List.mem_cons_of_mem _ hb)) hrest]
    simp only [List.map_cons, List.sum_cons]
    congr 1
    ring

/-- With positive resolutions and enough fuel `computeBodyCost` returns the
initial content of `body_cost` plus the area costs, divided by the number of
areas. -/
theorem computeBodyCost_eq (g : GridBasedBodyAdjacency) (body_cost : ℚ)
    (state_vertex : Vertex) (fuel : Nat)
    (hres : ∀ a ∈ g.stance_areas, 0 < a.grid_resolution)
    (hfuel : bodyFuel g.stance_areas ≤ fuel) :
    computeBodyCost fuel g body_cost state_vertex
      = some (divideByCount
          (body_cost + (g.stance_areas.map (fun a =>
            stanceCost g (queueOf g.pair_first_less
              (sampledHits g (g.environment.space.vertexToState state_vertex) a)))).sum)
          g.stance_areas.length) := by
  unfold computeBodyCost
  simp only []
  rw [bodyCostLoop_eq g _ fuel g.stance_areas hres hfuel]
  rfl

/-- The area cost in terms of the entries the ordered set retains. For a
comparator that is a strict order never placing a higher cost first, an area
of positive resolution and a positive top count `k`: when the ordered set
retains at least `k` entries (one per class of equivalent `(cost, vertex)`
pairs among the samples that pass the presence test), the sampling ends and
the area cost is the mean of the `k` lowest costs of the retained entries. -/
theorem areaCost_mean_of_lowest (g : GridBasedBodyAdjacency) (state : State) (a : SearchArea)
    (hless : CostOrder g.pair_first_less) (hres : 0 < a.grid_resolution)
    (hk : 0 < g.number_top_reward)
    (hlen : g.number_top_reward
      ≤ (retained g.pair_first_less (sampledHits g state a)).length)
    (fuel : Nat) (hfuel : areaFuel a ≤ fuel) :
    areaCost fuel g state a
      = some (meanOfLowest g.number_top_reward
          ((retained g.pair_first_less (sampledHits g state a)).map Prod.fst)) := by
  rw [areaCost_eq g state a hres fuel hfuel]
  congr 1
  have hperm := (queueOf_perm_retained g.pair_first_less hless (sampledHits g state a)).1
  have htop : topCount g (queueOf g.pair_first_less (sampledHits g state a))
      = g.number_top_reward := by
    unfold topCount
    rw [hperm.length_eq, if_neg (by omega)]
  unfold stanceCost meanOfLowest
  rw [htop, if_neg (by omega), popLowest_eq, zero_add,
    ← queueOf_costs g.pair_first_less hless, List.map_take]

/-! ## Adjacency construction -/

theorem push_apply (m : AdjacencyMap) (v : Vertex) (e : Edge) (n : Vertex) :
    AdjacencyMap.push m v e n = m n ++ (if n = v then [e] else []) := by
  unfold AdjacencyMap.push
  by_cases h : n = v <;> simp [h]

theorem pushNeighbors_apply (m : AdjacencyMap) (ns : List Vertex) (s : Vertex) (w : Double)
    (n : Vertex) :
    pushNeighbors m ns s w n = m n ++ List.replicate (ns.count n) (s, w) := by
  unfold pushNeighbors
  induction ns generalizing m with
  | nil => simp
  | cons a ns ih =>
    rw [List.foldl_cons, ih, push_apply, List.append_assoc]
    congr 1
    by_cases h : n = a
    · subst h
      simp [List.replicate_succ]
    · have h2 : a ≠ n := fun h3 => h h3.symm
      simp [h, List.count_cons_of_ne h2]

theorem bridge_apply (g : GridBasedBodyAdjacency) (m : AdjacencyMap) (source target n : Vertex) :
    bridge g m source target n = m n ++ bridgingEdges g source target n := by
  unfold bridge bridgingEdges
  by_cases h1 : (g.closest source target).1 ≠ source <;>
    by_cases h2 : (g.closest source target).2 ≠ target <;>
    simp [h1, h2, push_apply]

theorem computeBodyCost_eq_value (g : GridBasedBodyAdjacency) (fuel : Nat)
    (hrun : Terminates g fuel) (hmode : g.is_stance_adjacency = true) (body_cost : ℚ)
    (v : Vertex) :
    computeBodyCost fuel g body_cost v = some (bodyCostValue g body_cost v) :=
  computeBodyCost_eq g body_cost v fuel (hrun hmode).1 (hrun hmode).2

theorem terrainLoop_eq (g : GridBasedBodyAdjacency) (fuel : Nat) (hrun : Terminates g fuel)
    (yaw : ℚ) (slots : Nat → ℚ) (costmap : List (Vertex × Weight)) (m : AdjacencyMap) :
    terrainLoop fuel g yaw slots costmap m
      = some (fun n => m n ++ terrainEdges g yaw slots costmap n) := by
  induction costmap generalizing m slots with
  | nil => simp [terrainLoop, terrainEdges]
  | cons tc rest ih =>
    obtain ⟨vertex, terrain_cost⟩ := tc
    unfold terrainLoop
    simp only []
    cases hmode : g.is_stance_adjacency with
    | false =>
      simp only [Bool.not_false, if_true]
      rw [ih]
      congr 1
      funext n
      rw [pushNeighbors_apply, List.append_assoc]
      simp [terrainEdges, edgeWeight, hmode]
    | true =>
      simp only [Bool.not_true, Bool.false_eq_true, if_false]
      rw [computeBodyCost_eq_value g fuel hrun hmode]
      simp only [Option.bind]
      rw [ih]
      congr 1
      funext n
      rw [pushNeighbors_apply, List.append_assoc]
      simp [terrainEdges, edgeWeight, hmode]

/-- With terrain information and ending body-cost evaluations, the map left by
`computeAdjacencyMap` holds under every vertex the edges it held before, then
the bridging edges, then the terrain-derived edges. -/
theorem computeAdjacencyMap_eq (g : GridBasedBodyAdjacency) (fuel : Nat)
    (hterrain : g.environment.isTerrainInformation = true) (hrun : Terminates g fuel)
    (slots : Nat → ℚ) (adjacency_map : AdjacencyMap) (source target : Vertex) :
    computeAdjacencyMap fuel g slots adjacency_map source target
      = some (fun n => adjacency_map n ++ bridgingEdges g source target n
          ++ terrainEdges g (sourceYaw g source) slots g.environment.terrainCostMap n) := by
  unfold computeAdjacencyMap
  simp only [hterrain, if_true]
  rw [terrainLoop_eq g fuel hrun]
  congr 1
  funext n
  rw [bridge_apply]

/-- In raw-cost mode the terrain-derived edges do not depend on the slots. -/
theorem terrainEdges_raw (g : GridBasedBodyAdjacency) (hmode : g.is_stance_adjacency = false)
    (yaw : ℚ) (slots : Nat → ℚ) (costmap : List (Vertex × Weight)) (n : Vertex) :
    terrainEdges g yaw slots costmap n
      = costmap.flatMap (fun tc =>
          List.replicate ((searchNeighbors g (stateVertexOf g yaw tc.1)).count n)
            (stateVertexOf g yaw tc.1, Double.number tc.2)) := by
  induction costmap generalizing slots with
  | nil => rfl
  | cons tc rest ih =>
    rw [List.flatMap_cons, ← ih (fun i => slots (i + 1))]
    simp [terrainEdges, edgeWeight, hmode]

/-- The targets of the terrain-derived edges, in either mode. -/
theorem terrainEdges_targets (g : GridBasedBodyAdjacency) (yaw : ℚ) (slots : Nat → ℚ)
    (costmap : List (Vertex × Weight)) (n : Vertex) :
    (terrainEdges g yaw slots costmap n).map Prod.fst
      = costmap.flatMap (fun tc =>
          List.replicate ((searchNeighbors g (stateVertexOf g yaw tc.1)).count n)
            (stateVertexOf g yaw tc.1)) := by
  induction costmap generalizing slots with
  | nil => rfl
  | cons tc rest ih =>
    rw [List.flatMap_cons, ← ih (fun i => slots (i + 1))]
    simp [terrainEdges]

theorem mem_terrainEdges (g : GridBasedBodyAdjacency) (yaw : ℚ) (slots : Nat → ℚ)
    (costmap : List (Vertex × Weight)) (n : Vertex) (e : Edge)
    (h : e ∈ terrainEdges g yaw slots costmap n) :
    ∃ tc ∈ costmap, ∃ body_cost, n ∈ searchNeighbors g (stateVertexOf g yaw tc.1) ∧
      e = (stateVertexOf g yaw tc.1, edgeWeight g body_cost (stateVertexOf g yaw tc.1) tc.2) := by
  induction costmap generalizing slots with
  | nil => simp [terrainEdges] at h
  | cons tc rest ih =>
    simp only [terrainEdges, List.mem_append, List.mem_replicate, ne_eq, List.count_eq_zero,
      not_not] at h
    rcases h with ⟨hn, he⟩ | h
    · exact ⟨tc, List.mem_cons_self _ _, slots 0, hn, he⟩
    · obtain ⟨tc', htc', bc, hn, he⟩ := ih _ h
      exact ⟨tc', List.mem_cons_of_mem _ htc', bc, hn, he⟩

theorem mem_terrainEdges_raw (g : GridBasedBodyAdjacency)
    (hmode : g.is_stance_adjacency = false) (yaw : ℚ) (slots : Nat → ℚ)
    (costmap : List (Vertex × Weight)) (n : Vertex) (e : Edge) :
    e ∈ terrainEdges g yaw slots costmap n ↔
      ∃ tc ∈ costmap, n ∈ searchNeighbors g (stateVertexOf g yaw tc.1) ∧
        e = (stateVertexOf g yaw tc.1, Double.number tc.2) := by
  rw [terrainEdges_raw g hmode]
  simp only [List.mem_flatMap, List.mem_replicate, ne_eq, List.count_eq_zero, not_not]

theorem raw_terminates (g : GridBasedBodyAdjacency) (fuel : Nat)
    (hmode : g.is_stance_adjacency = false) : Terminates g fuel := by
  intro h
  rw [hmode] at h
  cases h

/-- C8. Without terrain information `computeAdjacencyMap` returns the adjacency
map it was given, `getSuccessors` returns the successor list it was given and
`searchNeighbors` appends no vertex; all three return, whatever the fuel and
the contents of the uninitialized locals. -/
theorem no_terrain_information_noop (g : GridBasedBodyAdjacency)
    (h : g.environment.isTerrainInformation = false) (fuel : Nat) (slots : Nat → ℚ)
    (adjacency_map : AdjacencyMap) (source target : Vertex) (successors : List Edge)
    (v : Vertex) :
    computeAdjacencyMap fuel g slots adjacency_map source target = some adjacency_map ∧
      getSuccessors fuel g slots successors v = some successors ∧
      searchNeighbors g v = [] := by
  refine ⟨?_, ?_, ?_⟩
  · simp [computeAdjacencyMap, h]
  · simp [getSuccessors, h]
  · simp [searchNeighbors, h]

/-- Instance of C8 on the component without terrain information. -/
theorem no_terrain_information_noop_witness :
    blindGrid.environment.isTerrainInformation = false ∧
      getSuccessors 0 blindGrid (fun _ => 0) [] 327686 = some [] ∧
      searchNeighbors blindGrid 327686 = [] :=
  ⟨rfl, (no_terrain_information_noop blindGrid rfl 0 (fun _ => 0) (fun _ => []) 327685 327688
    [] 327686).2⟩

/-- C9. In raw-cost mode `computeAdjacencyMap` returns, for any fuel and any
contents of the uninitialized locals, a map in which every entry `(t, c)` of the cost map and every neighbor `n` found from
the state vertex `s` of `t` give the edge `n -> s` of weight `c`, and in which
every edge was in the map before, is a bridging edge, or arises in that
way. -/
theorem computeAdjacencyMap_raw_cost_edges (g : GridBasedBodyAdjacency)
    (hmode : g.is_stance_adjacency = false) (fuel : Nat) (slots : Nat → ℚ)
    (adjacency_map : AdjacencyMap) (source target : Vertex) :
    ∃ m, computeAdjacencyMap fuel g slots adjacency_map source target = some m ∧
      (∀ tc ∈ g.environment.terrainCostMap,
        ∀ n ∈ searchNeighbors g (stateVertexOf g (sourceYaw g source) tc.1),
          (stateVertexOf g (sourceYaw g source) tc.1, Double.number tc.2) ∈ m n) ∧
      (∀ n e, e ∈ m n →
        e ∈ adjacency_map n ∨ e ∈ bridgingEdges g source target n ∨
          ∃ tc ∈ g.environment.terrainCostMap,
            n ∈ searchNeighbors g (stateVertexOf g (sourceYaw g source) tc.1) ∧
              e = (stateVertexOf g (sourceYaw g source) tc.1, Double.number tc.2)) := by
  cases hterrain : g.environment.isTerrainInformation with
  | false =>
    refine ⟨adjacency_map, by simp [computeAdjacencyMap, hterrain], ?_, ?_⟩
    · intro tc _ n hn
      simp [searchNeighbors, hterrain] at hn
    · intro n e he
      exact Or.inl he
  | true =>
    refine ⟨_, computeAdjacencyMap_eq g fuel hterrain (raw_terminates g fuel hmode)
      slots adjacency_map source target, ?_, ?_⟩
    · intro tc htc n hn
      simp only [List.mem_append]
      exact Or.inr ((mem_terrainEdges_raw g hmode _ _ _ n _).mpr ⟨tc, htc, hn, rfl⟩)
    · intro n e he
      simp only [List.mem_append] at he
      rcases he with (he | he) | he
      · exact Or.inl he
      · exact Or.inr (Or.inl he)
      · exact Or.inr (Or.inr ((mem_terrainEdges_raw g hmode _ _ _ n e).mp he))

/-- Instance of C9 on the line map: the cell `(6, 5)` of cost 2 has the cell
`(5, 5)` as a neighbor, and the map holds the edge `(5, 5) -> (6, 5)` of
weight 2. -/
theorem computeAdjacencyMap_raw_cost_edges_witness :
    lineGrid.is_stance_adjacency = false ∧
      ∃ m, computeAdjacencyMap 0 lineGrid (fun _ => 0) (fun _ => []) 327685 327688 = some m ∧
        ((327686, Double.number 2) : Edge) ∈ m 327685 := by
  refine ⟨rfl, ?_⟩
  obtain ⟨m, hm, h1, _⟩ :=
    computeAdjacencyMap_raw_cost_edges lineGrid rfl 0 (fun _ => 0) (fun _ => []) 327685 327688
  exact ⟨m, hm, h1 (327686, 2) (by decide) 327685 (by decide)⟩

/-- C10. With terrain information and ending body-cost evaluations
`computeAdjacencyMap` returns, for any contents of the uninitialized locals, a
map that holds under every vertex the edges given, then the bridging edges,
then the terrain-derived edges. It holds the
zero-weight edge `source -> closest_source` when the two differ and the
zero-weight edge `closest_target -> target` when the two differ; the bridging
edges are no others, so none is inserted for an endpoint that is its own
closest vertex. -/
theorem computeAdjacencyMap_bridging (g : GridBasedBodyAdjacency) (fuel : Nat)
    (hterrain : g.environment.isTerrainInformation = true) (hrun : Terminates g fuel)
    (slots : Nat → ℚ) (adjacency_map : AdjacencyMap) (source target : Vertex) :
    ∃ m, computeAdjacencyMap fuel g slots adjacency_map source target = some m ∧
      ((g.closest source target).1 ≠ source →
        ((g.closest source target).1, Double.number 0) ∈ m source) ∧
      ((g.closest source target).2 ≠ target →
        (target, Double.number 0) ∈ m (g.closest source target).2) ∧
      (∀ n, m n = adjacency_map n ++ bridgingEdges g source target n
          ++ terrainEdges g (sourceYaw g source) slots g.environment.terrainCostMap n) ∧
      (∀ n, bridgingEdges g source target n
          = (if (g.closest source target).1 ≠ source ∧ n = source then
              [((g.closest source target).1, Double.number 0)] else []) ++
            (if (g.closest source target).2 ≠ target ∧ n = (g.closest source target).2 then
              [(target, Double.number 0)] else [])) ∧
      ((g.closest source target).1 = source → (g.closest source target).2 = target →
        ∀ n, bridgingEdges g source target n = []) := by
  refine ⟨_, computeAdjacencyMap_eq g fuel hterrain hrun slots adjacency_map source target,
    ?_, ?_, fun _ => rfl, fun _ => rfl, ?_⟩
  · intro h
    simp [bridgingEdges, h]
  · intro h
    simp [bridgingEdges, h]
  · intro h1 h2 n
    simp [bridgingEdges, h1, h2]

/-- Instance of C10: the helper answers the cells `(5, 5)` and `(8, 5)` for the
source cell `(4, 4)` and the target cell `(9, 9)`. -/
theorem computeAdjacencyMap_bridging_witness :
    bridgeGrid.environment.isTerrainInformation = true ∧ Terminates bridgeGrid 0 ∧
      ∃ m, computeAdjacencyMap 0 bridgeGrid (fun _ => 0) (fun _ => []) 262148 589833 = some m ∧
        ((327685, Double.number 0) : Edge) ∈ m 262148 ∧
        ((589833, Double.number 0) : Edge) ∈ m 327688 := by
  refine ⟨rfl, raw_terminates bridgeGrid 0 rfl, ?_⟩
  obtain ⟨m, hm, h1, h2, _⟩ :=
    computeAdjacencyMap_bridging bridgeGrid 0 rfl (raw_terminates bridgeGrid 0 rfl)
      (fun _ => 0) (fun _ => []) 262148 589833
  exact ⟨m, hm, h1 (by decide), h2 (by decide)⟩

/-! ## Batch construction against on-demand successors -/

theorem find_some_mem (m : CostMap) (v : Vertex) (c : Weight)
    (h : CostMap.find m v = some c) : (v, c) ∈ m := by
  unfold CostMap.find at h
  induction m with
  | nil => simp [List.lookup] at h
  | cons e m ih =>
    obtain ⟨u, w⟩ := e
    simp only [List.lookup] at h
    by_cases huv : v = u
    · subst huv
      simp at h
      subst h
      exact List.mem_cons_self _ _
    · have hb : (v == u) = false := by simpa using huv
      rw [hb] at h
      exact List.mem_cons_of_mem _ (ih h)

theorem find_of_mem_nodup (m : CostMap) (hnd : (m.map Prod.fst).Nodup) (v : Vertex)
    (c : Weight) (h : (v, c) ∈ m) : CostMap.find m v = some c := by
  unfold CostMap.find
  induction m with
  | nil => cases h
  | cons e m ih =>
    obtain ⟨u, w⟩ := e
    simp only [List.map_cons, List.nodup_cons] at hnd
    simp only [List.lookup]
    rcases List.mem_cons.mp h with heq | hm
    · cases heq
      simp
    · have huv : v ≠ u := by
        intro huv
        subst huv
        exact hnd.1 (List.mem_map.mpr ⟨(v, c), hm, rfl⟩)
      have hb : (v == u) = false := by simpa using huv
      rw [hb]
      exact ih hnd.2 hm

theorem hasKey_iff (m : CostMap) (v : Vertex) :
    CostMap.hasKey m v = true ↔ ∃ c, (v, c) ∈ m := by
  unfold CostMap.hasKey
  constructor
  · intro h
    obtain ⟨c, hc⟩ := Option.isSome_iff_exists.mp h
    exact ⟨c, find_some_mem m v c hc⟩
  · rintro ⟨c, hc⟩
    unfold CostMap.find
    induction m with
    | nil => cases hc
    | cons e m ih =>
      obtain ⟨u, w⟩ := e
      simp only [List.lookup]
      by_cases huv : v = u
      · subst huv; simp
      · have hb : (v == u) = false := by simpa using huv
        rw [hb]
        rcases List.mem_cons.mp hc with heq | hm
        · cases heq; exact absurd rfl huv
        · exact ih hm

/-- For a key of the map `find` returns its entry. -/
theorem findEntry_of_find (m : CostMap) (end_entry : Vertex × Weight) (v : Vertex) (c : Weight)
    (h : CostMap.find m v = some c) : CostMap.findEntry m end_entry v = (v, c) := by
  unfold CostMap.find at h
  unfold CostMap.findEntry
  rw [h]

/-- For a vertex that is no key of the map `find` returns `end()`. -/
theorem findEntry_of_not_hasKey (m : CostMap) (end_entry : Vertex × Weight) (v : Vertex)
    (h : CostMap.hasKey m v = false) : CostMap.findEntry m end_entry v = end_entry := by
  unfold CostMap.hasKey CostMap.find at h
  unfold CostMap.findEntry
  cases hl : List.lookup v m with
  | none => rfl
  | some c => rw [hl] at h; cases h

/-- The presence test of the source passes for the keys of the map, and for the
key read through `end()`. -/
theorem tested_iff (m : CostMap) (end_entry : Vertex × Weight) (v : Vertex) :
    CostMap.tested m end_entry v = true ↔ CostMap.hasKey m v = true ∨ end_entry.1 = v := by
  unfold CostMap.tested
  cases hk : CostMap.hasKey m v with
  | false =>
    rw [findEntry_of_not_hasKey m end_entry v hk]
    simp
  | true =>
    obtain ⟨c, hc⟩ := Option.isSome_iff_exists.mp hk
    rw [findEntry_of_find m end_entry v c hc]
    simp

theorem tested_of_hasKey (m : CostMap) (end_entry : Vertex × Weight) (v : Vertex)
    (h : CostMap.hasKey m v = true) : CostMap.tested m end_entry v = true :=
  (tested_iff m end_entry v).mpr (Or.inl h)

theorem searchingKey_bounded (d : Direction) (k : Key) (r : Nat) (hx : k.x < 65536)
    (hy : k.y < 65536) : (searchingKey d k r).x < 65536 ∧ (searchingKey d k r).y < 65536 := by
  cases d <;> simp only [searchingKey, toUShort] <;> omega

theorem toUShort_add (k r : Nat) (h : k + r < 65536) :
    toUShort ((k : Int) + (r : Int)) = k + r := by
  unfold toUShort
  omega

theorem toUShort_sub (k r : Nat) (h : r ≤ k) (hk : k < 65536) :
    toUShort ((k : Int) - (r : Int)) = k - r := by
  unfold toUShort
  omega

/-- Within range the probe key is the plain offset. -/
theorem searchingKey_eq_offsetKey (d : Direction) (k : Key) (R r : Nat)
    (hk : Key.inRange R k) (hr : r ≤ R) : searchingKey d k r = offsetKey d k r := by
  obtain ⟨kx, ky⟩ := k
  simp only [Key.inRange] at hk
  have h1 := toUShort_add kx r (by omega)
  have h2 := toUShort_sub kx r (by omega) (by omega)
  have h3 := toUShort_add ky r (by omega)
  have h4 := toUShort_sub ky r (by omega) (by omega)
  cases d <;> simp only [searchingKey, offsetKey, h1, h2, h3, h4]

theorem searchingKey_opposite (d : Direction) (k : Key) (R r r' : Nat)
    (hk : Key.inRange R k) (hr : r ≤ R) (hr' : r' ≤ r)
    (hk' : Key.inRange R (searchingKey d k r)) :
    searchingKey d.opposite (searchingKey d k r) r' = searchingKey d k (r - r') := by
  rw [searchingKey_eq_offsetKey d.opposite _ R r' hk' (by omega)]
  rw [searchingKey_eq_offsetKey d k R r hk hr] at hk' ⊢
  rw [searchingKey_eq_offsetKey d k R (r - r') hk (by omega)]
  obtain ⟨kx, ky⟩ := k
  cases d <;>
    simp only [Key.inRange, offsetKey, Direction.opposite, Key.mk.injEq, and_true,
      true_and] at hk hk' ⊢ <;>
    omega

theorem searchingKey_zero (d : Direction) (k : Key) (hx : k.x < 65536) (hy : k.y < 65536) :
    searchingKey d k 0 = k := by
  obtain ⟨kx, ky⟩ := k
  cases d <;> simp only [searchingKey, toUShort, Key.mk.injEq, and_true, true_and] at hx hy ⊢ <;>
    omega

theorem searchingKey_injective (d e : Direction) (k : Key) (R r s : Nat)
    (hk : Key.inRange R k) (hr1 : 1 ≤ r) (hr : r ≤ R) (hs1 : 1 ≤ s) (hs : s ≤ R)
    (h : searchingKey d k r = searchingKey e k s) : d = e ∧ r = s := by
  rw [searchingKey_eq_offsetKey d k R r hk hr, searchingKey_eq_offsetKey e k R s hk hs] at h
  obtain ⟨kx, ky⟩ := k
  cases d <;> cases e <;>
    simp only [Key.inRange, offsetKey, Key.mk.injEq, true_and, and_true,
      reduceCtorEq, false_and] at hk h ⊢ <;>
    omega

theorem Consistent.key_bounded {g : GridBasedBodyAdjacency} {key_yaw : Nat}
    (hc : Consistent g key_yaw) (tc : Vertex × Weight)
    (htc : tc ∈ g.environment.terrainCostMap) :
    (g.environment.space.vertexToKey tc.1).x < 65536 ∧
      (g.environment.space.vertexToKey tc.1).y < 65536 := by
  have h := hc.in_range tc htc
  unfold Key.inRange at h
  omega

theorem Consistent.stateVertexOf_eq {g : GridBasedBodyAdjacency} {key_yaw : Nat}
    (hc : Consistent g key_yaw) (tc : Vertex × Weight)
    (htc : tc ∈ g.environment.terrainCostMap) :
    stateVertexOf g (g.environment.space.keyToState key_yaw false) tc.1
      = neighborStateVertex g.environment.space key_yaw
          (g.environment.space.vertexToKey tc.1) := by
  unfold stateVertexOf neighborStateVertex
  simp only [hc.coord tc htc]

theorem Consistent.terrainKey_eq {g : GridBasedBodyAdjacency} {key_yaw : Nat}
    (hc : Consistent g key_yaw) (k : Key) (hx : k.x < 65536) (hy : k.y < 65536) :
    terrainKey g (neighborStateVertex g.environment.space key_yaw k) = k := by
  unfold terrainKey
  rw [hc.project k hx hy, hc.key_vertex k hx hy]

theorem Consistent.yawKey_eq {g : GridBasedBodyAdjacency} {key_yaw : Nat}
    (hc : Consistent g key_yaw) (k : Key) (hx : k.x < 65536) (hy : k.y < 65536) :
    yawKey g (neighborStateVertex g.environment.space key_yaw k) = key_yaw :=
  hc.heading k hx hy

theorem Consistent.vertex_injective {g : GridBasedBodyAdjacency} {key_yaw : Nat}
    (hc : Consistent g key_yaw) (k1 k2 : Key) (h1x : k1.x < 65536) (h1y : k1.y < 65536)
    (h2x : k2.x < 65536) (h2y : k2.y < 65536)
    (h : neighborStateVertex g.environment.space key_yaw k1
      = neighborStateVertex g.environment.space key_yaw k2) : k1 = k2 := by
  have h1 := hc.project k1 h1x h1y
  have h2 := hc.project k2 h2x h2y
  rw [h, h2] at h1
  have h3 := hc.key_vertex k1 h1x h1y
  rw [← h1, hc.key_vertex k2 h2x h2y] at h3
  exact h3.symm

/-- A bounded key whose vertex is in the cost map is the key of that entry, hence
in range. -/
theorem Consistent.inRange_of_hasKey {g : GridBasedBodyAdjacency} {key_yaw : Nat}
    (hc : Consistent g key_yaw) (k : Key) (hx : k.x < 65536) (hy : k.y < 65536)
    (h : CostMap.hasKey g.environment.terrainCostMap
      (g.environment.space.keyToVertex k) = true) :
    Key.inRange g.neighboring_definition k := by
  obtain ⟨c, hmem⟩ := (hasKey_iff _ _).mp h
  have := hc.in_range _ hmem
  simpa [hc.key_vertex k hx hy] using this

theorem Consistent.hasKey_key {g : GridBasedBodyAdjacency} {key_yaw : Nat}
    (hc : Consistent g key_yaw) (tc : Vertex × Weight)
    (htc : tc ∈ g.environment.terrainCostMap) :
    CostMap.hasKey g.environment.terrainCostMap
      (g.environment.space.keyToVertex (g.environment.space.vertexToKey tc.1)) = true := by
  rw [hc.vertex_key tc htc]
  exact (hasKey_iff _ _).mpr ⟨tc.2, htc⟩

/-- The neighbors found from the state vertex of a bounded key. -/
theorem Consistent.mem_searchNeighbors {g : GridBasedBodyAdjacency} {key_yaw : Nat}
    (hc : Consistent g key_yaw) (hterrain : g.environment.isTerrainInformation = true)
    (k : Key) (hx : k.x < 65536) (hy : k.y < 65536) (x : Vertex) :
    x ∈ searchNeighbors g (neighborStateVertex g.environment.space key_yaw k) ↔
      ∃ d r, (List.range' 1 g.neighboring_definition).find? (keyPresent g k d) = some r ∧
        x = neighborStateVertex g.environment.space key_yaw (searchingKey d k r) := by
  rw [searchNeighbors_eq_rounds g _ hterrain, mem_searchNeighborsRounds]
  unfold firstMatch neighborAt
  rw [hc.terrainKey_eq k hx hy, hc.yawKey_eq k hx hy]

/-- First matches are mutual: when direction `d` from the key `k` of a cell of
the cost map has its first match at radius `r`, at the key of a cell of the
cost map, the opposite direction from that key has its first match at `k`, at
the same radius: both searches test the same cells in between. -/
theorem Consistent.first_match_back {g : GridBasedBodyAdjacency} {key_yaw : Nat}
    (hc : Consistent g key_yaw) (k : Key) (hx : k.x < 65536) (hy : k.y < 65536)
    (hk : CostMap.hasKey g.environment.terrainCostMap
      (g.environment.space.keyToVertex k) = true)
    (d : Direction) (r : Nat)
    (h : (List.range' 1 g.neighboring_definition).find? (keyPresent g k d) = some r)
    (hk' : CostMap.hasKey g.environment.terrainCostMap
      (g.environment.space.keyToVertex (searchingKey d k r)) = true) :
    (List.range' 1 g.neighboring_definition).find?
        (keyPresent g (searchingKey d k r) d.opposite) = some r ∧
      searchingKey d.opposite (searchingKey d k r) r = k := by
  obtain ⟨h1, h2, hp, hmin⟩ := (find_range_eq_some _ _ _).mp h
  have hkr := hc.inRange_of_hasKey k hx hy hk
  have hb := searchingKey_bounded d k r hx hy
  have hkr' := hc.inRange_of_hasKey (searchingKey d k r) hb.1 hb.2 hk'
  have hback : searchingKey d.opposite (searchingKey d k r) r = k := by
    rw [searchingKey_opposite d k _ r r hkr h2 (le_refl r) hkr', Nat.sub_self,
      searchingKey_zero d k hx hy]
  refine ⟨(find_range_eq_some _ _ _).mpr ⟨h1, h2, ?_, ?_⟩, hback⟩
  · unfold keyPresent
    rw [hback]
    exact tested_of_hasKey _ _ _ hk
  · intro r' hr1 hr2
    unfold keyPresent
    rw [searchingKey_opposite d k _ r r' hkr h2 (by omega) hkr']
    exact hmin (r - r') (by omega) (by omega)

/-- The neighbor relation is symmetric on the state vertices of the cells of the
cost map. -/
theorem Consistent.neighbors_symm {g : GridBasedBodyAdjacency} {key_yaw : Nat}
    (hc : Consistent g key_yaw) (hterrain : g.environment.isTerrainInformation = true)
    (k k' : Key) (hx : k.x < 65536) (hy : k.y < 65536)
    (hk : CostMap.hasKey g.environment.terrainCostMap
      (g.environment.space.keyToVertex k) = true)
    (hx' : k'.x < 65536) (hy' : k'.y < 65536)
    (hkey' : CostMap.hasKey g.environment.terrainCostMap
      (g.environment.space.keyToVertex k') = true)
    (h : neighborStateVertex g.environment.space key_yaw k'
      ∈ searchNeighbors g (neighborStateVertex g.environment.space key_yaw k)) :
    neighborStateVertex g.environment.space key_yaw k
      ∈ searchNeighbors g (neighborStateVertex g.environment.space key_yaw k') := by
  obtain ⟨d, r, hfind, heq⟩ := (hc.mem_searchNeighbors hterrain k hx hy _).mp h
  have hb := searchingKey_bounded d k r hx hy
  have hk' : k' = searchingKey d k r :=
    hc.vertex_injective k' _ hx' hy' hb.1 hb.2 heq
  obtain ⟨hfind', hback⟩ := hc.first_match_back k hx hy hk d r hfind (hk' ▸ hkey')
  rw [hc.mem_searchNeighbors hterrain k' hx' hy']
  refine ⟨d.opposite, r, ?_, ?_⟩
  · rw [hk']; exact hfind'
  · rw [hk', hback]

/-- No vertex is found twice from the state vertex of a key in range. -/
theorem Consistent.nodup_searchNeighbors {g : GridBasedBodyAdjacency} {key_yaw : Nat}
    (hc : Consistent g key_yaw) (hterrain : g.environment.isTerrainInformation = true)
    (k : Key) (hkr : Key.inRange g.neighboring_definition k) :
    (searchNeighbors g (neighborStateVertex g.environment.space key_yaw k)).Nodup := by
  have hx : k.x < 65536 := by unfold Key.inRange at hkr; omega
  have hy : k.y < 65536 := by unfold Key.inRange at hkr; omega
  have hinj : ∀ d e r s, 1 ≤ r → r ≤ g.neighboring_definition → 1 ≤ s →
      s ≤ g.neighboring_definition →
      neighborAt g (neighborStateVertex g.environment.space key_yaw k) d r
        = neighborAt g (neighborStateVertex g.environment.space key_yaw k) e s →
      d = e ∧ r = s := by
    intro d e r s hr1 hr hs1 hs h
    unfold neighborAt at h
    rw [hc.terrainKey_eq k hx hy, hc.yawKey_eq k hx hy] at h
    have hb1 := searchingKey_bounded d k r hx hy
    have hb2 := searchingKey_bounded e k s hx hy
    exact searchingKey_injective d e k _ r s hkr hr1 hr hs1 hs
      (hc.vertex_injective _ _ hb1.1 hb1.2 hb2.1 hb2.2 h)
  rw [searchNeighbors_eq_rounds g _ hterrain]
  unfold searchNeighborsRounds
  rw [List.nodup_flatMap]
  constructor
  · intro r hr
    rw [List.mem_range'_1] at hr
    apply List.Nodup.map_on
    · intro d _ e _ h
      exact (hinj d e r r hr.1 (by omega) hr.1 (by omega) h).1
    · exact Direction.all_nodup.filter _
  · have hnd : (List.range' 1 g.neighboring_definition).Nodup := List.nodup_range' 1 _
    refine List.Pairwise.imp_of_mem ?_ hnd
    intro r s hr hs hne
    rw [List.mem_range'_1] at hr hs
    intro x hx1 hx2
    obtain ⟨d, _, hd⟩ := List.mem_map.mp hx1
    obtain ⟨e, _, he⟩ := List.mem_map.mp hx2
    exact hne (hinj d e r s hr.1 (by omega) hs.1 (by omega) (hd.trans he.symm)).2

/-- With ending body-cost evaluations the loop of `getSuccessors` appends one
edge per neighbor, in order. -/
theorem successorLoop_eq (g : GridBasedBodyAdjacency) (fuel : Nat) (hrun : Terminates g fuel)
    (slots : Nat → ℚ) (ns : List Vertex) (acc : List Edge) :
    successorLoop fuel g slots ns acc = some (acc ++ successorEdges g slots ns) := by
  induction ns generalizing acc slots with
  | nil => simp [successorLoop, successorEdges]
  | cons n ns ih =>
    unfold successorLoop
    simp only []
    have hrest := ih (fun i => slots (i + 1)) (acc ++ [(n, successorWeight g (slots 0) n)])
    cases hmode : g.is_stance_adjacency with
    | false =>
      have hw : successorWeight g (slots 0) n
          = Double.number (CostMap.findEntry g.environment.terrainCostMap
              g.environment.costMapEnd
              (g.environment.space.stateVertexToEnvironmentVertex n)).2 := by
        simp [successorWeight, edgeWeight, hmode]
      simp only [Bool.not_false, if_true]
      rw [← hw, hrest]
      simp [successorEdges]
    | true =>
      simp only [Bool.not_true, Bool.false_eq_true, if_false]
      rw [computeBodyCost_eq_value g fuel hrun hmode]
      have hw : successorWeight g (slots 0) n = bodyCostValue g (slots 0) n := by
        simp [successorWeight, edgeWeight, hmode]
      simp only [Option.bind]
      rw [← hw, hrest]
      simp [successorEdges]

/-- The targets of the successor edges are the neighbors, in order. -/
theorem successorEdges_targets (g : GridBasedBodyAdjacency) (slots : Nat → ℚ)
    (ns : List Vertex) : (successorEdges g slots ns).map Prod.fst = ns := by
  induction ns generalizing slots with
  | nil => rfl
  | cons n ns ih => simp [successorEdges, ih]

/-- In raw-cost mode the weight of a successor edge is `find(terrain_vertex)->second`. -/
theorem successorEdges_raw (g : GridBasedBodyAdjacency) (hmode : g.is_stance_adjacency = false)
    (slots : Nat → ℚ) (ns : List Vertex) :
    successorEdges g slots ns
      = ns.map (fun n => (n, Double.number
          (CostMap.findEntry g.environment.terrainCostMap g.environment.costMapEnd
            (g.environment.space.stateVertexToEnvironmentVertex n)).2)) := by
  induction ns generalizing slots with
  | nil => rfl
  | cons n ns ih => simp [successorEdges, successorWeight, edgeWeight, hmode, ih]

theorem flatMap_ite_singleton {α β : Type} (l : List α) (p : α → Bool) (f : α → β) :
    l.flatMap (fun a => if p a then [f a] else []) = (l.filter p).map f := by
  induction l with
  | nil => rfl
  | cons a l ih =>
    rw [List.flatMap_cons, ih, List.filter_cons]
    cases p a <;> simp

theorem Consistent.entry_eq_of_vertex_eq {g : GridBasedBodyAdjacency} {key_yaw : Nat}
    (hc : Consistent g key_yaw) (a b : Vertex × Weight)
    (ha : a ∈ g.environment.terrainCostMap) (hb : b ∈ g.environment.terrainCostMap)
    (h : a.1 = b.1) : a = b :=
  List.inj_on_of_nodup_map hc.nodup_keys ha hb h

/-- For the state vertex of a cost-map entry `find(terrain_vertex)->second` is
the cost of that entry. -/
theorem Consistent.rawWeight_eq {g : GridBasedBodyAdjacency} {key_yaw : Nat}
    (hc : Consistent g key_yaw) (tc : Vertex × Weight)
    (htc : tc ∈ g.environment.terrainCostMap) :
    (CostMap.findEntry g.environment.terrainCostMap g.environment.costMapEnd
        (g.environment.space.stateVertexToEnvironmentVertex
          (neighborStateVertex g.environment.space key_yaw
            (g.environment.space.vertexToKey tc.1)))).2 = tc.2 := by
  have hb := hc.key_bounded tc htc
  rw [hc.project _ hb.1 hb.2, hc.vertex_key tc htc,
    findEntry_of_find _ _ tc.1 tc.2 (find_of_mem_nodup _ hc.nodup_keys tc.1 tc.2 htc)]

/-- Where no vertex is found twice, the raw-cost edges under `v` come, one each,
from the entries whose state vertex has `v` among its neighbors. -/
theorem Consistent.rawEdges_eq_filter {g : GridBasedBodyAdjacency} {key_yaw : Nat}
    (hc : Consistent g key_yaw) (hterrain : g.environment.isTerrainInformation = true)
    (v : Vertex) :
    g.environment.terrainCostMap.flatMap (fun tc' =>
        List.replicate
          ((searchNeighbors g
            (stateVertexOf g (g.environment.space.keyToState key_yaw false) tc'.1)).count v)
          (stateVertexOf g (g.environment.space.keyToState key_yaw false) tc'.1,
            Double.number tc'.2))
      = (g.environment.terrainCostMap.filter (fun tc' =>
          decide (v ∈ searchNeighbors g (neighborStateVertex g.environment.space key_yaw
              (g.environment.space.vertexToKey tc'.1))))).map
          (fun tc' => (neighborStateVertex g.environment.space key_yaw
              (g.environment.space.vertexToKey tc'.1),
            Double.number (CostMap.findEntry g.environment.terrainCostMap
              g.environment.costMapEnd
              (g.environment.space.stateVertexToEnvironmentVertex
                (neighborStateVertex g.environment.space key_yaw
                  (g.environment.space.vertexToKey tc'.1)))).2)) := by
  rw [← flatMap_ite_singleton]
  apply List.flatMap_congr
  intro tc' htc'
  rw [hc.stateVertexOf_eq tc' htc', hc.rawWeight_eq tc' htc']
  have hnd := hc.nodup_searchNeighbors hterrain _ (hc.in_range tc' htc')
  by_cases hmem : v ∈ searchNeighbors g (neighborStateVertex g.environment.space key_yaw
        (g.environment.space.vertexToKey tc'.1))
  · rw [List.count_eq_one_of_mem hnd hmem, decide_eq_true hmem]
    rfl
  · rw [List.count_eq_zero_of_not_mem hmem, decide_eq_false hmem]
    rfl

theorem Consistent.mem_batch_iff {g : GridBasedBodyAdjacency} {key_yaw : Nat}
    (hc : Consistent g key_yaw) (hterrain : g.environment.isTerrainInformation = true)
    (hprobes : ProbesInMap g)
    (tc : Vertex × Weight) (htc : tc ∈ g.environment.terrainCostMap) (n : Vertex) :
    (∃ tc' ∈ g.environment.terrainCostMap,
        neighborStateVertex g.environment.space key_yaw (g.environment.space.vertexToKey tc.1)
          ∈ searchNeighbors g (neighborStateVertex g.environment.space key_yaw
              (g.environment.space.vertexToKey tc'.1)) ∧
        neighborStateVertex g.environment.space key_yaw
          (g.environment.space.vertexToKey tc'.1) = n) ↔
      n ∈ searchNeighbors g (neighborStateVertex g.environment.space key_yaw
        (g.environment.space.vertexToKey tc.1)) := by
  have hb := hc.key_bounded tc htc
  have hk := hc.hasKey_key tc htc
  constructor
  · rintro ⟨tc', htc', hmem, rfl⟩
    have hb' := hc.key_bounded tc' htc'
    exact hc.neighbors_symm hterrain _ _ hb'.1 hb'.2 (hc.hasKey_key tc' htc')
      hb.1 hb.2 hk hmem
  · intro hn
    obtain ⟨d, r, hfind, heq⟩ := (hc.mem_searchNeighbors hterrain _ hb.1 hb.2 n).mp hn
    obtain ⟨hr1, hr2, hp, _⟩ := (find_range_eq_some _ _ _).mp hfind
    have hin := hprobes tc htc d r hr1 hr2 hp
    obtain ⟨c, hmem⟩ := (hasKey_iff _ _).mp hin
    have hsb := searchingKey_bounded d (g.environment.space.vertexToKey tc.1) r hb.1 hb.2
    have hkey := hc.key_vertex _ hsb.1 hsb.2
    refine ⟨_, hmem, ?_, ?_⟩
    · rw [hkey]
      rw [heq] at hn
      exact hc.neighbors_symm hterrain _ _ hb.1 hb.2 hk hsb.1 hsb.2 hin hn
    · rw [hkey, ← heq]

theorem Consistent.nodup_batch {g : GridBasedBodyAdjacency} {key_yaw : Nat}
    (hc : Consistent g key_yaw) (p : Vertex × Weight → Bool) :
    ((g.environment.terrainCostMap.filter p).map (fun tc' =>
      neighborStateVertex g.environment.space key_yaw
        (g.environment.space.vertexToKey tc'.1))).Nodup := by
  refine List.Nodup.map_on ?_ ((List.Nodup.of_map _ hc.nodup_keys).filter _)
  intro a ha b hb' h
  have ha' := (List.mem_filter.mp ha).1
  have hb'' := (List.mem_filter.mp hb').1
  have hba := hc.key_bounded a ha'
  have hbb := hc.key_bounded b hb''
  have hkeys := hc.vertex_injective _ _ hba.1 hba.2 hbb.1 hbb.2 h
  apply hc.entry_eq_of_vertex_eq a b ha' hb''
  rw [← hc.vertex_key a ha', ← hc.vertex_key b hb'', hkeys]

/-- Under a vertex of the cost map, seen at the heading `key_yaw`, and with no
probe passing the presence test outside the cost map, the raw-cost edges of
the batch are the raw-cost successor edges up to order. -/
theorem Consistent.rawEdges_perm {g : GridBasedBodyAdjacency} {key_yaw : Nat}
    (hc : Consistent g key_yaw) (hterrain : g.environment.isTerrainInformation = true)
    (hprobes : ProbesInMap g)
    (tc : Vertex × Weight) (htc : tc ∈ g.environment.terrainCostMap) :
    List.Perm
      (g.environment.terrainCostMap.flatMap (fun tc' =>
        List.replicate
          ((searchNeighbors g
            (stateVertexOf g (g.environment.space.keyToState key_yaw false) tc'.1)).count
              (stateVertexOf g (g.environment.space.keyToState key_yaw false) tc.1))
          (stateVertexOf g (g.environment.space.keyToState key_yaw false) tc'.1,
            Double.number tc'.2)))
      ((searchNeighbors g
          (stateVertexOf g (g.environment.space.keyToState key_yaw false) tc.1)).map
        (fun n => (n, Double.number
          (CostMap.findEntry g.environment.terrainCostMap g.environment.costMapEnd
            (g.environment.space.stateVertexToEnvironmentVertex n)).2))) := by
  rw [hc.rawEdges_eq_filter hterrain, hc.stateVertexOf_eq tc htc]
  have hmap : ∀ l : List (Vertex × Weight),
      l.map (fun tc' => (neighborStateVertex g.environment.space key_yaw
          (g.environment.space.vertexToKey tc'.1),
        Double.number (CostMap.findEntry g.environment.terrainCostMap
          g.environment.costMapEnd
          (g.environment.space.stateVertexToEnvironmentVertex
            (neighborStateVertex g.environment.space key_yaw
              (g.environment.space.vertexToKey tc'.1)))).2))
      = (l.map (fun tc' => neighborStateVertex g.environment.space key_yaw
          (g.environment.space.vertexToKey tc'.1))).map
          (fun n => (n, Double.number
            (CostMap.findEntry g.environment.terrainCostMap g.environment.costMapEnd
              (g.environment.space.stateVertexToEnvironmentVertex n)).2)) := by
    intro l
    rw [List.map_map]
    rfl
  rw [hmap]
  apply List.Perm.map
  apply (List.perm_ext_iff_of_nodup (hc.nodup_batch _)
    (hc.nodup_searchNeighbors hterrain _ (hc.in_range tc htc))).mpr
  intro n
  rw [← hc.mem_batch_iff hterrain hprobes tc htc n]
  simp only [List.mem_map, List.mem_filter, decide_eq_true_eq]
  constructor
  · rintro ⟨tc', ⟨h1, h2⟩, h3⟩
    exact ⟨tc', h1, h2, h3⟩
  · rintro ⟨tc', h1, h2, h3⟩
    exact ⟨tc', ⟨h1, h2⟩, h3⟩

theorem map_fst_flatMap_replicate {α : Type} (l : List α) (c : α → Nat) (f : α → Vertex)
    (w : α → Double) :
    (l.flatMap (fun a => List.replicate (c a) (f a, w a))).map Prod.fst
      = l.flatMap (fun a => List.replicate (c a) (f a)) := by
  induction l with
  | nil => rfl
  | cons a l ih => simp [List.flatMap_cons, ih]

/-- C7 (amended). With terrain information, ending body-cost evaluations, a
consistent Spatial Model and cost map, no probe passing the presence test
outside the cost map, and a state vertex `v` rebuilt from a vertex of the cost
map at the heading of `source`: `getSuccessors` from the empty list and
`computeAdjacencyMap` from the empty map both return, whatever the contents of
the uninitialized locals; the targets of the edges stored under `v` are, up to
order, the targets of the bridging edges at `v` followed by the targets of the
successor edges; and in raw-cost mode the edges stored under `v` are, up to
order, the bridging edges at `v` followed by the successor edges, weights
included. -/
theorem getSuccessors_perm_batch (g : GridBasedBodyAdjacency) (fuel : Nat)
    (batch_slots successor_slots : Nat → ℚ)
    (source target : Vertex) (tc : Vertex × Weight)
    (htc : tc ∈ g.environment.terrainCostMap)
    (hterrain : g.environment.isTerrainInformation = true) (hrun : Terminates g fuel)
    (hc : Consistent g (yawKey g source)) (hprobes : ProbesInMap g) :
    ∃ successors m,
      getSuccessors fuel g successor_slots [] (stateVertexOf g (sourceYaw g source) tc.1)
        = some successors ∧
      computeAdjacencyMap fuel g batch_slots (fun _ => []) source target = some m ∧
      List.Perm ((m (stateVertexOf g (sourceYaw g source) tc.1)).map Prod.fst)
        ((bridgingEdges g source target (stateVertexOf g (sourceYaw g source) tc.1)
          ++ successors).map Prod.fst) ∧
      (g.is_stance_adjacency = false →
        List.Perm (m (stateVertexOf g (sourceYaw g source) tc.1))
          (bridgingEdges g source target (stateVertexOf g (sourceYaw g source) tc.1)
            ++ successors)) := by
  have hyaw : sourceYaw g source
      = g.environment.space.keyToState (yawKey g source) false := rfl
  have hperm := hc.rawEdges_perm hterrain hprobes tc htc
  refine ⟨successorEdges g successor_slots
      (searchNeighbors g (stateVertexOf g (sourceYaw g source) tc.1)), _, ?_,
    computeAdjacencyMap_eq g fuel hterrain hrun batch_slots _ source target, ?_, ?_⟩
  · unfold getSuccessors
    simp only [hterrain, if_true]
    rw [successorLoop_eq g fuel hrun]
    rfl
  · simp only [List.nil_append, List.map_append]
    apply List.Perm.append_left
    rw [terrainEdges_targets, successorEdges_targets, hyaw]
    have h := hperm.map Prod.fst
    rw [map_fst_flatMap_replicate, List.map_map] at h
    have hid : (Prod.fst ∘ fun (n : Vertex) => (n, Double.number
        (CostMap.findEntry g.environment.terrainCostMap g.environment.costMapEnd
          (g.environment.space.stateVertexToEnvironmentVertex n)).2)) = id := rfl
    rw [hid, List.map_id] at h
    exact h
  · intro hmode
    simp only [List.nil_append]
    apply List.Perm.append_left
    rw [terrainEdges_raw g hmode, successorEdges_raw g hmode, hyaw]
    exact hperm

/-! ## Entries of the queue -/

theorem equivalentUnder_comm (less : Weight × Vertex → Weight × Vertex → Bool)
    (p q : Weight × Vertex) : equivalentUnder less p q = equivalentUnder less q p := by
  unfold equivalentUnder
  exact Bool.and_comm _ _

theorem retained_fold_length_le (less : Weight × Vertex → Weight × Vertex → Bool)
    (hits acc : List (Weight × Vertex)) :
    (hits.foldl (fun acc p =>
        if acc.any (equivalentUnder less p) then acc else acc ++ [p]) acc).length
      ≤ acc.length + hits.length := by
  induction hits generalizing acc with
  | nil => simp
  | cons p hits ih =>
    rw [List.foldl_cons]
    by_cases h : acc.any (equivalentUnder less p) = true
    · rw [if_pos h]
      exact (ih acc).trans (by simp)
    · rw [if_neg h]
      exact (ih (acc ++ [p])).trans (by simp only [List.length_append, List.length_cons, List.length_nil]; omega)

theorem retained_length_le (less : Weight × Vertex → Weight × Vertex → Bool)
    (hits : List (Weight × Vertex)) : (retained less hits).length ≤ hits.length := by
  have h := retained_fold_length_le less hits []
  simpa [retained] using h

theorem retained_fold_of_pairwise (less : Weight × Vertex → Weight × Vertex → Bool)
    (hits acc : List (Weight × Vertex))
    (hpw : (acc ++ hits).Pairwise (fun p q => equivalentUnder less p q = false)) :
    hits.foldl (fun acc p =>
        if acc.any (equivalentUnder less p) then acc else acc ++ [p]) acc
      = acc ++ hits := by
  induction hits generalizing acc with
  | nil => simp
  | cons p hits ih =>
    rw [List.foldl_cons]
    have hno : acc.any (equivalentUnder less p) = false := by
      rw [List.any_eq_false]
      intro q hq
      have h1 := (List.pairwise_append.mp hpw).2.2 q hq p (List.mem_cons_self _ _)
      rw [equivalentUnder_comm, h1]
      simp
    rw [hno]
    simp only [Bool.false_eq_true, if_false]
    rw [ih (acc ++ [p]) (by simpa using hpw)]
    simp

/-- When no two entries are equivalent, all of them are retained. -/
theorem retained_of_pairwise (less : Weight × Vertex → Weight × Vertex → Bool)
    (hits : List (Weight × Vertex))
    (hpw : hits.Pairwise (fun p q => equivalentUnder less p q = false)) :
    retained less hits = hits := by
  have h := retained_fold_of_pairwise less hits [] (by simpa using hpw)
  simpa [retained] using h

/-- Where no sample passes the presence test outside the cost map, the pairs
handed to the queue are those of the samples found in the cost map. -/
theorem sampledHits_eq_knownHits (g : GridBasedBodyAdjacency) (state : State)
    (a : SearchArea) (hclean : SamplesInMap g state a) :
    sampledHits g state a = knownHits g state a := by
  unfold sampledHits knownHits
  apply List.filterMap_congr
  intro p hp
  cases hk : CostMap.hasKey g.environment.terrainCostMap
      (g.environment.space.coordToVertex (rotatedPoint g state p.1 p.2)) with
  | true =>
    obtain ⟨c, hc⟩ := Option.isSome_iff_exists.mp hk
    rw [tested_of_hasKey _ _ _ hk, findEntry_of_find _ _ _ c hc, hc]
    rfl
  | false =>
    have ht : CostMap.tested g.environment.terrainCostMap g.environment.costMapEnd
        (g.environment.space.coordToVertex (rotatedPoint g state p.1 p.2)) = false := by
      cases ht : CostMap.tested g.environment.terrainCostMap g.environment.costMapEnd
          (g.environment.space.coordToVertex (rotatedPoint g state p.1 p.2)) with
      | false => rfl
      | true =>
        have := hclean p hp ht
        rw [hk] at this
        cases this
    have hnone : CostMap.find g.environment.terrainCostMap
        (g.environment.space.coordToVertex (rotatedPoint g state p.1 p.2)) = none := by
      unfold CostMap.hasKey at hk
      cases hf : CostMap.find g.environment.terrainCostMap
          (g.environment.space.coordToVertex (rotatedPoint g state p.1 p.2)) with
      | none => rfl
      | some c => rw [hf] at hk; cases hk
    rw [ht, hnone]
    rfl

/-- C11 (amended). For a comparator that is a strict order never placing a higher
cost first, an area of positive resolution and no sample passing the presence
test outside the cost map, the sampling ends with a queue that holds as many
entries as the ordered set retains of the samples found in the cost map: one
per class of comparator-equivalent `(cost, vertex)` pairs. The count used for
the selection is the minimum of the top count and that number. The number is
at most the number of samples found in the cost map and equals it when no two
of them are equivalent. -/
theorem stanceQueue_length (g : GridBasedBodyAdjacency) (state : State) (a : SearchArea)
    (hless : CostOrder g.pair_first_less) (hres : 0 < a.grid_resolution)
    (hclean : SamplesInMap g state a)
    (fuel : Nat) (hfuel : areaFuel a ≤ fuel) :
    ∃ queue, stanceQueue fuel g state a = some queue ∧
      queue.length = (retained g.pair_first_less (knownHits g state a)).length ∧
      topCount g queue
        = min g.number_top_reward
            (retained g.pair_first_less (knownHits g state a)).length ∧
      queue.length ≤ (knownHits g state a).length ∧
      ((knownHits g state a).Pairwise
          (fun p q => equivalentUnder g.pair_first_less p q = false) →
        queue.length = (knownHits g state a).length) := by
  have hperm := (queueOf_perm_retained g.pair_first_less hless (sampledHits g state a)).1
  rw [sampledHits_eq_knownHits g state a hclean] at hperm
  refine ⟨_, stanceQueue_eq g state a hres fuel hfuel, ?_, ?_, ?_, ?_⟩
  · rw [sampledHits_eq_knownHits g state a hclean]
    exact hperm.length_eq
  · unfold topCount
    rw [sampledHits_eq_knownHits g state a hclean, hperm.length_eq]
    split <;> omega
  · rw [sampledHits_eq_knownHits g state a hclean, hperm.length_eq]
    exact retained_length_le _ _
  · intro hpw
    rw [sampledHits_eq_knownHits g state a hclean, hperm.length_eq,
      retained_of_pairwise _ _ hpw]

/-! ## On-demand successors -/

/-- With terrain information and ending body-cost evaluations `getSuccessors`
appends one edge per vertex returned by `searchNeighbors`, in the same order
and with that vertex as target. The weight is `find(terrain_vertex)->second`
in raw-cost mode and the value written by `computeBodyCost` in stance mode. -/
theorem getSuccessors_eq (g : GridBasedBodyAdjacency) (fuel : Nat) (slots : Nat → ℚ)
    (v : Vertex) (successors : List Edge)
    (hterrain : g.environment.isTerrainInformation = true) (hrun : Terminates g fuel) :
    getSuccessors fuel g slots successors v
        = some (successors ++ successorEdges g slots (searchNeighbors g v)) ∧
      (successorEdges g slots (searchNeighbors g v)).map Prod.fst = searchNeighbors g v := by
  refine ⟨?_, successorEdges_targets g slots _⟩
  unfold getSuccessors
  simp only [hterrain, if_true]
  exact successorLoop_eq g fuel hrun slots _ _

/-! ## Neighbor search and the radius -/

theorem searchNeighbors_withRadius (g : GridBasedBodyAdjacency) (R : Nat) (v : Vertex) :
    searchNeighbors (withRadius g R) v
      = if g.environment.isTerrainInformation then
          (List.range' 1 R).flatMap (emitted g (yawKey g v) (terrainKey g v))
        else [] := by
  cases hterrain : g.environment.isTerrainInformation with
  | false =>
    have h : (withRadius g R).environment.isTerrainInformation = false := hterrain
    simp [searchNeighbors, h]
  | true =>
    have h : (withRadius g R).environment.isTerrainInformation = true := hterrain
    rw [searchNeighbors_eq (withRadius g R) v h]
    rfl

/-- Enlarging the radius only appends neighbors. -/
theorem searchNeighbors_radius_append (g : GridBasedBodyAdjacency) (R R' : Nat) (h : R ≤ R')
    (v : Vertex) :
    ∃ rest, searchNeighbors (withRadius g R') v
      = searchNeighbors (withRadius g R) v ++ rest := by
  rw [searchNeighbors_withRadius, searchNeighbors_withRadius]
  cases g.environment.isTerrainInformation with
  | false => exact ⟨[], rfl⟩
  | true =>
    have hr : List.range' 1 R' = List.range' 1 R ++ List.range' (1 + R) (R' - R) := by
      rw [List.range'_append_1]
      congr 1
      omega
    refine ⟨(List.range' (1 + R) (R' - R)).flatMap
      (emitted g (yawKey g v) (terrainKey g v)), ?_⟩
    simp only [if_true]
    rw [hr, List.flatMap_append]

/-- C13. For radii `R ≤ R'` the number of vertices `searchNeighbors` returns
with radius `R` is at most the number it returns with radius `R'`. -/
theorem searchNeighbors_length_mono (g : GridBasedBodyAdjacency) (R R' : Nat) (h : R ≤ R')
    (v : Vertex) :
    (searchNeighbors (withRadius g R) v).length
      ≤ (searchNeighbors (withRadius g R') v).length := by
  obtain ⟨rest, hrest⟩ := searchNeighbors_radius_append g R R' h v
  rw [hrest, List.length_append]
  omega

/-! ## Sign of the body cost -/

theorem mem_setInsert (less : Weight × Vertex → Weight × Vertex → Bool)
    (p x : Weight × Vertex) (queue : CostQueue) (h : x ∈ setInsert less p queue) :
    x = p ∨ x ∈ queue := by
  induction queue with
  | nil =>
    simp only [setInsert, List.mem_singleton] at h
    exact Or.inl h
  | cons e rest ih =>
    unfold setInsert at h
    split at h
    · rcases List.mem_cons.mp h with h1 | h1
      · exact Or.inl h1
      · exact Or.inr h1
    · split at h
      · rcases List.mem_cons.mp h with h1 | h1
        · exact Or.inr (h1 ▸ List.mem_cons_self _ _)
        · rcases ih h1 with h2 | h2
          · exact Or.inl h2
          · exact Or.inr (List.mem_cons_of_mem _ h2)
      · exact Or.inr h

theorem mem_queue_fold (less : Weight × Vertex → Weight × Vertex → Bool)
    (hits : List (Weight × Vertex)) (queue : CostQueue) (x : Weight × Vertex)
    (h : x ∈ hits.foldl (fun queue p => setInsert less p queue) queue) :
    x ∈ queue ∨ x ∈ hits := by
  induction hits generalizing queue with
  | nil => exact Or.inl h
  | cons p hits ih =>
    rw [List.foldl_cons] at h
    rcases ih _ h with h1 | h1
    · rcases mem_setInsert less p x queue h1 with h2 | h2
      · exact Or.inr (h2 ▸ List.mem_cons_self _ _)
      · exact Or.inl h2
    · exact Or.inr (List.mem_cons_of_mem _ h1)

/-- Every entry of the queue is one of the inserted entries. -/
theorem mem_queueOf (less : Weight × Vertex → Weight × Vertex → Bool)
    (hits : List (Weight × Vertex)) (x : Weight × Vertex) (h : x ∈ queueOf less hits) :
    x ∈ hits := by
  rcases mem_queue_fold less hits [] x h with h1 | h1
  · cases h1
  · exact h1

/-- The cost read by `find(v)->second` is non-negative when the costs of the map
and the cost read through `end()` are. -/
theorem findEntry_snd_nonneg (m : CostMap) (end_entry : Vertex × Weight) (v : Vertex)
    (hcost : ∀ tc ∈ m, 0 ≤ tc.2) (hend : 0 ≤ end_entry.2) :
    0 ≤ (CostMap.findEntry m end_entry v).2 := by
  cases hf : CostMap.find m v with
  | none =>
    have hk : CostMap.hasKey m v = false := by simp [CostMap.hasKey, hf]
    rw [findEntry_of_not_hasKey m end_entry v hk]
    exact hend
  | some c =>
    rw [findEntry_of_find m end_entry v c hf]
    exact hcost _ (find_some_mem m v c hf)

/-- Every pair handed to the queue carries a non-negative cost when the costs of
the map and the cost read through `end()` are non-negative. -/
theorem sampledHits_nonneg (g : GridBasedBodyAdjacency) (state : State) (a : SearchArea)
    (hcost : ∀ tc ∈ g.environment.terrainCostMap, 0 ≤ tc.2)
    (hend : 0 ≤ g.environment.costMapEnd.2)
    (x : Weight × Vertex) (h : x ∈ sampledHits g state a) : 0 ≤ x.1 := by
  unfold sampledHits at h
  rw [List.mem_filterMap] at h
  obtain ⟨p, _, hp⟩ := h
  split at hp
  · simp only [Option.some.injEq] at hp
    rw [← hp]
    exact findEntry_snd_nonneg _ _ _ hcost hend
  · cases hp

theorem popLowest_nonneg (k : Nat) (queue : CostQueue) (acc : ℚ)
    (hq : ∀ p ∈ queue, 0 ≤ p.1) (hacc : 0 ≤ acc) : 0 ≤ popLowest k queue acc := by
  induction k generalizing queue acc with
  | zero => simpa [popLowest] using hacc
  | succ k ih =>
    cases queue with
    | nil => simpa [popLowest] using hacc
    | cons p rest =>
      simp only [popLowest]
      exact ih rest _ (fun x hx => hq x (List.mem_cons_of_mem _ hx))
        (add_nonneg hacc (hq p (List.mem_cons_self _ _)))

theorem stanceCost_nonneg (g : GridBasedBodyAdjacency) (queue : CostQueue)
    (hq : ∀ p ∈ queue, 0 ≤ p.1) (huf : 0 ≤ g.uncertainty_factor)
    (havg : 0 ≤ g.environment.averageCostOfTerrain) : 0 ≤ stanceCost g queue := by
  unfold stanceCost
  split
  · rw [zero_add]
    exact mul_nonneg huf havg
  · exact div_nonneg (popLowest_nonneg _ _ _ hq (le_refl 0)) (Nat.cast_nonneg _)

/-- With at least one stance area the value written by `computeBodyCost` is a
non-negative number when the costs of the map, the cost read through `end()`,
the average terrain cost, the uncertainty factor and the initial content of
`body_cost` are non-negative. -/
theorem bodyCostValue_nonneg (g : GridBasedBodyAdjacency) (body_cost : ℚ) (v : Vertex)
    (hcost : ∀ tc ∈ g.environment.terrainCostMap, 0 ≤ tc.2)
    (hend : 0 ≤ g.environment.costMapEnd.2)
    (huf : 0 ≤ g.uncertainty_factor) (havg : 0 ≤ g.environment.averageCostOfTerrain)
    (hinit : 0 ≤ body_cost) (hareas : g.stance_areas ≠ []) :
    ∃ q, bodyCostValue g body_cost v = Double.number q ∧ 0 ≤ q := by
  have hlen : g.stance_areas.length ≠ 0 := fun h => hareas (List.length_eq_zero.mp h)
  refine ⟨_, by unfold bodyCostValue divideByCount; rw [if_neg hlen], ?_⟩
  apply div_nonneg _ (Nat.cast_nonneg _)
  apply add_nonneg hinit
  apply List.sum_nonneg
  intro c hc
  obtain ⟨a, _, rfl⟩ := List.mem_map.mp hc
  apply stanceCost_nonneg g _ _ huf havg
  intro p hp
  exact sampledHits_nonneg g _ a hcost hend p (mem_queueOf _ _ p hp)

/-! ## Rotation of the samples -/

/-- C15. The point `sampleBody` projects to a terrain vertex and hands to the
presence test is the image of the sample `(x, y)` under the rotation about the body position `(sx, sy)` with
the cosine and sine of the heading. Where the cosine is 1 and the sine 0
(heading 0) it is `(x, y)` itself; where the cosine is 0 and the sine 1
(heading 90 degrees) it is `(sx - (y - sy), sy + (x - sx))`. -/
theorem rotatedPoint_rotation (g : GridBasedBodyAdjacency) (state : State) (x y : ℚ)
    (queue : CostQueue) :
    sampleBody g state x y queue
        = (if CostMap.tested g.environment.terrainCostMap g.environment.costMapEnd
              (g.environment.space.coordToVertex (rotatedPoint g state x y)) then
            setInsert g.pair_first_less
              ((CostMap.findEntry g.environment.terrainCostMap g.environment.costMapEnd
                  (g.environment.space.coordToVertex (rotatedPoint g state x y))).2,
                g.environment.space.coordToVertex (rotatedPoint g state x y)) queue
          else queue) ∧
      rotatedPoint g state x y
        = (state.x + ((x - state.x) * g.cos state.yaw - (y - state.y) * g.sin state.yaw),
           state.y + ((x - state.x) * g.sin state.yaw + (y - state.y) * g.cos state.yaw)) ∧
      (g.cos state.yaw = 1 → g.sin state.yaw = 0 → rotatedPoint g state x y = (x, y)) ∧
      (g.cos state.yaw = 0 → g.sin state.yaw = 1 →
        rotatedPoint g state x y = (state.x - (y - state.y), state.y + (x - state.x))) := by
  refine ⟨rfl, ?_, ?_, ?_⟩
  · unfold rotatedPoint
    ext <;> simp only [] <;> ring
  · intro hc hs
    unfold rotatedPoint
    rw [hc, hs]
    ext <;> simp only [] <;> ring
  · intro hc hs
    unfold rotatedPoint
    rw [hc, hs]
    ext <;> simp only [] <;> ring

/-! ## The sample points of an area -/

/-- With a positive resolution and enough fuel the nested loops run their body
over `samplePoints`, in order, whatever the body. -/
theorem sampleLoops_eq {σ : Type} (body : ℚ → ℚ → σ → σ) (state : State) (a : SearchArea)
    (hres : 0 < a.grid_resolution) (fuel : Nat) (hfuel : areaFuel a ≤ fuel) (init : σ) :
    sampleLoops body fuel state a init
      = some ((samplePoints a state).foldl (fun s p => body p.1 p.2 s) init) := by
  have hx : loopCount (a.min_x + state.x) (a.max_x + state.x) a.grid_resolution ≤ fuel := by
    rw [loopCount_shift]
    exact (le_max_left _ _).trans hfuel
  have hy : loopCount (a.min_y + state.y) (a.max_y + state.y) a.grid_resolution ≤ fuel := by
    rw [loopCount_shift]
    exact (le_max_right _ _).trans hfuel
  unfold sampleLoops
  have hinner : (fun (y : ℚ) (s : σ) =>
      forLoop (fun x s => some (body x y s)) fuel
        (a.min_x + state.x) (a.max_x + state.x) a.grid_resolution s)
      = fun y s => some
          ((axisSamples (a.min_x + state.x) (a.max_x + state.x) a.grid_resolution).foldl
            (fun s x => body x y s) s) := by
    funext y s
    rw [forLoop_eq_foldlM _ _ _ hres fuel _ _ hx]
    exact foldlM_some _ _ _
  rw [hinner, forLoop_eq_foldlM _ _ _ hres fuel _ _ hy]
  rw [foldlM_some (fun s y =>
    (axisSamples (a.min_x + state.x) (a.max_x + state.x) a.grid_resolution).foldl
      (fun s x => body x y s) s)]
  congr 1
  unfold samplePoints
  rw [foldl_grid]

theorem mem_axisSamples (lo hi step : ℚ) (hstep : 0 < step) (x : ℚ) :
    x ∈ axisSamples lo hi step ↔ ∃ i : Nat, x = lo + (i : ℚ) * step ∧ x < hi := by
  unfold axisSamples loopCount
  simp only [List.mem_map, List.mem_range]
  constructor
  · rintro ⟨i, hi', rfl⟩
    refine ⟨i, rfl, ?_⟩
    have h1 := (Nat.lt_ceil).mp hi'
    have h2 := (lt_div_iff₀ hstep).mp h1
    linarith
  · rintro ⟨i, rfl, hlt⟩
    refine ⟨i, ?_, rfl⟩
    apply (Nat.lt_ceil).mpr
    apply (lt_div_iff₀ hstep).mpr
    linarith

theorem axisSamples_nodup (lo hi step : ℚ) (hstep : 0 < step) :
    (axisSamples lo hi step).Nodup := by
  unfold axisSamples
  apply List.Nodup.map _ (List.nodup_range _)
  intro i j hij
  simp only [add_right_inj] at hij
  have h := mul_right_cancel₀ hstep.ne' hij
  exact_mod_cast h

theorem mem_samplePoints (a : SearchArea) (state : State) (hres : 0 < a.grid_resolution)
    (x y : ℚ) :
    (x, y) ∈ samplePoints a state ↔
      ∃ i j : Nat, x = a.min_x + state.x + (i : ℚ) * a.grid_resolution ∧
        y = a.min_y + state.y + (j : ℚ) * a.grid_resolution ∧
        x < a.max_x + state.x ∧ y < a.max_y + state.y := by
  unfold samplePoints
  simp only [List.mem_flatMap, List.mem_map, Prod.mk.injEq, mem_axisSamples _ _ _ hres]
  constructor
  · rintro ⟨y', ⟨j, hj, hjlt⟩, x', ⟨i, hi', hilt⟩, hx, hy⟩
    subst hx hy
    exact ⟨i, j, hi', hj, hilt, hjlt⟩
  · rintro ⟨i, j, hi', hj, hilt, hjlt⟩
    exact ⟨y, ⟨j, hj, hjlt⟩, x, ⟨i, hi', hilt⟩, rfl, rfl⟩

theorem samplePoints_nodup (a : SearchArea) (state : State) (hres : 0 < a.grid_resolution) :
    (samplePoints a state).Nodup := by
  unfold samplePoints
  rw [List.nodup_flatMap]
  constructor
  · intro y _
    apply List.Nodup.map _ (axisSamples_nodup _ _ _ hres)
    intro x1 x2 h
    exact (Prod.mk.inj h).1
  · refine List.Pairwise.imp ?_ (axisSamples_nodup _ _ _ hres)
    intro y1 y2 hne p hp1 hp2
    obtain ⟨_, _, h1⟩ := List.mem_map.mp hp1
    obtain ⟨_, _, h2⟩ := List.mem_map.mp hp2
    rw [← h2] at h1
    exact hne (Prod.mk.inj h1).2

theorem samplePoints_of_empty (a : SearchArea) (state : State) (hres : 0 < a.grid_resolution)
    (h : a.max_x ≤ a.min_x ∨ a.max_y ≤ a.min_y) : samplePoints a state = [] := by
  unfold samplePoints
  rcases h with h | h
  · rw [axisSamples_of_not_lt (a.min_x + state.x) _ _ hres (by linarith)]
    simp
  · rw [axisSamples_of_not_lt (a.min_y + state.y) _ _ hres (by linarith)]
    rfl

/-- C16. For a stance area of positive resolution and enough fuel, the nested
loops run their body, whatever it is, exactly over `samplePoints` (so does
the filling of the queue), and these are, each once, the grid points
`(min_x + sx + i res, min_y + sy + j res)` with `i, j ≥ 0` whose `x` is
strictly below `max_x + sx` and whose `y` is strictly below `max_y + sy`: the
upper bounds are not sampled. An area with `max ≤ min` on either axis has no
sample point and costs the fallback penalty. -/
theorem samplePoints_half_open (g : GridBasedBodyAdjacency) (state : State) (a : SearchArea)
    (hres : 0 < a.grid_resolution) (fuel : Nat) (hfuel : areaFuel a ≤ fuel) :
    (∀ (σ : Type) (body : ℚ → ℚ → σ → σ) (init : σ),
        sampleLoops body fuel state a init
          = some ((samplePoints a state).foldl (fun s p => body p.1 p.2 s) init)) ∧
      stanceQueue fuel g state a = sampleLoops (sampleBody g state) fuel state a [] ∧
      (∀ x y, (x, y) ∈ samplePoints a state ↔
        ∃ i j : Nat, x = a.min_x + state.x + (i : ℚ) * a.grid_resolution ∧
          y = a.min_y + state.y + (j : ℚ) * a.grid_resolution ∧
          x < a.max_x + state.x ∧ y < a.max_y + state.y) ∧
      (samplePoints a state).Nodup ∧
      (∀ y, (a.max_x + state.x, y) ∉ samplePoints a state) ∧
      (∀ x, (x, a.max_y + state.y) ∉ samplePoints a state) ∧
      (a.max_x ≤ a.min_x ∨ a.max_y ≤ a.min_y →
        samplePoints a state = [] ∧
          areaCost fuel g state a
            = some (g.uncertainty_factor * g.environment.averageCostOfTerrain)) := by
  refine ⟨fun σ body init => sampleLoops_eq body state a hres fuel hfuel init, rfl,
    mem_samplePoints a state hres, samplePoints_nodup a state hres, ?_, ?_, ?_⟩
  · intro y hmem
    obtain ⟨_, _, _, _, h, _⟩ := (mem_samplePoints a state hres _ _).mp hmem
    exact lt_irrefl _ h
  · intro x hmem
    obtain ⟨_, _, _, _, _, h⟩ := (mem_samplePoints a state hres _ _).mp hmem
    exact lt_irrefl _ h
  · intro h
    have hempty := samplePoints_of_empty a state hres h
    refine ⟨hempty, areaCost_of_no_hits g state a hres fuel hfuel ?_⟩
    unfold sampledHits
    rw [hempty]
    rfl

/-! ## Construction -/

theorem Consistent.toRoundtrip {g : GridBasedBodyAdjacency} {key_yaw : Nat}
    (hc : Consistent g key_yaw) : Roundtrip g key_yaw :=
  ⟨hc.key_vertex, hc.vertex_key, hc.coord, hc.project, hc.heading, hc.key_bounded⟩

theorem Roundtrip.rebuilt_eq {g : GridBasedBodyAdjacency} {key_yaw : Nat}
    (hr : Roundtrip g key_yaw) (tc : Vertex × Weight)
    (htc : tc ∈ g.environment.terrainCostMap) :
    stateVertexOf g (g.environment.space.keyToState key_yaw false) tc.1
      = neighborStateVertex g.environment.space key_yaw
          (g.environment.space.vertexToKey tc.1) := by
  unfold stateVertexOf neighborStateVertex
  simp only [hr.coord tc htc]

theorem Roundtrip.mem_neighbors {g : GridBasedBodyAdjacency} {key_yaw : Nat}
    (hr : Roundtrip g key_yaw) (hterrain : g.environment.isTerrainInformation = true)
    (k : Key) (hx : k.x < 65536) (hy : k.y < 65536) (x : Vertex) :
    x ∈ searchNeighbors g (neighborStateVertex g.environment.space key_yaw k) ↔
      ∃ d r, (List.range' 1 g.neighboring_definition).find? (keyPresent g k d) = some r ∧
        x = neighborStateVertex g.environment.space key_yaw (searchingKey d k r) := by
  rw [searchNeighbors_eq_rounds g _ hterrain, mem_searchNeighborsRounds]
  unfold firstMatch neighborAt
  have htk : terrainKey g (neighborStateVertex g.environment.space key_yaw k) = k := by
    unfold terrainKey
    rw [hr.project k hx hy, hr.key_vertex k hx hy]
  have hyk : yawKey g (neighborStateVertex g.environment.space key_yaw k) = key_yaw :=
    hr.heading k hx hy
  rw [htk, hyk]

/-- With terrain information, ending body-cost evaluations and a Spatial Model
whose conversions agree on the cells of the cost map at the heading key of
`source`, every terrain-derived edge `n -> s` of `computeAdjacencyMap` has an
origin `n` and a target `s` whose heading key is the heading key of `source`;
the terrain projection of the target is in the cost map, the terrain
projection of the origin passes the presence test of the source. -/
theorem computeAdjacencyMap_heading (g : GridBasedBodyAdjacency) (fuel : Nat)
    (slots : Nat → ℚ) (adjacency_map : AdjacencyMap) (source target : Vertex)
    (hterrain : g.environment.isTerrainInformation = true) (hrun : Terminates g fuel)
    (hr : Roundtrip g (yawKey g source)) :
    ∃ m, computeAdjacencyMap fuel g slots adjacency_map source target = some m ∧
      (∀ n, m n = adjacency_map n ++ bridgingEdges g source target n
          ++ terrainEdges g (sourceYaw g source) slots g.environment.terrainCostMap n) ∧
      ∀ n e, e ∈ terrainEdges g (sourceYaw g source) slots g.environment.terrainCostMap n →
        yawKey g n = yawKey g source ∧ yawKey g e.1 = yawKey g source ∧
          CostMap.tested g.environment.terrainCostMap g.environment.costMapEnd
            (g.environment.space.stateVertexToEnvironmentVertex n) = true ∧
          CostMap.hasKey g.environment.terrainCostMap
            (g.environment.space.stateVertexToEnvironmentVertex e.1) = true := by
  refine ⟨_, computeAdjacencyMap_eq g fuel hterrain hrun slots adjacency_map source target,
    fun _ => rfl, ?_⟩
  intro n e he
  have hyaw : sourceYaw g source
      = g.environment.space.keyToState (yawKey g source) false := rfl
  obtain ⟨tc, htc, bc, hn, heq⟩ := mem_terrainEdges g _ _ _ n e he
  rw [hyaw, hr.rebuilt_eq tc htc] at hn heq
  have hb := hr.bounded tc htc
  obtain ⟨d, r, hfind, hnv⟩ := (hr.mem_neighbors hterrain _ hb.1 hb.2 n).mp hn
  obtain ⟨_, _, hp, _⟩ := (find_range_eq_some _ _ _).mp hfind
  have hsb := searchingKey_bounded d (g.environment.space.vertexToKey tc.1) r hb.1 hb.2
  have he1 : e.1 = neighborStateVertex g.environment.space (yawKey g source)
      (g.environment.space.vertexToKey tc.1) := by rw [heq]
  refine ⟨?_, ?_, ?_, ?_⟩
  · rw [hnv]
    exact hr.heading _ hsb.1 hsb.2
  · rw [he1]
    exact hr.heading _ hb.1 hb.2
  · rw [hnv, hr.project _ hsb.1 hsb.2]
    exact hp
  · rw [he1, hr.project _ hb.1 hb.2, hr.vertex_key tc htc]
    exact (hasKey_iff _ _).mpr ⟨tc.2, htc⟩

/-! ## Termination of the sampling loops -/

/-- A loop whose step is not positive and whose variable starts below the bound
never ends, whatever the body. -/
theorem forLoop_diverges {σ : Type} (body : ℚ → σ → Option σ) (hi step : ℚ)
    (hstep : step ≤ 0) (fuel : Nat) (x : ℚ) (s : σ) (hx : x < hi) :
    forLoop body fuel x hi step s = none := by
  induction fuel generalizing x s with
  | zero => simp [forLoop, hx]
  | succ fuel ih =>
    simp only [forLoop, hx, if_true]
    cases body x s with
    | none => rfl
    | some s' => exact ih (x + step) s' (by linarith)

theorem samplePoints_length (a : SearchArea) (state : State) :
    (samplePoints a state).length
      = ⌈(a.max_x - a.min_x) / a.grid_resolution⌉₊
        * ⌈(a.max_y - a.min_y) / a.grid_resolution⌉₊ := by
  have hlen : ∀ (xs ys : List ℚ),
      (ys.flatMap (fun y => xs.map (fun x => (x, y)))).length = xs.length * ys.length := by
    intro xs ys
    induction ys with
    | nil => simp
    | cons y ys ih =>
      rw [List.flatMap_cons, List.length_append, ih, List.length_map, List.length_cons]
      ring
  unfold samplePoints
  rw [hlen]
  unfold axisSamples
  rw [List.length_map, List.length_range, List.length_map, List.length_range,
    loopCount_shift, loopCount_shift]
  rfl

/-- C19. For a stance area of positive resolution the sampling loops end for
every fuel from `areaFuel` on, after running their body over
`ceil((max_x - min_x) / res) * ceil((max_y - min_y) / res)` sample points (the
ceilings taken in the natural numbers). For a stance area whose resolution is
not positive and whose `min_y` is below `max_y` they end for no fuel. -/
theorem sampling_terminates (g : GridBasedBodyAdjacency) (state : State) (a : SearchArea) :
    (0 < a.grid_resolution → ∀ fuel, areaFuel a ≤ fuel →
      (∃ queue, stanceQueue fuel g state a = some queue) ∧
        (∀ (σ : Type) (body : ℚ → ℚ → σ → σ) (init : σ),
          sampleLoops body fuel state a init
            = some ((samplePoints a state).foldl (fun s p => body p.1 p.2 s) init)) ∧
        (samplePoints a state).length
          = ⌈(a.max_x - a.min_x) / a.grid_resolution⌉₊
            * ⌈(a.max_y - a.min_y) / a.grid_resolution⌉₊) ∧
      (a.grid_resolution ≤ 0 → a.min_y < a.max_y →
        ∀ fuel, stanceQueue fuel g state a = none) := by
  constructor
  · intro hres fuel hfuel
    exact ⟨⟨_, stanceQueue_eq g state a hres fuel hfuel⟩,
      fun σ body init => sampleLoops_eq body state a hres fuel hfuel init,
      samplePoints_length a state⟩
  · intro hres hy fuel
    unfold stanceQueue
    exact forLoop_diverges _ _ _ hres fuel _ _ (by linarith)

/-! ## Symmetry of the neighbor relation -/

/-- C20. For a consistent Spatial Model and cost map (conversions agreeing, one
entry per vertex, key offsets not wrapping) and two state vertices `u`, `v`
that are the vertices rebuilt at the heading key `key_yaw` from their terrain
keys, both keys being in the cost map: `v` is among the neighbors of `u` if
and only if `u` is among the neighbors of `v`. -/
theorem searchNeighbors_symmetric (g : GridBasedBodyAdjacency) (key_yaw : Nat)
    (hc : Consistent g key_yaw) (u v : Vertex)
    (hu : neighborStateVertex g.environment.space key_yaw (terrainKey g u) = u)
    (hv : neighborStateVertex g.environment.space key_yaw (terrainKey g v) = v)
    (hbu : (terrainKey g u).x < 65536 ∧ (terrainKey g u).y < 65536)
    (hbv : (terrainKey g v).x < 65536 ∧ (terrainKey g v).y < 65536)
    (hcu : CostMap.hasKey g.environment.terrainCostMap
      (g.environment.space.keyToVertex (terrainKey g u)) = true)
    (hcv : CostMap.hasKey g.environment.terrainCostMap
      (g.environment.space.keyToVertex (terrainKey g v)) = true) :
    v ∈ searchNeighbors g u ↔ u ∈ searchNeighbors g v := by
  cases hterrain : g.environment.isTerrainInformation with
  | false => simp [searchNeighbors, hterrain]
  | true =>
    generalize terrainKey g u = ku at hu hbu hcu
    generalize terrainKey g v = kv at hv hbv hcv
    subst hu hv
    constructor
    · intro h
      exact hc.neighbors_symm hterrain ku kv hbu.1 hbu.2 hcu hbv.1 hbv.2 hcv h
    · intro h
      exact hc.neighbors_symm hterrain kv ku hbv.1 hbv.2 hcv hbu.1 hbu.2 hcu h

/-! ## Leading segment of the output -/

/-- C21. For radii `R ≤ R'` the sequence `searchNeighbors` returns with radius
`R` is a leading segment of the sequence it returns with radius `R'`: the
larger radius yields the same vertices in the same order, followed by those
of the further rounds. -/
theorem searchNeighbors_radius_segment (g : GridBasedBodyAdjacency) (R R' : Nat) (h : R ≤ R')
    (v : Vertex) :
    List.IsPrefix (searchNeighbors (withRadius g R) v) (searchNeighbors (withRadius g R') v) ∧
      (searchNeighbors (withRadius g R') v).take (searchNeighbors (withRadius g R) v).length
        = searchNeighbors (withRadius g R) v := by
  obtain ⟨rest, hrest⟩ := searchNeighbors_radius_append g R R' h v
  refine ⟨⟨rest, hrest.symm⟩, ?_⟩
  rw [hrest, List.take_left']
  rfl

/-! ## Checking the provisos on a given component -/

/-- The proviso `ProbesInMap` from a finite check of the probes. -/
theorem probesInMap_of_all (g : GridBasedBodyAdjacency)
    (h : (g.environment.terrainCostMap.all (fun tc =>
      Direction.all.all (fun d =>
        (List.range' 1 g.neighboring_definition).all (fun r =>
          !(keyPresent g (g.environment.space.vertexToKey tc.1) d r)
            || keyInMap g (g.environment.space.vertexToKey tc.1) d r)))) = true) :
    ProbesInMap g := by
  intro tc htc d r h1 h2 hp
  have h3 := List.all_eq_true.mp h tc htc
  have h4 := List.all_eq_true.mp h3 d (Direction.mem_all d)
  have h5 := List.all_eq_true.mp h4 r (by rw [List.mem_range'_1]; omega)
  rw [hp] at h5
  simpa using h5

/-- The proviso `SamplesInMap` from a finite check of the sample points. -/
theorem samplesInMap_of_all (g : GridBasedBodyAdjacency) (state : State) (a : SearchArea)
    (h : ((samplePoints a state).all (fun p =>
      !(CostMap.tested g.environment.terrainCostMap g.environment.costMapEnd
          (g.environment.space.coordToVertex (rotatedPoint g state p.1 p.2)))
        || CostMap.hasKey g.environment.terrainCostMap
          (g.environment.space.coordToVertex (rotatedPoint g state p.1 p.2)))) = true) :
    SamplesInMap g state a := by
  intro p hp ht
  have h3 := List.all_eq_true.mp h p hp
  rw [ht] at h3
  simpa using h3

set_option maxRecDepth 100000

/-! ### Instances on the line map

The cost map `lineMap` holds the cells `(5, 5)`, `(6, 5)` and `(8, 5)`; the
searches start from the state vertex of the cell `(6, 5)` at heading key 0. -/

/-- C4 (evaluation at the failing input). On the patch map, whose three cells
are `(5, 5)`, `(6, 5)` and `(7, 5)`, from the state vertex 2 of the cell
`(2, 0)` at heading key 0 and with radius 3: no key probed in direction `+x`
is a key of the cost map, so the direction should contribute no vertex. The
probe at radius 1 is the vertex 3, which is also the number of entries read
through `end()`; the test `find(3)->first == 3` passes without a comparison
with `end()`, `+x` has a first match at radius 1 and the vertex 3 is
returned. -/
theorem searchNeighbors_absent_key_evaluation :
    rawPatchGrid.environment.terrainCostMap = [(327685, 1), (327686, 2), (327687, 9)] ∧
      rawPatchGrid.environment.costMapEnd.1 = 3 ∧
      (List.range' 1 rawPatchGrid.neighboring_definition).any
          (keyInMap rawPatchGrid (terrainKey rawPatchGrid 2) .positive_x) = false ∧
      rawPatchGrid.environment.space.keyToVertex
          (searchingKey .positive_x (terrainKey rawPatchGrid 2) 1) = 3 ∧
      CostMap.hasKey rawPatchGrid.environment.terrainCostMap 3 = false ∧
      CostMap.tested rawPatchGrid.environment.terrainCostMap
          rawPatchGrid.environment.costMapEnd 3 = true ∧
      firstMatch rawPatchGrid 2 .positive_x = some 1 ∧
      searchNeighbors rawPatchGrid 2 = [3] := by
  decide

/-- C5 (evaluation at the failing input). On the patch map from the state vertex
2 of the cell `(2, 0)` with radius 3: no direction has a key of the cost map
within the radius, so the count of the claim is 0, but one vertex is
returned: the vertex 3 accepted through `end()`. -/
theorem searchNeighbors_length_evaluation :
    (Direction.all.filter (fun d =>
        (List.range' 1 rawPatchGrid.neighboring_definition).any
          (keyInMap rawPatchGrid (terrainKey rawPatchGrid 2) d))).length = 0 ∧
      (searchNeighbors rawPatchGrid 2).length = 1 ∧
      searchNeighbors rawPatchGrid 2 = [3] ∧
      CostMap.hasKey rawPatchGrid.environment.terrainCostMap
        (rawPatchGrid.environment.space.stateVertexToEnvironmentVertex 3) = false := by
  decide

/-- C6 (as stated) fails on the line map: from the cell `(6, 5)` the direction
`+x` has its first match at radius 2 and the direction `-x` at radius 1; `+x`
precedes `-x` in the enumeration, yet the `-x` neighbor is returned first. -/
theorem searchNeighbors_direction_order_counterexample :
    firstMatch lineGrid 327686 .positive_x = some 2 ∧
      firstMatch lineGrid 327686 .negative_x = some 1 ∧
      Direction.index .positive_x < Direction.index .negative_x ∧
      searchNeighbors lineGrid 327686
        = [neighborAt lineGrid 327686 .negative_x 1,
           neighborAt lineGrid 327686 .positive_x 2] ∧
      ¬ List.Sublist
          [neighborAt lineGrid 327686 .positive_x 2, neighborAt lineGrid 327686 .negative_x 1]
          (searchNeighbors lineGrid 327686) := by
  decide

/-- Instance of C6 (amended): the `-x` neighbor, found at radius 1, precedes the
`+x` neighbor, found at radius 2. -/
theorem searchNeighbors_round_order_witness :
    lineGrid.environment.isTerrainInformation = true ∧
      firstMatch lineGrid 327686 .negative_x = some 1 ∧
      firstMatch lineGrid 327686 .positive_x = some 2 ∧
      (1 < 2 ∨ (1 = 2 ∧ Direction.index .negative_x < Direction.index .positive_x)) ∧
      List.Sublist
        [neighborAt lineGrid 327686 .negative_x 1, neighborAt lineGrid 327686 .positive_x 2]
        (searchNeighbors lineGrid 327686) :=
  ⟨rfl, by decide, by decide, Or.inl (by decide),
   searchNeighbors_round_order lineGrid 327686 rfl .negative_x .positive_x 1 2
     (by decide) (by decide) (Or.inl (by decide))⟩

/-! ### Instances of the footprint cost -/

theorem costOrder_lessByCost : CostOrder lessByCost where
  irrefl := by intro p; simp [lessByCost]
  trans := by
    intro p q r h1 h2
    simp only [lessByCost, decide_eq_true_eq] at *
    exact lt_trans h1 h2
  cost_le := by
    intro p q h
    simp only [lessByCost, decide_eq_true_eq] at h
    exact h.le

theorem costOrder_lessByCostThenVertex : CostOrder lessByCostThenVertex where
  irrefl := by intro p; simp [lessByCostThenVertex]
  trans := by
    intro p q r h1 h2
    simp only [lessByCostThenVertex, decide_eq_true_eq] at *
    rcases h1 with h1 | ⟨h1, h1'⟩ <;> rcases h2 with h2 | ⟨h2, h2'⟩
    · exact Or.inl (lt_trans h1 h2)
    · exact Or.inl (h2 ▸ h1)
    · exact Or.inl (h1 ▸ h2)
    · exact Or.inr ⟨h1.trans h2, lt_trans h1' h2'⟩
  cost_le := by
    intro p q h
    simp only [lessByCostThenVertex, decide_eq_true_eq] at h
    rcases h with h | ⟨h, _⟩
    · exact h.le
    · exact h.le

/-- C1 (evaluation at the failing input). On the map of the five cells `(0, 0)`
to `(4, 0)` with costs 1, 2, 4, 5 and 6, with top count 5, the area
`[0, 6) x [0, 1)` sampled at step 1 from the cell `(0, 0)` holds five known
terrain points; the mean of the five lowest sampled costs is `18/5`. The sixth
sample is the vertex 5, which is no key of the map but is the number of
entries read through `end()`: it passes `find(5)->first == 5` and is inserted
with the cost read through `end()`. When that cost is 0 the area cost is
`(0 + 1 + 2 + 4 + 5) / 5 = 12/5`, when it is 3 the area cost is
`(1 + 2 + 3 + 4 + 5) / 5 = 3`, whether the comparator looks at the vertex or
not. -/
theorem areaCost_end_entry_evaluation :
    (knownHits (originGrid lessByCost 0) ⟨0, 0, 0⟩ originArea).map Prod.fst
        = [1, 2, 4, 5, 6] ∧
      (originGrid lessByCost 0).number_top_reward = 5 ∧
      meanOfLowest 5
        ((knownHits (originGrid lessByCost 0) ⟨0, 0, 0⟩ originArea).map Prod.fst) = 18 / 5 ∧
      CostMap.hasKey (originGrid lessByCost 0).environment.terrainCostMap 5 = false ∧
      (originGrid lessByCost 0).environment.costMapEnd.1
        = (originGrid lessByCost 0).environment.terrainCostMap.length ∧
      sampledHits (originGrid lessByCost 0) ⟨0, 0, 0⟩ originArea
        = [(1, 0), (2, 1), (4, 2), (5, 3), (6, 4), (0, 5)] ∧
      areaCost 6 (originGrid lessByCost 0) ⟨0, 0, 0⟩ originArea = some (12 / 5) ∧
      areaCost 6 (originGrid lessByCostThenVertex 0) ⟨0, 0, 0⟩ originArea = some (12 / 5) ∧
      areaCost 6 (originGrid lessByCost 3) ⟨0, 0, 0⟩ originArea = some 3 ∧
      areaCost 6 (originGrid lessByCostThenVertex 3) ⟨0, 0, 0⟩ originArea = some 3 := by
  with_unfolding_all decide

/-- Seven cells of cost 1, 2, 3, 4, 5, 9 and 9 sampled once each, away from the
vertex read through `end()`: with top count 5 the area cost is 3. -/
theorem areaCost_mean_of_lowest_instance :
    CostOrder (rowGrid lessByCost).pair_first_less ∧
      0 < rowArea.grid_resolution ∧
      0 < (rowGrid lessByCost).number_top_reward ∧
      (rowGrid lessByCost).number_top_reward
        ≤ (retained (rowGrid lessByCost).pair_first_less
            (sampledHits (rowGrid lessByCost) ⟨5, 5, 0⟩ rowArea)).length ∧
      areaFuel rowArea ≤ 7 ∧
      areaCost 7 (rowGrid lessByCost) ⟨5, 5, 0⟩ rowArea = some 3 :=
  ⟨costOrder_lessByCost, by with_unfolding_all decide, by decide,
   by with_unfolding_all decide, by with_unfolding_all decide,
   (areaCost_mean_of_lowest (rowGrid lessByCost) ⟨5, 5, 0⟩ rowArea costOrder_lessByCost
      (by with_unfolding_all decide) (by decide) (by with_unfolding_all decide) 7
      (by with_unfolding_all decide)).trans (by with_unfolding_all decide)⟩

/-- C2 (evaluation at the failing input). On the patch map with the local
`body_cost` holding 1 at the start of the call, at the state vertex of the
cell `(100, 100)`: no sample of the only stance area is in the cost map, none
passes the presence test, and the area cost is the penalty `1.15 * 4 = 23/5`,
as claimed; but the body cost written is `(1 + 23/5) / 1 = 28/5` and not the
penalty. -/
theorem computeBodyCost_penalty_evaluation :
    knownHits (patchGrid lessByCost)
        ((patchGrid lessByCost).environment.space.vertexToState 6553700) fineArea = [] ∧
      sampledHits (patchGrid lessByCost)
        ((patchGrid lessByCost).environment.space.vertexToState 6553700) fineArea = [] ∧
      areaCost 6 (patchGrid lessByCost)
        ((patchGrid lessByCost).environment.space.vertexToState 6553700) fineArea
        = some ((patchGrid lessByCost).uncertainty_factor
            * (patchGrid lessByCost).environment.averageCostOfTerrain) ∧
      (patchGrid lessByCost).uncertainty_factor
        * (patchGrid lessByCost).environment.averageCostOfTerrain = 23 / 5 ∧
      computeBodyCost 6 (patchGrid lessByCost) 1 6553700 = some (Double.number (28 / 5)) := by
  with_unfolding_all decide

/-- C3 (evaluation at the failing input). On the patch map with the local
`body_cost` holding 1 at the start of the call, at the state vertex of the
cell `(5, 5)`: the only stance area costs 4, so the mean of the area costs is
4, but the body cost written is `(1 + 4) / 1 = 5`. -/
theorem computeBodyCost_mean_evaluation :
    (patchGrid lessByCost).stance_areas.map
        (areaCost 6 (patchGrid lessByCost)
          ((patchGrid lessByCost).environment.space.vertexToState 327685)) = [some 4] ∧
      computeBodyCost 6 (patchGrid lessByCost) 1 327685 = some (Double.number 5) := by
  with_unfolding_all decide

/-! ### Instances of the batch and on-demand edges -/

/-- C7 (as stated) fails on the patch map in raw-cost mode: from the state vertex
of the cell `(6, 5)`, which is in the cost map and at the heading of the
source, `getSuccessors` lists the `+x` neighbor `(7, 5)` before the `-x`
neighbor `(5, 5)`, while the batch stores the edges in the order of the cost
map, `(5, 5)` first. -/
theorem getSuccessors_batch_order_counterexample :
    stateVertexOf rawPatchGrid (sourceYaw rawPatchGrid 327685) 327686 = 327686 ∧
      getSuccessors 0 rawPatchGrid (fun _ => 0) [] 327686
        = some [(327687, Double.number 9), (327685, Double.number 1)] ∧
      (computeAdjacencyMap 0 rawPatchGrid (fun _ => 0) (fun _ => []) 327685 327687).map
          (fun m => m 327686) = some [(327685, Double.number 1), (327687, Double.number 9)] ∧
      getSuccessors 0 rawPatchGrid (fun _ => 0) [] 327686
        ≠ (computeAdjacencyMap 0 rawPatchGrid (fun _ => 0) (fun _ => []) 327685 327687).map
            (fun m => m 327686) := by
  decide

theorem gridKey_natCast (n : Nat) (h : n < 65536) : gridKey (n : ℚ) = n := by
  unfold gridKey toUShort
  rw [Int.floor_natCast]
  omega

theorem gridSpace_neighborStateVertex (k : Key) (hx : k.x < 65536) (hy : k.y < 65536) :
    neighborStateVertex gridSpace 0 k = k.x + 65536 * k.y := by
  show gridKey (k.x : ℚ) + 65536 * gridKey (k.y : ℚ) + 4294967296 * gridKey ((0 : Nat) : ℚ)
    = k.x + 65536 * k.y
  rw [gridKey_natCast k.x hx, gridKey_natCast k.y hy, gridKey_natCast 0 (by decide)]
  omega

/-- The unit grid with the patch map is consistent at the heading key of the
source cell `(5, 5)`. -/
theorem consistent_rawPatchGrid : Consistent rawPatchGrid (yawKey rawPatchGrid 327685) := by
  have hyaw : yawKey rawPatchGrid 327685 = 0 := by decide
  rw [hyaw]
  have hmem : ∀ tc : Vertex × Weight, tc ∈ rawPatchGrid.environment.terrainCostMap →
      tc = (327685, 1) ∨ tc = (327686, 2) ∨ tc = (327687, 9) := by
    intro tc htc
    simpa [rawPatchGrid, sampleGrid, patchMap] using htc
  refine ⟨?_, ?_, ?_, ?_, ?_, ?_, ?_⟩
  · intro k hx hy
    obtain ⟨kx, ky⟩ := k
    show (⟨(kx + 65536 * ky) % 65536, (kx + 65536 * ky) / 65536 % 65536⟩ : Key) = ⟨kx, ky⟩
    simp only [Key.mk.injEq] at hx hy ⊢
    omega
  · intro tc htc
    rcases hmem tc htc with rfl | rfl | rfl <;> decide
  · intro tc htc
    rcases hmem tc htc with rfl | rfl | rfl <;> decide
  · intro k hx hy
    show @Eq Nat ((neighborStateVertex gridSpace 0 k) % 4294967296) (k.x + 65536 * k.y)
    rw [gridSpace_neighborStateVertex k hx hy]
    omega
  · intro k hx hy
    show gridKey (((neighborStateVertex gridSpace 0 k) / 4294967296 : Nat) : ℚ) = 0
    rw [gridSpace_neighborStateVertex k hx hy, gridKey_natCast _ (by omega)]
    omega
  · intro tc htc
    rcases hmem tc htc with rfl | rfl | rfl <;>
      simp only [Key.inRange] <;> decide
  · decide

/-- The stance component over the patch map shares the environment and the
radius of the raw-cost one. -/
theorem consistent_patchGrid :
    Consistent (patchGrid lessByCost) (yawKey (patchGrid lessByCost) 327685) :=
  ⟨consistent_rawPatchGrid.key_vertex, consistent_rawPatchGrid.vertex_key,
   consistent_rawPatchGrid.coord, consistent_rawPatchGrid.project,
   consistent_rawPatchGrid.heading, consistent_rawPatchGrid.in_range,
   consistent_rawPatchGrid.nodup_keys⟩

/-- From the cells of the patch map no probe within the radius meets the vertex
read through `end()`. -/
theorem probesInMap_rawPatchGrid : ProbesInMap rawPatchGrid :=
  probesInMap_of_all rawPatchGrid (by decide)

theorem probesInMap_patchGrid : ProbesInMap (patchGrid lessByCost) :=
  probesInMap_of_all (patchGrid lessByCost) (by decide)

theorem terminates_patchGrid : Terminates (patchGrid lessByCost) 6 :=
  fun _ => ⟨by with_unfolding_all decide, by with_unfolding_all decide⟩

/-- Instance of C7 (amended) at the cell `(6, 5)` of the patch map, in raw-cost
mode and in stance mode with different contents of the uninitialized
locals. -/
theorem getSuccessors_perm_batch_witness :
    (((327686, 2) : Vertex × Weight) ∈ rawPatchGrid.environment.terrainCostMap ∧
      rawPatchGrid.environment.isTerrainInformation = true ∧
      Terminates rawPatchGrid 0 ∧
      Consistent rawPatchGrid (yawKey rawPatchGrid 327685) ∧
      ProbesInMap rawPatchGrid ∧
      ∃ successors m,
        getSuccessors 0 rawPatchGrid (fun _ => 1) []
            (stateVertexOf rawPatchGrid (sourceYaw rawPatchGrid 327685) 327686)
          = some successors ∧
        computeAdjacencyMap 0 rawPatchGrid (fun _ => 2) (fun _ => []) 327685 327687 = some m ∧
        List.Perm
          ((m (stateVertexOf rawPatchGrid (sourceYaw rawPatchGrid 327685) 327686)).map Prod.fst)
          ((bridgingEdges rawPatchGrid 327685 327687
              (stateVertexOf rawPatchGrid (sourceYaw rawPatchGrid 327685) 327686)
            ++ successors).map Prod.fst) ∧
        (rawPatchGrid.is_stance_adjacency = false →
          List.Perm (m (stateVertexOf rawPatchGrid (sourceYaw rawPatchGrid 327685) 327686))
            (bridgingEdges rawPatchGrid 327685 327687
                (stateVertexOf rawPatchGrid (sourceYaw rawPatchGrid 327685) 327686)
              ++ successors))) ∧
    (((327686, 2) : Vertex × Weight) ∈ (patchGrid lessByCost).environment.terrainCostMap ∧
      (patchGrid lessByCost).environment.isTerrainInformation = true ∧
      Terminates (patchGrid lessByCost) 6 ∧
      Consistent (patchGrid lessByCost) (yawKey (patchGrid lessByCost) 327685) ∧
      ProbesInMap (patchGrid lessByCost) ∧
      ∃ successors m,
        getSuccessors 6 (patchGrid lessByCost) (fun _ => 1) []
            (stateVertexOf (patchGrid lessByCost) (sourceYaw (patchGrid lessByCost) 327685)
              327686)
          = some successors ∧
        computeAdjacencyMap 6 (patchGrid lessByCost) (fun _ => 2) (fun _ => []) 327685 327687
          = some m ∧
        List.Perm
          ((m (stateVertexOf (patchGrid lessByCost) (sourceYaw (patchGrid lessByCost) 327685)
            327686)).map Prod.fst)
          ((bridgingEdges (patchGrid lessByCost) 327685 327687
              (stateVertexOf (patchGrid lessByCost) (sourceYaw (patchGrid lessByCost) 327685)
                327686)
            ++ successors).map Prod.fst) ∧
        ((patchGrid lessByCost).is_stance_adjacency = false →
          List.Perm
            (m (stateVertexOf (patchGrid lessByCost) (sourceYaw (patchGrid lessByCost) 327685)
              327686))
            (bridgingEdges (patchGrid lessByCost) 327685 327687
                (stateVertexOf (patchGrid lessByCost)
                  (sourceYaw (patchGrid lessByCost) 327685) 327686)
              ++ successors))) :=
  ⟨⟨by decide, rfl, raw_terminates rawPatchGrid 0 rfl, consistent_rawPatchGrid,
    probesInMap_rawPatchGrid,
    getSuccessors_perm_batch rawPatchGrid 0 (fun _ => 2) (fun _ => 1) 327685 327687
      (327686, 2) (by decide) rfl (raw_terminates rawPatchGrid 0 rfl) consistent_rawPatchGrid
      probesInMap_rawPatchGrid⟩,
   ⟨by decide, rfl, terminates_patchGrid, consistent_patchGrid, probesInMap_patchGrid,
    getSuccessors_perm_batch (patchGrid lessByCost) 6 (fun _ => 2) (fun _ => 1) 327685 327687
      (327686, 2) (by decide) rfl terminates_patchGrid consistent_patchGrid
      probesInMap_patchGrid⟩⟩

/-! ### Instances of the queue entries -/

/-- C11 (as stated) fails on the patch map: the area `[0, 3) x [0, 1)` sampled at
step 1/2 from the cell `(5, 5)` has twelve samples in the cost map, four in
each of three cells, and no other sample passes the presence test; but the
queue holds three entries and the count used for the selection is 3, not
`min 5 12 = 5`, whether the comparator looks at the vertex or not. -/
theorem stanceQueue_length_counterexample :
    (knownHits (patchGrid lessByCostThenVertex) ⟨5, 5, 0⟩ fineArea).length = 12 ∧
      sampledHits (patchGrid lessByCostThenVertex) ⟨5, 5, 0⟩ fineArea
        = knownHits (patchGrid lessByCostThenVertex) ⟨5, 5, 0⟩ fineArea ∧
      (stanceQueue 6 (patchGrid lessByCostThenVertex) ⟨5, 5, 0⟩ fineArea).map List.length
        = some 3 ∧
      (stanceQueue 6 (patchGrid lessByCostThenVertex) ⟨5, 5, 0⟩ fineArea).map
          (topCount (patchGrid lessByCostThenVertex)) = some 3 ∧
      (stanceQueue 6 (patchGrid lessByCost) ⟨5, 5, 0⟩ fineArea).map List.length
        = some 3 ∧
      min (patchGrid lessByCostThenVertex).number_top_reward 12 = 5 := by
  with_unfolding_all decide

/-- Instance of C11 (amended): seven cells sampled once each under the comparator
that breaks ties by the vertex; seven entries, selection count 5. -/
theorem stanceQueue_length_witness :
    CostOrder (rowGrid lessByCostThenVertex).pair_first_less ∧
      0 < rowArea.grid_resolution ∧
      SamplesInMap (rowGrid lessByCostThenVertex) ⟨5, 5, 0⟩ rowArea ∧
      areaFuel rowArea ≤ 7 ∧
      ∃ queue, stanceQueue 7 (rowGrid lessByCostThenVertex) ⟨5, 5, 0⟩ rowArea = some queue ∧
        queue.length = 7 ∧ topCount (rowGrid lessByCostThenVertex) queue = 5 := by
  have hclean : SamplesInMap (rowGrid lessByCostThenVertex) ⟨5, 5, 0⟩ rowArea :=
    samplesInMap_of_all _ _ _ (by with_unfolding_all decide)
  refine ⟨costOrder_lessByCostThenVertex, by with_unfolding_all decide, hclean,
    by with_unfolding_all decide, ?_⟩
  obtain ⟨queue, hq, hlen, htop, _, _⟩ :=
    stanceQueue_length (rowGrid lessByCostThenVertex) ⟨5, 5, 0⟩ rowArea
      costOrder_lessByCostThenVertex (by with_unfolding_all decide) hclean 7
      (by with_unfolding_all decide)
  refine ⟨queue, hq, hlen.trans (by with_unfolding_all decide),
    htop.trans (by with_unfolding_all decide)⟩

/-! ### Instances of the on-demand successors -/

/-- C12 (evaluation at the failing input). On the patch map in raw-cost mode,
from the state vertex 2 of the cell `(2, 0)` at heading key 0: the projection
of every rebuilt state vertex is the terrain vertex that was probed, as the
claim asks. `searchNeighbors` returns the vertex 3, which the presence test
accepted through `end()`; its terrain projection 3 is no key of the cost map,
so the lookup of `getSuccessors` misses, and the weight of the edge is the
cost read through `end()`, not an entry of the cost map. -/
theorem getSuccessors_lookup_miss_evaluation :
    (∀ d r, rawPatchGrid.environment.space.stateVertexToEnvironmentVertex
          (neighborAt rawPatchGrid 2 d r)
        = rawPatchGrid.environment.space.keyToVertex
            (searchingKey d (terrainKey rawPatchGrid 2) r)) ∧
      rawPatchGrid.is_stance_adjacency = false ∧
      searchNeighbors rawPatchGrid 2 = [3] ∧
      rawPatchGrid.environment.space.stateVertexToEnvironmentVertex 3 = 3 ∧
      CostMap.find rawPatchGrid.environment.terrainCostMap 3 = none ∧
      CostMap.hasKey rawPatchGrid.environment.terrainCostMap 3 = false ∧
      getSuccessors 0 rawPatchGrid (fun _ => 0) [] 2
        = some [(3, Double.number rawPatchGrid.environment.costMapEnd.2)] := by
  refine ⟨?_, by decide, by decide, by decide, by decide, by decide, by decide⟩
  intro d r
  have hb := searchingKey_bounded d (terrainKey rawPatchGrid 2) r (by decide) (by decide)
  have hy : yawKey rawPatchGrid 2 = yawKey rawPatchGrid 327685 := by decide
  unfold neighborAt
  rw [hy]
  exact consistent_rawPatchGrid.project _ hb.1 hb.2

/-! ### Instances of the radius -/

/-- Instance of C13 on the line map from the cell `(6, 5)`: one neighbor with
radius 1, two with radius 3. -/
theorem searchNeighbors_length_mono_witness :
    1 ≤ 3 ∧
      (searchNeighbors (withRadius lineGrid 1) 327686).length = 1 ∧
      (searchNeighbors (withRadius lineGrid 3) 327686).length = 2 ∧
      (searchNeighbors (withRadius lineGrid 1) 327686).length
        ≤ (searchNeighbors (withRadius lineGrid 3) 327686).length :=
  ⟨by decide, by decide, by decide,
   searchNeighbors_length_mono lineGrid 1 3 (by decide) 327686⟩

/-! ### Instances of the sign of the body cost -/

/-- C14 (evaluation at the failing input). On the patch map, whose costs 1, 2
and 9, average terrain cost 4 and uncertainty factor 23/20 are non-negative,
with one stance area of resolution 1/2 and the local `body_cost` holding -10
at the start of the call, at the state vertex of the cell `(5, 5)`: the area
cost is 4 and the body cost written is `(-10 + 4) / 1 = -6`, which is
negative. -/
theorem computeBodyCost_negative_evaluation :
    (patchGrid lessByCost).environment.terrainCostMap.all (fun tc => decide (0 ≤ tc.2))
        = true ∧
      0 ≤ (patchGrid lessByCost).environment.averageCostOfTerrain ∧
      0 ≤ (patchGrid lessByCost).uncertainty_factor ∧
      (patchGrid lessByCost).stance_areas.all (fun a => decide (0 < a.grid_resolution))
        = true ∧
      computeBodyCost 6 (patchGrid lessByCost) (-10) 327685 = some (Double.number (-6)) ∧
      ((-6 : ℚ) < 0) := by
  with_unfolding_all decide

/-! ### Instances of the rotation -/

/-- Instance of C15 with exact rotations about the body position `(5, 5)`: at
heading 0 the sample `(7, 5)` stays where it is, at the quarter turn it is
mapped to `(5, 7)`. -/
theorem rotatedPoint_rotation_witness :
    turnGrid.cos 0 = 1 ∧ turnGrid.sin 0 = 0 ∧ turnGrid.cos 1 = 0 ∧ turnGrid.sin 1 = 1 ∧
      rotatedPoint turnGrid ⟨5, 5, 0⟩ 7 5 = (7, 5) ∧
      rotatedPoint turnGrid ⟨5, 5, 1⟩ 7 5 = (5 - (5 - 5), 5 + (7 - 5)) :=
  ⟨by with_unfolding_all decide, by with_unfolding_all decide, by with_unfolding_all decide,
   by with_unfolding_all decide,
   (rotatedPoint_rotation turnGrid ⟨5, 5, 0⟩ 7 5 []).2.2.1 (by with_unfolding_all decide)
     (by with_unfolding_all decide),
   (rotatedPoint_rotation turnGrid ⟨5, 5, 1⟩ 7 5 []).2.2.2 (by with_unfolding_all decide)
     (by with_unfolding_all decide)⟩

/-! ### Instances of the sample points -/

/-- Instance of C16: the area `[0, 3) x [0, 1)` at step 1/2 from the body
position `(5, 5)` is sampled at twelve points, `x` from 5 to 15/2 and `y` in
5 and 11/2; the upper bound 8 of `x` is not sampled. -/
theorem samplePoints_half_open_witness :
    0 < fineArea.grid_resolution ∧ areaFuel fineArea ≤ 6 ∧
      samplePoints fineArea ⟨5, 5, 0⟩
        = [(5, 5), (11 / 2, 5), (6, 5), (13 / 2, 5), (7, 5), (15 / 2, 5),
           (5, 11 / 2), (11 / 2, 11 / 2), (6, 11 / 2), (13 / 2, 11 / 2), (7, 11 / 2),
           (15 / 2, 11 / 2)] ∧
      ((fineArea.max_x + 5, 5) : ℚ × ℚ) ∉ samplePoints fineArea ⟨5, 5, 0⟩ :=
  ⟨by with_unfolding_all decide, by with_unfolding_all decide, by with_unfolding_all decide,
   (samplePoints_half_open (patchGrid lessByCost) ⟨5, 5, 0⟩ fineArea
      (by with_unfolding_all decide) 6 (by with_unfolding_all decide)).2.2.2.2.1 5⟩

/-! ### Instances of the construction and of the batch heading -/

/-- The unit grid with the stray map agrees with itself at the heading key of
the source cell `(5, 5)`. -/
theorem roundtrip_strayGrid : Roundtrip strayGrid (yawKey strayGrid 327685) := by
  have hyaw : yawKey strayGrid 327685 = 0 := by decide
  rw [hyaw]
  have hmem : ∀ tc : Vertex × Weight, tc ∈ strayGrid.environment.terrainCostMap →
      tc = (2, 7) ∨ tc = (327685, 1) ∨ tc = (327686, 2) := by
    intro tc htc
    simpa [strayGrid, sampleGrid, strayMap] using htc
  refine ⟨?_, ?_, ?_, ?_, ?_, ?_⟩
  · intro k hx hy
    obtain ⟨kx, ky⟩ := k
    show (⟨(kx + 65536 * ky) % 65536, (kx + 65536 * ky) / 65536 % 65536⟩ : Key) = ⟨kx, ky⟩
    simp only [Key.mk.injEq] at hx hy ⊢
    omega
  · intro tc htc
    rcases hmem tc htc with rfl | rfl | rfl <;> decide
  · intro tc htc
    rcases hmem tc htc with rfl | rfl | rfl <;> decide
  · intro k hx hy
    show @Eq Nat ((neighborStateVertex gridSpace 0 k) % 4294967296) (k.x + 65536 * k.y)
    rw [gridSpace_neighborStateVertex k hx hy]
    omega
  · intro k hx hy
    show gridKey (((neighborStateVertex gridSpace 0 k) / 4294967296 : Nat) : ℚ) = 0
    rw [gridSpace_neighborStateVertex k hx hy, gridKey_natCast _ (by omega)]
    omega
  · intro tc htc
    rcases hmem tc htc with rfl | rfl | rfl <;> decide

/-- C18 (evaluation at the failing input). On the stray map, whose three cells
are `(2, 0)`, `(5, 5)` and `(6, 5)`, in raw-cost mode and with a Spatial Model
whose conversions agree: the batch built for the source `(5, 5)` and the
target `(6, 5)` stores the terrain-derived edge `3 -> 2` under the vertex 3,
which `searchNeighbors` returned for the cell `(2, 0)` because the vertex 3 is
the number of entries read through `end()`. The origin 3 has the heading key
of the source, but its terrain projection 3 is no key of the cost map. -/
theorem computeAdjacencyMap_stray_origin_evaluation :
    Roundtrip strayGrid (yawKey strayGrid 327685) ∧
      strayGrid.environment.terrainCostMap = [(2, 7), (327685, 1), (327686, 2)] ∧
      strayGrid.environment.costMapEnd.1 = 3 ∧
      searchNeighbors strayGrid (stateVertexOf strayGrid (sourceYaw strayGrid 327685) 2) = [3] ∧
      bridgingEdges strayGrid 327685 327686 3 = [] ∧
      (computeAdjacencyMap 0 strayGrid (fun _ => 0) (fun _ => []) 327685 327686).map
          (fun m => m 3) = some [(2, Double.number 7)] ∧
      yawKey strayGrid 3 = yawKey strayGrid 327685 ∧
      CostMap.hasKey strayGrid.environment.terrainCostMap
        (strayGrid.environment.space.stateVertexToEnvironmentVertex 3) = false :=
  ⟨roundtrip_strayGrid, by decide, by decide, by decide, by decide, by decide, by decide,
   by decide⟩

/-! ### Instances of the termination and of the symmetry -/

/-- Instance of C19: the area `[0, 3) x [0, 1)` at step 1/2 is sampled at `6 * 2`
points with fuel 6; the area `[0, 1) x [0, 1)` with resolution 0 is still
being sampled after 1000 rounds. -/
theorem sampling_terminates_witness :
    0 < fineArea.grid_resolution ∧ areaFuel fineArea ≤ 6 ∧
      (samplePoints fineArea ⟨5, 5, 0⟩).length = 12 ∧
      (∃ queue, stanceQueue 6 (patchGrid lessByCost) ⟨5, 5, 0⟩ fineArea = some queue) ∧
      stuckArea.grid_resolution ≤ 0 ∧ stuckArea.min_y < stuckArea.max_y ∧
      stanceQueue 1000 (patchGrid lessByCost) ⟨5, 5, 0⟩ stuckArea = none :=
  ⟨by with_unfolding_all decide, by with_unfolding_all decide,
   ((sampling_terminates (patchGrid lessByCost) ⟨5, 5, 0⟩ fineArea).1
      (by with_unfolding_all decide) 6 (by with_unfolding_all decide)).2.2.trans
     (by with_unfolding_all decide),
   ((sampling_terminates (patchGrid lessByCost) ⟨5, 5, 0⟩ fineArea).1
      (by with_unfolding_all decide) 6 (by with_unfolding_all decide)).1,
   by with_unfolding_all decide, by with_unfolding_all decide,
   (sampling_terminates (patchGrid lessByCost) ⟨5, 5, 0⟩ stuckArea).2
     (by with_unfolding_all decide) (by with_unfolding_all decide) 1000⟩

/-- Instance of C20 on the patch map: the cells `(6, 5)` and `(7, 5)` are
neighbors of each other. -/
theorem searchNeighbors_symmetric_witness :
    Consistent rawPatchGrid (yawKey rawPatchGrid 327685) ∧
      (327687 ∈ searchNeighbors rawPatchGrid 327686 ↔
        327686 ∈ searchNeighbors rawPatchGrid 327687) ∧
      327687 ∈ searchNeighbors rawPatchGrid 327686 :=
  ⟨consistent_rawPatchGrid,
   searchNeighbors_symmetric rawPatchGrid (yawKey rawPatchGrid 327685)
     consistent_rawPatchGrid 327686 327687 (by decide) (by decide) (by decide) (by decide)
     (by decide) (by decide),
   by decide⟩

/-! ### Instance of the leading segment -/

/-- Instance of C21 on the line map from the cell `(6, 5)`: radius 1 returns the
cell `(5, 5)`, radius 3 returns the cells `(5, 5)` and `(8, 5)`. -/
theorem searchNeighbors_radius_segment_witness :
    1 ≤ 3 ∧
      searchNeighbors (withRadius lineGrid 1) 327686 = [327685] ∧
      searchNeighbors (withRadius lineGrid 3) 327686 = [327685, 327688] ∧
      List.IsPrefix (searchNeighbors (withRadius lineGrid 1) 327686)
        (searchNeighbors (withRadius lineGrid 3) 327686) :=
  ⟨by decide, by decide, by decide,
   (searchNeighbors_radius_segment lineGrid 1 3 (by decide) 327686).1⟩

end dwl
